import Mathlib

/-!
# gasm: module decoder and gas meter

A shallow embedding of the WebAssembly binary decoder of `wasm/section.go`,
`wasm/segment.go`, `wasm/type.go` and of the gas meter of `wasm/gas.go`.

* A byte stream (`io.Reader`) is the list of bytes that are still unread.
* A Go function `f(r, gas) (T, error)` is a state transformer over the reader and
  the gas meter whose outcome is a value, a returned error, or a panic.
* `uint32` values are natural numbers, reduced modulo `2^32` where the Go code
  can overflow; `int64` values are integers, wrapped into the signed 64-bit range.
-/

namespace Gasm

/-! ## Errors and outcomes -/

/-- A byte. -/
abbrev Byte := Fin 256

/-- Go error values. `wrapf` is `fmt.Errorf` with a `%w` verb (the wrapped error is
kept), `errorf` is `fmt.Errorf` without one, `new` is `errors.New`. The format
string is kept verbatim together with the numeric arguments. -/
inductive Err where
  | EOF
  | ErrUnexpectedEOF
  | ErrInvalidByte
  | ErrOutOfGas
  | new (msg : String)
  | errorf (format : String) (args : List Nat)
  | wrapf (format : String) (args : List Nat) (inner : Err)
  deriving DecidableEq, Repr

/-- The test `errors.Is(err, io.EOF)`: follow the chain of wrapped errors. -/
def Err.isEOF : Err → Bool
  | .EOF => true
  | .wrapf _ _ inner => inner.isEOF
  | _ => false

/-- The test `errors.Is(err, ErrInvalidByte)`. -/
def Err.isInvalidByte : Err → Bool
  | .ErrInvalidByte => true
  | .wrapf _ _ inner => inner.isInvalidByte
  | _ => false

/-- The value carried by a Go panic: an error value passed to `panic`, or one of the
run-time panics (index out of range, slice bounds out of range, nil pointer
dereference, assignment to an entry of a nil map, a panic raised by package
`reflect`). -/
inductive Panic where
  | err (e : Err)
  | indexOutOfRange
  | sliceBounds
  | nilPointer
  | nilMap
  | reflect
  deriving DecidableEq, Repr

/-- Outcome of a call: normal return, returned error, or panic. -/
inductive Res (α : Type) where
  | ok (a : α)
  | error (e : Err)
  | panic (p : Panic)
  deriving DecidableEq, Repr

/-- A computation over a mutable state `σ`; the state is returned in every case,
because mutations made before an error or a panic stay visible. -/
def M (σ α : Type) : Type := σ → Res α × σ

namespace M

def pure {σ α : Type} (a : α) : M σ α := fun s => (.ok a, s)

def bind {σ α β : Type} (x : M σ α) (f : α → M σ β) : M σ β := fun s =>
  match x s with
  | (.ok a, s') => f a s'
  | (.error e, s') => (.error e, s')
  | (.panic p, s') => (.panic p, s')

/-- The statement `return err`. -/
def fail {σ α : Type} (e : Err) : M σ α := fun s => (.error e, s)

/-- The statement `panic(p)`. -/
def doPanic {σ α : Type} (p : Panic) : M σ α := fun s => (.panic p, s)

/-- The idiom `if err != nil { return fmt.Errorf(..., err) }` around a call. -/
def mapErr {σ α : Type} (f : Err → Err) (x : M σ α) : M σ α := fun s =>
  match x s with
  | (.ok a, s') => (.ok a, s')
  | (.error e, s') => (.error (f e), s')
  | (.panic p, s') => (.panic p, s')

/-- A call whose error is kept in a variable and examined later. -/
def attempt {σ α : Type} (x : M σ α) : M σ (Except Err α) := fun s =>
  match x s with
  | (.ok a, s') => (.ok (.ok a), s')
  | (.error e, s') => (.ok (.error e), s')
  | (.panic p, s') => (.panic p, s')

end M

instance (σ : Type) : Monad (M σ) where
  pure := M.pure
  bind := M.bind

/-! ## Gas meter (`wasm/gas.go`) -/

/-- Wrap an integer into the `int64` range. -/
def wrapInt64 (x : Int) : Int := (x + 2 ^ 63) % 2 ^ 64 - 2 ^ 63

/-- The two implementations of the `GasMeter` interface. -/
inductive GasMeter where
  | gas (remaining : Int)
  | unmetered
  deriving DecidableEq, Repr

/-- `NewGas(limit)`. -/
def NewGas (limit : Int) : GasMeter := .gas limit

/-- `Step(n)`: the outcome together with the meter after the call. -/
def GasMeter.Step (g : GasMeter) (n : Int) : Res Unit × GasMeter :=
  match g with
  | .gas remaining =>
    let remaining' := wrapInt64 (remaining - n)
    if remaining' ≤ 0 then (.panic (.err .ErrOutOfGas), .gas remaining')
    else (.ok (), .gas remaining')
  | .unmetered => (.ok (), .unmetered)

/-- `Exceeded()`. -/
def GasMeter.Exceeded : GasMeter → Bool
  | .gas remaining => decide (remaining ≤ 0)
  | .unmetered => false

/-! ## Reader state -/

/-- The arguments `(r io.Reader, gas GasMeter)` shared by all decoders. -/
structure Rd where
  r : List Byte
  gas : GasMeter
  deriving DecidableEq, Repr

/-- The call `gas.Step(n)` inside a decoder. -/
def step (n : Int) : M Rd Unit := fun s =>
  match s with
  | ⟨r, gas⟩ =>
    match gas.Step n with
    | (res, gas') => (res, ⟨r, gas'⟩)

/-- An in-memory `io.Reader`: the bytes that are still unread. -/
abbrev Reader := List Byte

/-- A call that takes only the reader, made from a decoder that also holds the gas
meter. -/
def onReader {α : Type} (x : M Reader α) : M Rd α := fun s =>
  match s with
  | ⟨r, gas⟩ =>
    match x r with
    | (res, r') => (res, ⟨r', gas⟩)

/-- `io.ReadFull(r, buf)` with `len(buf) = n`: an empty buffer reads nothing and
succeeds; otherwise `io.EOF` when no byte is left, `io.ErrUnexpectedEOF` when the
stream ends before `n` bytes were read (the bytes read are consumed). -/
def ReadFull (n : Nat) : M Reader (List Byte) := fun r =>
  if n = 0 then (.ok [], r)
  else if n ≤ r.length then (.ok (r.take n), r.drop n)
  else if r = [] then (.error .EOF, r)
  else (.error .ErrUnexpectedEOF, [])

/-- `io.ReadFull(r, b)` for `b := make([]byte, 1)`, giving `b[0]`. -/
def readByte : M Reader Byte := fun r =>
  match r with
  | [] => (.error .EOF, r)
  | b :: rest => (.ok b, rest)

/-- `ioutil.ReadAll(r)`: everything up to the end of the stream; never fails on an
in-memory stream. -/
def ReadAll : M Reader (List Byte) := fun r => (.ok r, [])

/-- Run `x` on `io.LimitReader(r, n)`: `x` sees at most the next `n` bytes, and what
it leaves unread stays in the underlying stream. -/
def withLimit {α : Type} (n : Nat) (x : M Rd α) : M Rd α := fun s =>
  match s with
  | ⟨r, gas⟩ =>
    match x ⟨r.take n, gas⟩ with
    | (res, ⟨r', gas'⟩) => (res, ⟨r' ++ r.drop n, gas'⟩)

/-! ## LEB128 (`wasm/leb128`) -/

/-- The error of the LEB128 codec. -/
def errMalformedVarint : Err := .new "malformed-varint"

/-- Modelled from the spec: the loop of `leb128.DecodeUint32`, which is not among the
sources. It reads one byte at a time; each byte contributes its 7 low bits, the high
bit signals continuation; it fails on overflow past 32 bits (a sixth byte, or a value
of `2^32` or more) and at the end of the stream. `n` bounds the bytes still allowed,
`shift` is the position of the next 7 bits, `acc` the value so far. -/
def decodeUint32Loop : Nat → Nat → Nat → M Reader Nat
  | 0, _, _ => M.fail errMalformedVarint
  | n + 1, shift, acc => fun r =>
    match r with
    | [] => (.error errMalformedVarint, r)
    | b :: rest =>
      if b.val < 128 then
        if acc + (b.val % 128) * 2 ^ shift < 2 ^ 32 then
          (.ok (acc + (b.val % 128) * 2 ^ shift), rest)
        else (.error errMalformedVarint, rest)
      else decodeUint32Loop n (shift + 7) (acc + (b.val % 128) * 2 ^ shift) rest

/-- Modelled from the spec: `leb128.DecodeUint32(r)`, the decoded value (the callers
discard the number of bytes read). -/
def DecodeUint32 : M Reader Nat := decodeUint32Loop 5 0 0

/-! ## Types of the module record -/

/-- `type ValueType byte`. -/
abbrev ValueType := Byte

/-- `type OptCode byte`. -/
abbrev OptCode := Byte

/-- Modelled from the spec: the opcode `end`, the byte `0x0B`. -/
def OptCodeEnd : OptCode := 0x0B

/-- Modelled from the spec: the opcode `i32.const` of the Wasm MVP encoding. -/
def OptCodeI32Const : OptCode := 0x41

/-- Modelled from the spec: a constant expression, its leading opcode and the bytes
of its immediate. The decoders here read only `optCode`. -/
structure ConstantExpression where
  optCode : OptCode
  data : List Byte
  deriving DecidableEq, Repr

structure FunctionType where
  InputTypes : List ValueType
  ReturnTypes : List ValueType
  deriving DecidableEq, Repr

structure LimitsType where
  Min : Nat
  Max : Option Nat
  deriving DecidableEq, Repr

structure TableType where
  Elem : Byte
  Limit : LimitsType
  deriving DecidableEq, Repr

abbrev MemoryType := LimitsType

structure GlobalType where
  Value : ValueType
  Mutable : Bool
  deriving DecidableEq, Repr

/-- The four pointer fields are `none` for a nil pointer. -/
structure ImportDesc where
  Kind : Byte
  TypeIndexPtr : Option Nat := none
  TableTypePtr : Option TableType := none
  MemTypePtr : Option MemoryType := none
  GlobalTypePtr : Option GlobalType := none
  deriving DecidableEq, Repr

/-- A Go `string` is its sequence of bytes. -/
abbrev GoString := List Byte

structure ImportSegment where
  Module : GoString
  Name : GoString
  Desc : ImportDesc
  deriving DecidableEq, Repr

/-- The field `Type` is named `Typ`, `Type` being reserved. -/
structure GlobalSegment where
  Typ : GlobalType
  Init : ConstantExpression
  deriving DecidableEq, Repr

structure ExportDesc where
  Kind : Byte
  Index : Nat
  deriving DecidableEq, Repr

def ExportKindFunction : Byte := 0x00
def ExportKindTable : Byte := 0x01
def ExportKindMem : Byte := 0x02
def ExportKindGlobal : Byte := 0x03

structure ExportSegment where
  Name : GoString
  Desc : ExportDesc
  deriving DecidableEq, Repr

structure ElementSegment where
  TableIndex : Nat
  OffsetExpr : ConstantExpression
  Init : List Nat
  deriving DecidableEq, Repr

structure CodeSegment where
  NumLocals : Nat
  Body : List Byte
  deriving DecidableEq, Repr

structure DataSegment where
  MemoryIndex : Nat
  OffsetExpression : ConstantExpression
  Init : List Byte
  deriving DecidableEq, Repr

/-- A Go `map[string]*ExportSegment` as an association list with distinct keys. -/
abbrev ExportMap := List (GoString × ExportSegment)

/-- The assignment `m[k] = v`. -/
def ExportMap.set (m : ExportMap) (k : GoString) (v : ExportSegment) : ExportMap :=
  (k, v) :: m.filter (fun kv => kv.1 ≠ k)

/-- The lookup `m[k]`. -/
def ExportMap.get? (m : ExportMap) (k : GoString) : Option ExportSegment :=
  (m.find? (fun kv => kv.1 = k)).map Prod.snd

/-- Modelled from the spec: the section fields of `Module`, whose declaration is not
among the sources, with the element types the decoders assign to them. A slice of
pointers holds `none` for a nil entry. -/
structure Module where
  SecTypes : List (Option FunctionType) := []
  SecImports : List (Option ImportSegment) := []
  SecFunctions : List Nat := []
  SecTables : List (Option TableType) := []
  SecMemory : List (Option MemoryType) := []
  SecGlobals : List (Option GlobalSegment) := []
  SecExports : ExportMap := []
  SecStart : List Nat := []
  SecElements : List (Option ElementSegment) := []
  SecCodes : List (Option CodeSegment) := []
  SecData : List (Option DataSegment) := []
  deriving DecidableEq, Repr

/-- The decoders of this package that are not among the sources. Each takes the
reader and the gas meter, like the decoders that call them. -/
structure Env where
  readNameValue : M Rd GoString
  readValueTypes : Nat → M Rd (List ValueType)
  readConstantExpression : M Rd ConstantExpression

/-! ## `wasm/type.go` -/

def readFunctionType (env : Env) : M Rd FunctionType := do
  let b ← (onReader readByte).mapErr (.wrapf "read leading byte: %w" [])
  step 1
  if b ≠ 0x60 then
    M.fail (.wrapf "%w: %#x != 0x60" [b.val] .ErrInvalidByte)
  else do
    let s ← (onReader DecodeUint32).mapErr (.wrapf "get the size of input value types: %w" [])
    step 4
    let ip ← (env.readValueTypes s).mapErr (.wrapf "read value types of inputs: %w" [])
    let s ← (onReader DecodeUint32).mapErr (.wrapf "get the size of output value types: %w" [])
    step 4
    let op ← (env.readValueTypes s).mapErr (.wrapf "read value types of outputs: %w" [])
    pure { InputTypes := ip, ReturnTypes := op }

def readLimitsType : M Rd LimitsType := do
  let b ← (onReader readByte).mapErr (.wrapf "read leading byte: %w" [])
  step 1
  match b.val with
  | 0x00 => do
    let min ← (onReader DecodeUint32).mapErr (.wrapf "read min of limit: %w" [])
    step 4
    pure { Min := min, Max := none }
  | 0x01 => do
    let min ← (onReader DecodeUint32).mapErr (.wrapf "read min of limit: %w" [])
    let m ← (onReader DecodeUint32).mapErr (.wrapf "read min of limit: %w" [])
    step 8
    pure { Min := min, Max := some m }
  | _ => M.fail (.wrapf "%w for limits: %#x != 0x00 or 0x01" [b.val] .ErrInvalidByte)

def readTableType : M Rd TableType := do
  let b ← (onReader readByte).mapErr (.wrapf "read leading byte: %w" [])
  step 1
  if b ≠ 0x70 then
    M.fail (.wrapf "%w: invalid element type %#x != %#x" [b.val, 0x70] .ErrInvalidByte)
  else do
    let lm ← readLimitsType.mapErr (.wrapf "read limits: %w" [])
    pure { Elem := 0x70, Limit := lm }

def readMemoryType : M Rd MemoryType := readLimitsType

/-- The expression `vt[0]` panics on an empty slice. -/
def readGlobalType (env : Env) : M Rd GlobalType := do
  let vt ← (env.readValueTypes 1).mapErr (.wrapf "read value type: %w" [])
  match vt with
  | [] => M.doPanic .indexOutOfRange
  | v :: _ => do
    let b ← (onReader readByte).mapErr (.wrapf "read mutablity: %w" [])
    step 1
    match b.val with
    | 0x00 => pure { Value := v, Mutable := false }
    | 0x01 => pure { Value := v, Mutable := true }
    | _ => M.fail (.wrapf "%w for mutability: %#x != 0x00 or 0x01" [b.val] .ErrInvalidByte)

/-! ## `wasm/segment.go` -/

def readImportDesc (env : Env) : M Rd ImportDesc := do
  let b ← (onReader readByte).mapErr (.wrapf "read value kind: %w" [])
  step 1
  match b.val with
  | 0x00 => do
    let tID ← (onReader DecodeUint32).mapErr (.wrapf "read typeindex: %w" [])
    step 4
    pure { Kind := 0x00, TypeIndexPtr := some tID }
  | 0x01 => do
    let tt ← readTableType.mapErr (.wrapf "read table type: %w" [])
    pure { Kind := 0x01, TableTypePtr := some tt }
  | 0x02 => do
    let mt ← readMemoryType.mapErr (.wrapf "read table type: %w" [])
    pure { Kind := 0x02, MemTypePtr := some mt }
  | 0x03 => do
    let gt ← (readGlobalType env).mapErr (.wrapf "read global type: %w" [])
    pure { Kind := 0x03, GlobalTypePtr := some gt }
  | _ => M.fail (.wrapf "%w: invalid byte for importdesc: %#x" [b.val] .ErrInvalidByte)

def readImportSegment (env : Env) : M Rd ImportSegment := do
  let mn ← env.readNameValue.mapErr (.wrapf "read name of imported module: %w" [])
  let n ← env.readNameValue.mapErr
    (.wrapf "read name of imported module component: %w" [])
  let d ← (readImportDesc env).mapErr (.wrapf "read import description : %w" [])
  pure { Module := mn, Name := n, Desc := d }

def readGlobalSegment (env : Env) : M Rd GlobalSegment := do
  let gt ← (readGlobalType env).mapErr (.wrapf "read global type: %w" [])
  let init ← env.readConstantExpression.mapErr (.wrapf "get init expression: %w" [])
  pure { Typ := gt, Init := init }

def readExportDesc : M Rd ExportDesc := do
  let kind ← (onReader readByte).mapErr (.wrapf "read value kind: %w" [])
  step 1
  if kind.val ≥ 0x04 then
    M.fail (.wrapf "%w: invalid byte for exportdesc: %#x" [kind.val] .ErrInvalidByte)
  else do
    let id ← (onReader DecodeUint32).mapErr (.wrapf "read funcidx: %w" [])
    step 4
    pure { Kind := kind, Index := id }

def readExportSegment (env : Env) : M Rd ExportSegment := do
  let name ← env.readNameValue.mapErr (.wrapf "read name of export module: %w" [])
  let d ← readExportDesc.mapErr (.wrapf "read export description: %w" [])
  pure { Name := name, Desc := d }

/-- The loop `for i := range init` of `readElementSegment`: `k` function indices,
each charged 4 gas; the slice `init` is local, so the values are collected. -/
def readFuncIndices : Nat → M Rd (List Nat)
  | 0 => pure []
  | k + 1 => do
    let fIDx ← (onReader DecodeUint32).mapErr (.wrapf "read function index: %w" [])
    step 4
    let rest ← readFuncIndices k
    pure (fIDx :: rest)

def readElementSegment (env : Env) : M Rd ElementSegment := do
  let ti ← (onReader DecodeUint32).mapErr (.wrapf "get table index: %w" [])
  step 4
  let expr ← env.readConstantExpression.mapErr (.wrapf "read expr for offset: %w" [])
  if expr.optCode ≠ OptCodeI32Const then
    M.fail (.errorf "offset expression must be i32.const but go %#x" [expr.optCode.val])
  else do
    let vs ← (onReader DecodeUint32).mapErr (.wrapf "get size of vector: %w" [])
    step 4
    let init ← readFuncIndices vs
    pure { TableIndex := ti, OffsetExpr := expr, Init := init }

/-- The loop over the local groups of `readCodeSegment`: `k` groups are left to
read, `numLocals` is the `uint32` accumulator. Only the reader is used. -/
def readLocals : Nat → Nat → M Reader Nat
  | 0, numLocals => pure numLocals
  | k + 1, numLocals => do
    let n ← DecodeUint32.mapErr (.wrapf "read n of locals: %w" [])
    let _ ← readByte.mapErr (fun _ => .errorf "read type of local" [])
    readLocals k ((numLocals + n) % 2 ^ 32)

/-- The block `// parse locals` of `readCodeSegment`: the number of groups, then the
groups. -/
def readLocalDecls : M Reader Nat := do
  let ls ← DecodeUint32.mapErr (.wrapf "get the size locals: %w" [])
  readLocals ls 0

/-- The part of `readCodeSegment` that runs on `io.LimitReader(r, int64(ss))`.
`body[len(body)-1]` panics on an empty body. -/
def readCodeBody (ss : Nat) : M Rd CodeSegment := do
  let numLocals ← onReader readLocalDecls
  let body ← (onReader ReadAll).mapErr (.wrapf "read body: %w" [])
  match body.getLast? with
  | none => M.doPanic .indexOutOfRange
  | some last =>
    if last ≠ OptCodeEnd then
      M.fail (.errorf "expr not end with OptCodeEnd" [])
    else do
      step ss
      pure { Body := body.dropLast, NumLocals := numLocals }

def readCodeSegment : M Rd CodeSegment := do
  let ss ← (onReader DecodeUint32).mapErr (.wrapf "get the size of code segment: %w" [])
  step 4
  withLimit ss (readCodeBody ss)

def readDataSegment (env : Env) : M Rd DataSegment := do
  let d ← (onReader DecodeUint32).mapErr (.wrapf "read memory index: %w" [])
  step 4
  if d ≠ 0 then
    M.fail (.errorf "invalid memory index: %d" [d])
  else do
    let expr ← env.readConstantExpression.mapErr (.wrapf "read offset expression: %w" [])
    if expr.optCode ≠ OptCodeI32Const then
      M.fail (.errorf "offset expression must have i32.const optcode but go %#x"
        [expr.optCode.val])
    else do
      let vs ← (onReader DecodeUint32).mapErr (.wrapf "get the size of vector: %w" [])
      step 4
      let b ← (onReader (ReadFull vs)).mapErr (.wrapf "read bytes for init: %w" [])
      step vs
      pure { MemoryIndex := 0, OffsetExpression := expr, Init := b }

/-! ## `wasm/section.go` -/

/-- The receiver `m *Module` together with the reader and the gas meter. -/
structure St where
  m : Module
  rd : Rd
  deriving DecidableEq, Repr

/-- A decoder that has no access to the module, called from a method of it. -/
def liftRd {α : Type} (x : M Rd α) : M St α := fun s =>
  match s with
  | ⟨m, rd⟩ =>
    match x rd with
    | (res, rd') => (res, ⟨m, rd'⟩)

/-- An assignment to the module. -/
def modifyModule (f : Module → Module) : M St Unit := fun s =>
  match s with
  | ⟨m, rd⟩ => (.ok (), ⟨f m, rd⟩)

/-- The loop `for i := range xs { xs[i], err = elem(r, gas); if err != nil { return
err }; after }` over a slice `xs` that is a field of the module (`get`, `set`).
`k` iterations are left and `i` is the index of the next one; `elem i` is the call
with its error already formatted, which may mention `i`. -/
def fillSlice {β : Type} (get : Module → List β) (set : Module → List β → Module)
    (elem : Nat → M Rd β) (after : M Rd Unit) : Nat → Nat → M St Unit
  | 0, _ => pure ()
  | k + 1, i => do
    let v ← liftRd (elem i)
    modifyModule (fun m => set m ((get m).set i v))
    liftRd after
    fillSlice get set elem after k (i + 1)

/-- A decoder returning a pointer, as the value stored in a slice of pointers. -/
def asPtr {α : Type} (x : M Rd α) : M Rd (Option α) := do
  let v ← x
  pure (some v)

def readSectionTypes (env : Env) : M St Unit := do
  let vs ← liftRd ((onReader DecodeUint32).mapErr (.wrapf "get size of vector: %w" []))
  modifyModule (fun m => { m with SecTypes := List.replicate vs none })
  fillSlice (fun m => m.SecTypes) (fun m xs => { m with SecTypes := xs })
    (fun i => asPtr ((readFunctionType env).mapErr
      (.wrapf "read %d-th function type: %w" [i])))
    (pure ()) vs 0

def readSectionImports (env : Env) : M St Unit := do
  let vs ← liftRd ((onReader DecodeUint32).mapErr (.wrapf "get size of vector: %w" []))
  liftRd (step 4)
  modifyModule (fun m => { m with SecImports := List.replicate vs none })
  fillSlice (fun m => m.SecImports) (fun m xs => { m with SecImports := xs })
    (fun _ => asPtr ((readImportSegment env).mapErr (.wrapf "read import: %w" [])))
    (pure ()) vs 0

def readSectionFunctions : M St Unit := do
  let vs ← liftRd ((onReader DecodeUint32).mapErr (.wrapf "get size of vector: %w" []))
  liftRd (step 4)
  modifyModule (fun m => { m with SecFunctions := List.replicate vs 0 })
  fillSlice (fun m => m.SecFunctions) (fun m xs => { m with SecFunctions := xs })
    (fun _ => (onReader DecodeUint32).mapErr (.wrapf "get typeidx: %w" [])) (step 4) vs 0

def readSectionTables : M St Unit := do
  let vs ← liftRd ((onReader DecodeUint32).mapErr (.wrapf "get size of vector: %w" []))
  liftRd (step 4)
  modifyModule (fun m => { m with SecTables := List.replicate vs none })
  fillSlice (fun m => m.SecTables) (fun m xs => { m with SecTables := xs })
    (fun _ => asPtr (readTableType.mapErr (.wrapf "read table type: %w" []))) (pure ()) vs 0

def readSectionMemories : M St Unit := do
  let vs ← liftRd ((onReader DecodeUint32).mapErr (.wrapf "get size of vector: %w" []))
  liftRd (step 4)
  modifyModule (fun m => { m with SecMemory := List.replicate vs none })
  fillSlice (fun m => m.SecMemory) (fun m xs => { m with SecMemory := xs })
    (fun _ => asPtr (readMemoryType.mapErr (.wrapf "read memory type: %w" []))) (pure ()) vs 0

def readSectionGlobals (env : Env) : M St Unit := do
  let vs ← liftRd ((onReader DecodeUint32).mapErr (.wrapf "get size of vector: %w" []))
  liftRd (step 4)
  modifyModule (fun m => { m with SecGlobals := List.replicate vs none })
  fillSlice (fun m => m.SecGlobals) (fun m xs => { m with SecGlobals := xs })
    (fun _ => asPtr ((readGlobalSegment env).mapErr (.wrapf "read global segment: %w " [])))
    (pure ()) vs 0

/-- The loop `for i := uint32(0); i < vs; i++` of `readSectionExports`, with `k`
iterations left. -/
def readExportsLoop (env : Env) : Nat → M St Unit
  | 0 => pure ()
  | k + 1 => do
    let expDesc ← liftRd ((readExportSegment env).mapErr (.wrapf "read export: %w" []))
    modifyModule (fun m => { m with SecExports := m.SecExports.set expDesc.Name expDesc })
    readExportsLoop env k

def readSectionExports (env : Env) : M St Unit := do
  let vs ← liftRd ((onReader DecodeUint32).mapErr (.wrapf "get size of vector: %w" []))
  liftRd (step 4)
  modifyModule (fun m => { m with SecExports := [] })
  readExportsLoop env vs

def readSectionStart : M St Unit := do
  let vs ← liftRd ((onReader DecodeUint32).mapErr (.wrapf "get size of vector: %w" []))
  liftRd (step 4)
  modifyModule (fun m => { m with SecStart := List.replicate vs 0 })
  fillSlice (fun m => m.SecStart) (fun m xs => { m with SecStart := xs })
    (fun _ => (onReader DecodeUint32).mapErr (.wrapf "read function index: %w" [])) (step 4) vs 0

def readSectionElement (env : Env) : M St Unit := do
  let vs ← liftRd ((onReader DecodeUint32).mapErr (.wrapf "get size of vector: %w" []))
  liftRd (step 4)
  modifyModule (fun m => { m with SecElements := List.replicate vs none })
  fillSlice (fun m => m.SecElements) (fun m xs => { m with SecElements := xs })
    (fun _ => asPtr ((readElementSegment env).mapErr (.wrapf "read element: %w" [])))
    (pure ()) vs 0

def readSectionCodes : M St Unit := do
  let vs ← liftRd ((onReader DecodeUint32).mapErr (.wrapf "get size of vector: %w" []))
  modifyModule (fun m => { m with SecCodes := List.replicate vs none })
  liftRd (step 4)
  fillSlice (fun m => m.SecCodes) (fun m xs => { m with SecCodes := xs })
    (fun _ => asPtr (readCodeSegment.mapErr (.wrapf "read code segment: %w" []))) (pure ()) vs 0

def readSectionData (env : Env) : M St Unit := do
  let vs ← liftRd ((onReader DecodeUint32).mapErr (.wrapf "get size of vector: %w" []))
  liftRd (step 4)
  modifyModule (fun m => { m with SecData := List.replicate vs none })
  fillSlice (fun m => m.SecData) (fun m xs => { m with SecData := xs })
    (fun _ => asPtr ((readDataSegment env).mapErr (.wrapf "read data segment: %w" [])))
    (pure ()) vs 0

/-- The custom-section case of `readSection`: the error of `io.ReadFull` is kept in
`err`, the payload is charged, and `err` is examined after the `switch`. -/
def readSectionCustom (ss : Nat) : M St Unit := do
  let err ← liftRd (onReader (ReadFull ss)).attempt
  liftRd (step ss)
  match err with
  | .ok _ => pure ()
  | .error e => M.fail e

/-- The `switch SectionID(b[0])` of `readSection`. -/
def readSectionSwitch (env : Env) (id : Nat) (ss : Nat) : M St Unit :=
  match id with
  | 0 => readSectionCustom ss
  | 1 => readSectionTypes env
  | 2 => readSectionImports env
  | 3 => readSectionFunctions
  | 4 => readSectionTables
  | 5 => readSectionMemories
  | 6 => readSectionGlobals env
  | 7 => readSectionExports env
  | 8 => readSectionStart
  | 9 => readSectionElement env
  | 10 => readSectionCodes
  | 11 => readSectionData env
  | _ => M.fail (.new "invalid section id")

def readSection (env : Env) : M St Unit := do
  let b ← liftRd ((onReader readByte).mapErr (.wrapf "read section id: %w" []))
  liftRd (step 1)
  let ss ← liftRd ((onReader DecodeUint32).mapErr
    (.wrapf "get size of section for id=%d: %w" [b.val]))
  liftRd (step 4)
  (readSectionSwitch env b.val ss).mapErr (.wrapf "read section for %d: %w" [b.val])

/-- The loop `for { ... }` of `readSections`, run for at most `fuel` sections:
`none` when the fuel is used up before the loop returns. -/
def readSections (env : Env) : Nat → St → Option (Res Unit × St)
  | 0, _ => none
  | fuel + 1, s =>
    match readSection env s with
    | (.ok _, s') => readSections env fuel s'
    | (.error e, s') => if e.isEOF then some (.ok (), s') else some (.error e, s')
    | (.panic p, s') => some (.panic p, s')

/-! ## The decoders that are not among the sources -/

/-- Modelled from the spec: `readValueTypes(r, num, gas)`, not among the sources.
It reads `num` bytes, each of which has to be one of the four value types `0x7F`,
`0x7E`, `0x7D`, `0x7C`, and charges one gas per byte. -/
def readValueTypes (num : Nat) : M Rd (List ValueType) := do
  let buf ← onReader (ReadFull num)
  step num
  if buf.all (fun v => v.val = 0x7F || v.val = 0x7E || v.val = 0x7D || v.val = 0x7C) then
    pure buf
  else
    M.fail (.errorf "invalid value type" [])

/-- Modelled from the spec: `readNameValue(r, gas)`, not among the sources. A name of
the Wasm MVP encoding is a LEB128 length followed by that many bytes. -/
def readNameValue : M Rd GoString := do
  let vs ← (onReader DecodeUint32).mapErr (.wrapf "read size of name: %w" [])
  step 4
  let buf ← (onReader (ReadFull vs)).mapErr (.wrapf "read bytes of name: %w" [])
  step vs
  pure buf

/-- The raw bytes of one LEB128 integer of at most `n` bytes. -/
def readLebBytes : Nat → M Reader (List Byte)
  | 0 => M.fail errMalformedVarint
  | n + 1 => do
    let b ← readByte.mapErr (fun _ => errMalformedVarint)
    if b.val < 128 then pure [b]
    else do
      let rest ← readLebBytes n
      pure (b :: rest)

/-- Modelled from the spec: `readConstantExpression(r, gas)`, not among the sources.
It reads one opcode out of `i32.const`, `i64.const`, `f32.const`, `f64.const`,
`global.get`, one immediate (a LEB128 integer, or 4 or 8 bytes of a float), then the
terminating `0x0B`; any other opcode fails. One gas is charged per byte. -/
def readConstantExpression : M Rd ConstantExpression := do
  let b ← (onReader readByte).mapErr (.wrapf "read opcode: %w" [])
  step 1
  let data ← (match b.val with
    | 0x41 => onReader (readLebBytes 5)
    | 0x42 => onReader (readLebBytes 10)
    | 0x43 => onReader (ReadFull 4)
    | 0x44 => onReader (ReadFull 8)
    | 0x23 => onReader (readLebBytes 5)
    | _ => M.fail (.wrapf "%w for opt code: %#x" [b.val] .ErrInvalidByte))
  step data.length
  let e ← (onReader readByte).mapErr (.wrapf "look for end opcode: %w" [])
  step 1
  if e ≠ OptCodeEnd then
    M.fail (.errorf "constant expression has not terminated" [])
  else
    pure { optCode := b, data := data }

/-- The three decoders as modelled from the spec. -/
def specEnv : Env where
  readNameValue := readNameValue
  readValueTypes := readValueTypes
  readConstantExpression := readConstantExpression

/-! ## Vocabulary of the statements -/

/-- The bytes `enc` are a well-formed LEB128 encoding of the `uint32` value `v`:
`DecodeUint32` consumes exactly `enc` and returns `v`. -/
def isLeb (enc : List Byte) (v : Nat) : Bool :=
  decide (DecodeUint32 enc = (.ok v, []))

/-- The byte strings `encs` are, one by one, well-formed encodings of the values
`vs`. -/
def areLebs : List (List Byte) → List Nat → Bool
  | [], [] => true
  | enc :: encs, v :: vs => isLeb enc v && areLebs encs vs
  | _, _ => false

/-- The meter never traps while a total of `c` is charged in positive steps: it is
unmetered, or its balance (an `int64`) is more than `c`. -/
def GasMeter.covers : GasMeter → Nat → Bool
  | .unmetered, _ => true
  | .gas remaining, c => decide ((c : Int) < remaining) && decide (remaining < 2 ^ 63)

/-- The meter after charges that sum to `c`, none of which trapped. -/
def GasMeter.charged : GasMeter → Nat → GasMeter
  | .unmetered, _ => .unmetered
  | .gas remaining, c => .gas (remaining - c)

/-- The state after `k` consecutive calls of `readSection` that all returned nil;
`none` when one of them did not. -/
def runSections (env : Env) : Nat → St → Option St
  | 0, s => some s
  | k + 1, s =>
    match readSection env s with
    | (.ok _, s') => runSections env k s'
    | _ => none

/-- The counts `n_1, ..., n_k` of `k` local groups (count, then one type byte), as
they are declared in the stream. -/
def declaredLocalCounts : Nat → M Reader (List Nat)
  | 0 => pure []
  | k + 1 => do
    let n ← DecodeUint32
    let _ ← readByte
    let ns ← declaredLocalCounts k
    pure (n :: ns)

/-- The values of `k` consecutive LEB128 `uint32` encodings, in stream order. -/
def decodeMany : Nat → M Reader (List Nat)
  | 0 => pure []
  | k + 1 => do
    let v ← DecodeUint32
    let vs ← decodeMany k
    pure (v :: vs)

/-- The export segments decoded by `k` consecutive calls of `readExportSegment`. -/
def readExportSegments (env : Env) : Nat → M Rd (List ExportSegment)
  | 0 => pure []
  | k + 1 => do
    let e ← readExportSegment env
    let es ← readExportSegments env k
    pure (e :: es)

/-- The map obtained from `init` by the assignments `m[e.Name] = e` for the exports
`es`, in order. -/
def exportsOf (init : ExportMap) (es : List ExportSegment) : ExportMap :=
  es.foldl (fun m e => m.set e.Name e) init

/-! ## `hostfunc/hostfunc.go` -/

/-- `reflect.Kind`, in the order of the Go library, so that the constructor index is
the numeric value of the kind. -/
inductive Kind where
  | Invalid | Bool | Int | Int8 | Int16 | Int32 | Int64 | Uint | Uint8 | Uint16 | Uint32
  | Uint64 | Uintptr | Float32 | Float64 | Complex64 | Complex128 | Array | Chan | Func
  | Interface | Map | Pointer | Slice | String | Struct | UnsafePointer
  deriving DecidableEq, Repr

/-- Modelled from the spec: the value type `i32`, the byte `0x7F`. -/
def ValueTypeI32 : ValueType := 0x7F

/-- Modelled from the spec: the value type `i64`, the byte `0x7E`. -/
def ValueTypeI64 : ValueType := 0x7E

/-- Modelled from the spec: the value type `f32`, the byte `0x7D`. -/
def ValueTypeF32 : ValueType := 0x7D

/-- Modelled from the spec: the value type `f64`, the byte `0x7C`. -/
def ValueTypeF64 : ValueType := 0x7C

/-- `getTypeOf`; the argument of `%s` is kept as the number of the kind. -/
def getTypeOf (kind : Kind) : Except Err ValueType :=
  match kind with
  | .Float64 => .ok ValueTypeF64
  | .Float32 => .ok ValueTypeF32
  | .Int32 | .Uint32 => .ok ValueTypeI32
  | .Int64 | .Uint64 => .ok ValueTypeI64
  | _ => .error (.errorf "invalid type: %s" [kind.toCtorIdx])

/-- A `reflect.Type` of kind `Func`: the kinds `In(i).Kind()` of its parameters and
`Out(i).Kind()` of its results. -/
structure FuncType where
  In : List Kind
  Out : List Kind
  deriving DecidableEq, Repr

/-- The loops `for i := range xs { xs[i], err = getTypeOf(...); if err != nil { return
nil, err } }` of `getSignature`. -/
def getTypesOf : List Kind → Except Err (List ValueType)
  | [] => .ok []
  | k :: ks =>
    match getTypeOf k with
    | .error e => .error e
    | .ok t =>
      match getTypesOf ks with
      | .error e => .error e
      | .ok ts => .ok (t :: ts)

def getSignature (p : FuncType) : Except Err FunctionType :=
  match getTypesOf p.In with
  | .error e => .error e
  | .ok ins =>
    match getTypesOf p.Out with
    | .error e => .error e
    | .ok outs => .ok { InputTypes := ins, ReturnTypes := outs }

/-- Modelled from the spec: `wasm.VirtualMachine`, of which the bridge uses the linear
memory only. The capacity of the slice `Memory` is taken to be its length. -/
structure VirtualMachine where
  Memory : List Byte
  deriving DecidableEq, Repr

/-- A scalar `reflect.Value`: a value of a signed integer kind holds what `Int()`
returns, one of an unsigned kind what `Uint()` returns. A float is kept as the two
numbers the adapter derives from `Float()`, `uint64(f)` and `uint32(float32(f))`. -/
inductive Value where
  | int (v : Int)
  | uint (v : Nat)
  | float (asUint64 : Nat) (asUint32 : Nat)
  deriving DecidableEq, Repr

/-- `v.Int()`, which panics on a value of another kind. -/
def Value.getInt : Value → Option Int
  | .int v => some v
  | _ => none

/-- `v.Uint()`, which panics on a value of another kind. -/
def Value.getUint : Value → Option Nat
  | .uint v => some v
  | _ => none

/-- The conversion `uint64(v.Float())`. -/
def Value.getFloatAsUint64 : Value → Option Nat
  | .float a _ => some a
  | _ => none

/-- The conversion `uint32(float32(v.Float()))`. -/
def Value.getFloatAsUint32 : Value → Option Nat
  | .float _ a => some a
  | _ => none

/-- A `reflect.Value` of kind `Func`: its type, and `Call`, which runs with access to
the machine the function was generated for. -/
structure NativeFunc where
  Typ : FuncType
  Call : List Value → M VirtualMachine (List Value)

/-- The type `func(machine *wasm.VirtualMachine) reflect.Value`, for generators that
return a function. -/
abbrev ClosureGenerator := VirtualMachine → NativeFunc

/-- The conversion `byte(v)`. -/
def byteOf (v : Nat) : Byte := ⟨v % 256, Nat.mod_lt v (by decide)⟩

/-- The four bytes that `binary.LittleEndian.PutUint32(b, v)` stores in `b[0..3]`. -/
def PutUint32 (v : Nat) : List Byte :=
  [byteOf v, byteOf (v / 2 ^ 8), byteOf (v / 2 ^ 16), byteOf (v / 2 ^ 24)]

/-- The eight bytes that `binary.LittleEndian.PutUint64(b, v)` stores in `b[0..7]`. -/
def PutUint64 (v : Nat) : List Byte :=
  [byteOf v, byteOf (v / 2 ^ 8), byteOf (v / 2 ^ 16), byteOf (v / 2 ^ 24),
   byteOf (v / 2 ^ 32), byteOf (v / 2 ^ 40), byteOf (v / 2 ^ 48), byteOf (v / 2 ^ 56)]

/-- The conversion `uint32(x)` of an `int64`. -/
def uint32OfInt (x : Int) : Nat := (x % 2 ^ 32).toNat

/-- The conversion `uint64(x)` of an `int64`. -/
def uint64OfInt (x : Int) : Nat := (x % 2 ^ 64).toNat

/-- A call `binary.LittleEndian.PutUintN(vm.Memory[memloc:memloc+n], value)`: the
slice expression is evaluated first and panics out of bounds, then the value, whose
accessor panics on a value of the wrong kind, then the `n` bytes are stored. Go bounds
the slice expression by `cap(vm.Memory)`; the bound here is the length, so the two
agree on every store that fits in the memory and on every memory without spare
capacity. -/
def putAt (memloc : Int) (n : Nat) (value : Option (List Byte)) : M VirtualMachine Unit :=
  fun vm =>
    match vm with
    | ⟨mem⟩ =>
      if 0 ≤ memloc ∧ memloc + n ≤ mem.length then
        match value with
        | none => (.panic .reflect, ⟨mem⟩)
        | some bytes =>
          (.ok (), ⟨mem.take memloc.toNat ++ bytes ++ mem.drop (memloc.toNat + n)⟩)
      else (.panic .sliceBounds, ⟨mem⟩)

/-- The loop `for i := len(outs) - 1; i >= 0; i--` of the adapted function, with
`i + 1` iterations left. `funcRet[i]` is evaluated first, for the trace line. -/
def writeReturns (outs : List Kind) (funcRet : List Value) : Nat → Int → M VirtualMachine Unit
  | 0, _ => pure ()
  | i + 1, memloc =>
    match outs[i]?, funcRet[i]? with
    | some k, some v =>
      match k with
      | .Float64 => do
        putAt memloc 8 (v.getFloatAsUint64.map PutUint64)
        writeReturns outs funcRet i (memloc + 8)
      | .Float32 => do
        putAt memloc 4 (v.getFloatAsUint32.map PutUint32)
        writeReturns outs funcRet i (memloc + 4)
      | .Int32 => do
        putAt memloc 4 (v.getInt.map (fun x => PutUint32 (uint32OfInt x)))
        writeReturns outs funcRet i (memloc + 4)
      | .Uint32 => do
        putAt memloc 4 (v.getUint.map (fun x => PutUint32 (x % 2 ^ 32)))
        writeReturns outs funcRet i (memloc + 4)
      | .Int64 => do
        putAt memloc 8 (v.getInt.map (fun x => PutUint64 (uint64OfInt x)))
        writeReturns outs funcRet i (memloc + 8)
      | .Uint64 => do
        putAt memloc 8 (v.getUint.map PutUint64)
        writeReturns outs funcRet i (memloc + 8)
      | _ => writeReturns outs funcRet i memloc
    | _, _ => M.doPanic .indexOutOfRange

/-- The closure that `SetFunction` puts in the place of `fn` for a function with
several results: it takes the memory location as an additional first parameter of
type `int32`, calls the function, stores its results and returns none. -/
def adaptMultiReturn (currFN : ClosureGenerator) : ClosureGenerator := fun vm =>
  let actualFunc := currFN vm
  { Typ := { In := .Int32 :: actualFunc.Typ.In, Out := [] },
    Call := fun args =>
      match args with
      | [] => M.doPanic .sliceBounds
      | memlocArg :: funcArgs => do
        let funcRet ← actualFunc.Call funcArgs
        match memlocArg.getInt with
        | none => M.doPanic .reflect
        | some memloc => do
          writeReturns actualFunc.Typ.Out funcRet actualFunc.Typ.Out.length memloc
          pure [] }

structure HostFunction where
  ClosureGenerator : ClosureGenerator
  Signature : FunctionType

/-- Modelled from the spec: `wasm.ModuleIndexSpace`, of which package `hostfunc` uses
the function index space only, with the host functions it appends. -/
structure ModuleIndexSpace where
  Function : List HostFunction

/-- The two fields of `wasm.Module` that package `hostfunc` reads and writes: the
pointer `IndexSpace` and the map `SecExports`, each `none` when nil. -/
structure HostModule where
  IndexSpace : Option ModuleIndexSpace
  SecExports : Option ExportMap

/-- The registry: the map `modules`, as an association list with distinct keys. -/
structure ModuleBuilder where
  modules : List (GoString × HostModule)

/-- `NewModuleBuilder()`. -/
def NewModuleBuilder : ModuleBuilder := ⟨[]⟩

/-- The lookup `m.modules[modName]`. -/
def ModuleBuilder.lookup (b : ModuleBuilder) (modName : GoString) : Option HostModule :=
  (b.modules.find? (fun kv => kv.1 = modName)).map Prod.snd

/-- The assignment `m.modules[modName] = mod`, also used for a write through the
pointer `mod` that the map holds. -/
def ModuleBuilder.store (b : ModuleBuilder) (modName : GoString) (mod : HostModule) :
    ModuleBuilder :=
  ⟨(modName, mod) :: b.modules.filter (fun kv => kv.1 ≠ modName)⟩

/-- The module `&wasm.Module{IndexSpace: new(wasm.ModuleIndexSpace), SecExports:
map[string]*wasm.ExportSegment{}}` that `SetFunction` creates for a new name. -/
def newHostModule : HostModule := { IndexSpace := some ⟨[]⟩, SecExports := some [] }

/-- The export segment that `SetFunction` stores under `funcName`, for a function
index space of length `len`. -/
def functionExport (funcName : GoString) (len : Nat) : ExportSegment :=
  { Name := funcName, Desc := { Kind := ExportKindFunction, Index := len % 2 ^ 32 } }

/-- The host function that `SetFunction` appends: for a signature with more than one
result the memory location becomes the first parameter, the results are dropped and
the closure is replaced by the adapting one. -/
def hostFunctionFor (fn : ClosureGenerator) (sig : FunctionType) : HostFunction :=
  if sig.ReturnTypes.length > 1 then
    { ClosureGenerator := adaptMultiReturn fn,
      Signature := { InputTypes := ValueTypeI32 :: sig.InputTypes, ReturnTypes := [] } }
  else { ClosureGenerator := fn, Signature := sig }

/-- The statements of `SetFunction` that follow the lookup, for the module `mod` that
the map holds under `modName` (a write through the pointer `mod` is a write to the
map). The export is assigned before the signature is computed. -/
def setFunctionIn (modName funcName : GoString) (fn : ClosureGenerator) (mod : HostModule) :
    M ModuleBuilder Unit := fun b =>
  match mod.IndexSpace with
  | none => (.panic .nilPointer, b)
  | some indexSpace =>
    match mod.SecExports with
    | none => (.panic .nilMap, b)
    | some exports =>
      match getSignature (fn ⟨[]⟩).Typ with
      | .error err =>
        (.error (.wrapf "invalid signature: %w" [] err),
          b.store modName
            { IndexSpace := some indexSpace,
              SecExports := some (exports.set funcName
                (functionExport funcName indexSpace.Function.length)) })
      | .ok sig =>
        (.ok (), b.store modName
          { IndexSpace := some ⟨indexSpace.Function ++ [hostFunctionFor fn sig]⟩,
            SecExports := some (exports.set funcName
              (functionExport funcName indexSpace.Function.length)) })

def SetFunction (modName funcName : GoString) (fn : ClosureGenerator) :
    M ModuleBuilder Unit := fun b =>
  match b.lookup modName with
  | some mod => setFunctionIn modName funcName fn mod b
  | none => setFunctionIn modName funcName fn newHostModule (b.store modName newHostModule)

/-- `MustSetFunction`. -/
def MustSetFunction (modName funcName : GoString) (fn : ClosureGenerator) :
    M ModuleBuilder Unit := fun b =>
  match SetFunction modName funcName fn b with
  | (.error err, b') => (.panic (.err err), b')
  | other => other

/-! ## Vocabulary of the statements on host functions -/

/-- The Wasm value type of a native scalar kind: 32-bit integers are `i32`, 64-bit
integers `i64`, `float32` is `f32` and `float64` is `f64`; no other kind has one. -/
def wasmTypeOf : Kind → Option ValueType
  | .Int32 => some ValueTypeI32
  | .Uint32 => some ValueTypeI32
  | .Int64 => some ValueTypeI64
  | .Uint64 => some ValueTypeI64
  | .Float32 => some ValueTypeF32
  | .Float64 => some ValueTypeF64
  | _ => none

/-- The number of bytes of an integer kind of 32 or 64 bits. -/
def widthOf : Kind → Nat
  | .Int32 => 4
  | .Uint32 => 4
  | .Int64 => 8
  | .Uint64 => 8
  | _ => 0

/-- The two's-complement little-endian encoding of the integer `x` in `n` bytes. -/
def twosComplementLE : Nat → Int → List Byte
  | 0, _ => []
  | n + 1, x => byteOf (x % 256).toNat :: twosComplementLE n (x / 256)

/-- The integer held by a value of an integer kind. -/
def Value.toInt : Value → Int
  | .int v => v
  | .uint v => v
  | .float _ _ => 0

/-- The value `v` is a value of the integer kind `k`. -/
def Value.hasKind (v : Value) (k : Kind) : Bool :=
  match k, v with
  | .Int32, .int x => decide (-2 ^ 31 ≤ x ∧ x < 2 ^ 31)
  | .Uint32, .uint x => decide (x < 2 ^ 32)
  | .Int64, .int x => decide (-2 ^ 63 ≤ x ∧ x < 2 ^ 63)
  | .Uint64, .uint x => decide (x < 2 ^ 64)
  | _, _ => false

/-- The results `rets` are values of the kinds `outs`, one by one. -/
def haveKinds : List Value → List Kind → Bool
  | [], [] => true
  | v :: vs, k :: ks => v.hasKind k && haveKinds vs ks
  | _, _ => false

/-- The encodings of the results `r_1, ..., r_m` of kinds `outs`, laid out from the
last result to the first. -/
def encodeReturns (outs : List Kind) (rets : List Value) : List Byte :=
  ((outs.zip rets).reverse.map
    (fun kv => twosComplementLE (widthOf kv.1) kv.2.toInt)).flatten

/-- The native function `divmod(a, b int32) (int32, int32)` of the bridge scenario of
the spec: quotient and remainder of the truncated division, or the run-time panic of
a division by zero. It does not touch the machine. -/
def divmod : ClosureGenerator := fun _ =>
  { Typ := { In := [.Int32, .Int32], Out := [.Int32, .Int32] },
    Call := fun args vm =>
      match args with
      | [.int a, .int b] =>
        if b = 0 then (.panic (.err (.new "integer divide by zero")), vm)
        else (.ok [.int (Int.tdiv a b), .int (Int.tmod a b)], vm)
      | _ => (.panic .reflect, vm) }

/-- A native function of the type `func(string)`, which has no Wasm signature. -/
def printString : ClosureGenerator := fun _ =>
  { Typ := { In := [.String], Out := [] },
    Call := fun _ vm => (.ok [], vm) }

/-- Every export of kind function of the module has an index below the length of
the function index space (a nil map has no exports, a nil index space no
functions). -/
def HostModule.exportsInRange (mod : HostModule) : Bool :=
  match mod.SecExports with
  | none => true
  | some exports =>
    exports.all (fun ke =>
      ke.2.Desc.Kind ≠ ExportKindFunction ||
        (match mod.IndexSpace with
         | none => false
         | some indexSpace => decide (ke.2.Desc.Index < indexSpace.Function.length)))

/-- The invariant of the registry: the exports of every module it holds are in
range. -/
def registryOk (b : ModuleBuilder) : Bool :=
  b.modules.all (fun kv => kv.2.exportsInRange)

/-! ## Evaluation rules -/

section rules
variable {σ α β : Type}

@[simp] theorem bind_eq (x : M σ α) (f : α → M σ β) : (x >>= f) = M.bind x f := rfl

@[simp] theorem pure_eq (a : α) : (Pure.pure a : M σ α) = M.pure a := rfl

@[simp] theorem pure_apply (a : α) (s : σ) : M.pure a s = (.ok a, s) := rfl

@[simp] theorem fail_apply (e : Err) (s : σ) : (M.fail e : M σ α) s = (.error e, s) := rfl

@[simp] theorem doPanic_apply (p : Panic) (s : σ) :
    (M.doPanic p : M σ α) s = (.panic p, s) := rfl

theorem bind_apply (x : M σ α) (f : α → M σ β) (s : σ) :
    M.bind x f s =
      match (x s).1 with
      | .ok a => f a (x s).2
      | .error e => (.error e, (x s).2)
      | .panic p => (.panic p, (x s).2) := by
  unfold M.bind
  rcases x s with ⟨a, s'⟩
  cases a <;> rfl

theorem mapErr_apply (g : Err → Err) (x : M σ α) (s : σ) :
    M.mapErr g x s =
      ((match (x s).1 with
        | .ok a => .ok a
        | .error e => .error (g e)
        | .panic p => .panic p), (x s).2) := by
  unfold M.mapErr
  rcases x s with ⟨a, s'⟩
  cases a <;> rfl

theorem attempt_apply (x : M σ α) (s : σ) :
    M.attempt x s =
      ((match (x s).1 with
        | .ok a => .ok (.ok a)
        | .error e => .ok (.error e)
        | .panic p => .panic p), (x s).2) := by
  unfold M.attempt
  rcases x s with ⟨a, s'⟩
  cases a <;> rfl

theorem bind_ok {x : M σ α} {f : α → M σ β} {s s' : σ} {a : α}
    (h : x s = (.ok a, s')) : M.bind x f s = f a s' := by
  simp [M.bind, h]

theorem bind_error {x : M σ α} {f : α → M σ β} {s s' : σ} {e : Err}
    (h : x s = (.error e, s')) : M.bind x f s = (.error e, s') := by
  simp [M.bind, h]

theorem bind_panic {x : M σ α} {f : α → M σ β} {s s' : σ} {p : Panic}
    (h : x s = (.panic p, s')) : M.bind x f s = (.panic p, s') := by
  simp [M.bind, h]

theorem mapErr_ok {x : M σ α} {g : Err → Err} {s s' : σ} {a : α}
    (h : x s = (.ok a, s')) : M.mapErr g x s = (.ok a, s') := by
  simp [M.mapErr, h]

theorem mapErr_error {x : M σ α} {g : Err → Err} {s s' : σ} {e : Err}
    (h : x s = (.error e, s')) : M.mapErr g x s = (.error (g e), s') := by
  simp [M.mapErr, h]

theorem mapErr_panic {x : M σ α} {g : Err → Err} {s s' : σ} {p : Panic}
    (h : x s = (.panic p, s')) : M.mapErr g x s = (.panic p, s') := by
  simp [M.mapErr, h]

theorem attempt_ok {σ α : Type} {x : M σ α} {s s' : σ} {a : α}
    (h : x s = (.ok a, s')) : M.attempt x s = (.ok (.ok a), s') := by
  simp [M.attempt, h]

theorem attempt_error {σ α : Type} {x : M σ α} {s s' : σ} {e : Err}
    (h : x s = (.error e, s')) : M.attempt x s = (.ok (.error e), s') := by
  simp [M.attempt, h]

end rules

section lifting
variable {α : Type}

theorem onReader_apply (x : M Reader α) (r : Reader) (g : GasMeter) :
    onReader x ⟨r, g⟩ = ((x r).1, ⟨(x r).2, g⟩) := rfl

theorem onReader_ok {x : M Reader α} {r r' : Reader} {a : α} (g : GasMeter)
    (h : x r = (.ok a, r')) : onReader x ⟨r, g⟩ = (.ok a, ⟨r', g⟩) := by
  simp [onReader, h]

theorem onReader_error {x : M Reader α} {r r' : Reader} {e : Err} (g : GasMeter)
    (h : x r = (.error e, r')) : onReader x ⟨r, g⟩ = (.error e, ⟨r', g⟩) := by
  simp [onReader, h]

theorem onReader_panic {x : M Reader α} {r r' : Reader} {p : Panic} (g : GasMeter)
    (h : x r = (.panic p, r')) : onReader x ⟨r, g⟩ = (.panic p, ⟨r', g⟩) := by
  simp [onReader, h]

theorem liftRd_apply (x : M Rd α) (m : Module) (rd : Rd) :
    liftRd x ⟨m, rd⟩ = ((x rd).1, ⟨m, (x rd).2⟩) := rfl

theorem liftRd_ok {x : M Rd α} {rd rd' : Rd} {a : α} (m : Module)
    (h : x rd = (.ok a, rd')) : liftRd x ⟨m, rd⟩ = (.ok a, ⟨m, rd'⟩) := by
  simp [liftRd, h]

theorem liftRd_error {x : M Rd α} {rd rd' : Rd} {e : Err} (m : Module)
    (h : x rd = (.error e, rd')) : liftRd x ⟨m, rd⟩ = (.error e, ⟨m, rd'⟩) := by
  simp [liftRd, h]

theorem liftRd_panic {x : M Rd α} {rd rd' : Rd} {p : Panic} (m : Module)
    (h : x rd = (.panic p, rd')) : liftRd x ⟨m, rd⟩ = (.panic p, ⟨m, rd'⟩) := by
  simp [liftRd, h]

theorem step_apply (n : Int) (r : Reader) (g : GasMeter) :
    step n ⟨r, g⟩ = ((g.Step n).1, ⟨r, (g.Step n).2⟩) := rfl

theorem modifyModule_apply (f : Module → Module) (m : Module) (rd : Rd) :
    modifyModule f ⟨m, rd⟩ = (.ok (), ⟨f m, rd⟩) := rfl

theorem withLimit_apply {α : Type} (n : Nat) (x : M Rd α) (r : Reader) (g : GasMeter) :
    withLimit n x ⟨r, g⟩ =
      ((x ⟨r.take n, g⟩).1, ⟨(x ⟨r.take n, g⟩).2.r ++ r.drop n, (x ⟨r.take n, g⟩).2.gas⟩) :=
  rfl

end lifting

/-! ## The gas meter -/

theorem wrapInt64_of_range {x : Int} (h1 : -2 ^ 63 ≤ x) (h2 : x < 2 ^ 63) :
    wrapInt64 x = x := by
  unfold wrapInt64
  omega

/-- A charge returns normally or traps with `ErrOutOfGas`. -/
theorem Step_cases (g : GasMeter) (n : Int) :
    (g.Step n).1 = .ok () ∨ (g.Step n).1 = .panic (.err .ErrOutOfGas) := by
  cases g with
  | unmetered => left; rfl
  | gas rem =>
    simp only [GasMeter.Step]
    split
    · right; rfl
    · left; rfl

theorem step_ok_of {g : GasMeter} {n : Int} (h : (g.Step n).1 = .ok ()) (r : Reader) :
    step n ⟨r, g⟩ = (.ok (), ⟨r, (g.Step n).2⟩) := by
  simp [step, h]

theorem step_panic_of {g : GasMeter} {n : Int} {p : Panic} (h : (g.Step n).1 = .panic p)
    (r : Reader) : step n ⟨r, g⟩ = (.panic p, ⟨r, (g.Step n).2⟩) := by
  simp [step, h]

theorem step_of_covers {g : GasMeter} {c : Nat} (n : Nat) (r : Reader)
    (h : g.covers c = true) (hn : n ≤ c) :
    step (n : Int) ⟨r, g⟩ = (.ok (), ⟨r, g.charged n⟩) := by
  cases g with
  | unmetered => rfl
  | gas rem =>
    simp only [GasMeter.covers, Bool.and_eq_true, decide_eq_true_eq] at h
    have hw : wrapInt64 (rem - (n : Int)) = rem - n := by
      apply wrapInt64_of_range <;> omega
    have hpos : ¬ (rem - (n : Int) ≤ 0) := by omega
    simp [step, GasMeter.Step, GasMeter.charged, hw, hpos]

theorem covers_charged {g : GasMeter} {c : Nat} (n : Nat)
    (h : g.covers c = true) (hn : n ≤ c) : (g.charged n).covers (c - n) = true := by
  cases g with
  | unmetered => rfl
  | gas rem =>
    simp only [GasMeter.covers, GasMeter.charged, Bool.and_eq_true, decide_eq_true_eq] at h ⊢
    omega

theorem covers_mono {g : GasMeter} {c c' : Nat} (h : g.covers c = true) (hle : c' ≤ c) :
    g.covers c' = true := by
  cases g with
  | unmetered => rfl
  | gas rem =>
    simp only [GasMeter.covers, Bool.and_eq_true, decide_eq_true_eq] at h ⊢
    omega

theorem charged_charged (g : GasMeter) (a b : Nat) :
    (g.charged a).charged b = g.charged (a + b) := by
  cases g with
  | unmetered => rfl
  | gas rem => simp [GasMeter.charged]; omega

theorem charged_zero (g : GasMeter) : g.charged 0 = g := by
  cases g with
  | unmetered => rfl
  | gas rem => simp [GasMeter.charged]

/-! ## The reader and LEB128 -/

theorem readByte_cons (b : Byte) (rest : Reader) : readByte (b :: rest) = (.ok b, rest) :=
  rfl

theorem readByte_nil : readByte [] = (.error .EOF, []) := rfl

theorem readByte_suffix (r : Reader) : (readByte r).2 <:+ r := by
  cases r with
  | nil => exact List.suffix_refl _
  | cons b t => exact List.suffix_cons b t

theorem ReadFull_append (payload rest : Reader) :
    ReadFull payload.length (payload ++ rest) = (.ok payload, rest) := by
  unfold ReadFull
  by_cases h0 : payload.length = 0
  · have : payload = [] := List.length_eq_zero.mp h0
    subst this
    simp
  · simp [h0]

/-- The outcomes of `io.ReadFull`. -/
theorem ReadFull_cases (n : Nat) (r : Reader) :
    (n ≤ r.length ∧ ReadFull n r = (.ok (r.take n), r.drop n)) ∨
    (r.length < n ∧ ∃ e r', ReadFull n r = (.error e, r')) := by
  unfold ReadFull
  by_cases h0 : n = 0
  · left; subst h0; simp
  · by_cases hle : n ≤ r.length
    · left; simp [h0, hle]
    · right
      refine ⟨by omega, ?_⟩
      by_cases hr : r = []
      · exact ⟨.EOF, r, by simp [h0, hle, hr]⟩
      · exact ⟨.ErrUnexpectedEOF, [], by simp [h0, hle, hr]⟩

theorem decodeUint32Loop_append (rest : Reader) (v : Nat) :
    ∀ (n shift acc : Nat) (enc : Reader),
      decodeUint32Loop n shift acc enc = (.ok v, []) →
      decodeUint32Loop n shift acc (enc ++ rest) = (.ok v, rest) := by
  intro n
  induction n with
  | zero => intro shift acc enc h; simp [decodeUint32Loop, M.fail] at h
  | succ n ih =>
    intro shift acc enc h
    cases enc with
    | nil => simp [decodeUint32Loop] at h
    | cons b t =>
      simp only [decodeUint32Loop, List.cons_append] at h ⊢
      by_cases hb : b.val < 128
      · simp only [hb, if_true] at h ⊢
        split at h
        · rename_i hv
          simp only [Prod.mk.injEq, Res.ok.injEq] at h
          obtain ⟨h1, h2⟩ := h
          subst h2
          rw [if_pos hv, h1, List.nil_append]
        · simp at h
      · simp only [hb, if_false] at h ⊢
        exact ih _ _ _ h

theorem decode_of_isLeb {enc : List Byte} {v : Nat} (h : isLeb enc v = true)
    (rest : Reader) : DecodeUint32 (enc ++ rest) = (.ok v, rest) := by
  have h' : DecodeUint32 enc = (.ok v, []) := by simpa [isLeb] using h
  exact decodeUint32Loop_append rest v 5 0 0 enc h'

theorem decodeUint32Loop_suffix :
    ∀ (n shift acc : Nat) (r : Reader), (decodeUint32Loop n shift acc r).2 <:+ r := by
  intro n
  induction n with
  | zero => intro shift acc r; exact List.suffix_refl r
  | succ n ih =>
    intro shift acc r
    cases r with
    | nil => exact List.suffix_refl _
    | cons b t =>
      simp only [decodeUint32Loop]
      split
      · split <;> exact List.suffix_cons b t
      · exact (ih _ _ t).trans (List.suffix_cons b t)

theorem DecodeUint32_suffix (r : Reader) : (DecodeUint32 r).2 <:+ r :=
  decodeUint32Loop_suffix 5 0 0 r

/-! ## Sections -/

/-- After the id byte and a well-formed size, with a meter that covers the two
header charges, `readSection` is the `switch` run on the rest of the stream. -/
theorem readSection_header (env : Env) (m : Module) {g : GasMeter} (id : Byte)
    {enc : List Byte} {ss : Nat} (rest : Reader) (h : isLeb enc ss = true)
    (hg : g.covers 5 = true) :
    readSection env ⟨m, ⟨id :: (enc ++ rest), g⟩⟩ =
      (readSectionSwitch env id.val ss).mapErr
        (.wrapf "read section for %d: %w" [id.val]) ⟨m, ⟨rest, g.charged 5⟩⟩ := by
  have hd := decode_of_isLeb h rest
  have h1 : step 1 ⟨enc ++ rest, g⟩ = (.ok (), ⟨enc ++ rest, g.charged 1⟩) := by
    simpa using step_of_covers 1 (enc ++ rest) hg (by omega)
  have h4 : step 4 ⟨rest, g.charged 1⟩ = (.ok (), ⟨rest, g.charged 5⟩) := by
    simpa [charged_charged] using
      step_of_covers 4 rest (covers_charged 1 hg (by omega)) (by omega)
  simp only [readSection, bind_eq]
  rw [bind_ok (liftRd_ok m (mapErr_ok (onReader_ok g (readByte_cons id _)))),
    bind_ok (liftRd_ok m h1), bind_ok (liftRd_ok m (mapErr_ok (onReader_ok _ hd))),
    bind_ok (liftRd_ok m h4)]

/-- The `switch` ignores the declared size for every id but 0. -/
theorem readSectionSwitch_size (env : Env) (id ss ss' : Nat) (h1 : 1 ≤ id) :
    readSectionSwitch env id ss = readSectionSwitch env id ss' := by
  unfold readSectionSwitch
  split <;> first | rfl | omega

theorem readSectionSwitch_invalid (env : Env) (id ss : Nat) (h : 11 < id) :
    readSectionSwitch env id ss = M.fail (.new "invalid section id") := by
  unfold readSectionSwitch
  split <;> first | rfl | omega

/-- A section with an id above 11 never changes the module, also when the meter
traps. -/
theorem readSection_invalid_module (env : Env) (m : Module) (g : GasMeter) (id : Byte)
    {enc : List Byte} {ss : Nat} (rest : Reader) (h : isLeb enc ss = true)
    (hid : 11 < id.val) :
    (readSection env ⟨m, ⟨id :: (enc ++ rest), g⟩⟩).2.m = m := by
  have hd := decode_of_isLeb h rest
  simp only [readSection, bind_eq]
  rw [bind_ok (liftRd_ok m (mapErr_ok (onReader_ok g (readByte_cons id _))))]
  rcases Step_cases g 1 with h1 | h1
  · rw [bind_ok (liftRd_ok m (step_ok_of h1 _)),
      bind_ok (liftRd_ok m (mapErr_ok (onReader_ok _ hd)))]
    rcases Step_cases (g.Step 1).2 4 with h4 | h4
    · rw [bind_ok (liftRd_ok m (step_ok_of h4 _)), readSectionSwitch_invalid env _ _ hid]
      rfl
    · rw [bind_panic (liftRd_panic m (step_panic_of h4 _))]
  · rw [bind_panic (liftRd_panic m (step_panic_of h1 _))]

/-- A custom section that decodes has consumed exactly its declared size. -/
theorem readSection_custom_consumed (env : Env) (m : Module) (g : GasMeter)
    {enc : List Byte} {ss : Nat} (rest : Reader) (s' : St) (h : isLeb enc ss = true)
    (hok : readSection env ⟨m, ⟨0 :: (enc ++ rest), g⟩⟩ = (.ok (), s')) :
    ss ≤ rest.length ∧ s'.rd.r = rest.drop ss := by
  have hd := decode_of_isLeb h rest
  rcases hS1 : g.Step 1 with ⟨b1, g1⟩
  rcases hS4 : g1.Step 4 with ⟨b4, g4⟩
  rcases hSs : g4.Step ss with ⟨bs, gs⟩
  have hsw : readSectionSwitch env (0 : Byte).val ss = readSectionCustom ss := rfl
  simp only [readSection, bind_eq, bind_apply, liftRd_apply, mapErr_apply, onReader_apply,
    step_apply, readByte_cons, hd, hS1, hsw, readSectionCustom, attempt_apply] at hok
  cases b1 <;> simp only [hS4] at hok <;> try (simp at hok; done)
  cases b4 <;> simp only [] at hok <;> try (simp at hok; done)
  rcases ReadFull_cases ss rest with ⟨hle, hrf⟩ | ⟨_, e, r', hrf⟩
  · refine ⟨hle, ?_⟩
    simp only [hrf, hSs] at hok
    cases bs <;> simp at hok
    rw [← hok]
  · simp only [hrf, hSs] at hok
    cases bs <;> simp [M.fail] at hok

/-- Sections that decode are passed over by the loop. -/
theorem readSections_of_run (env : Env) :
    ∀ (k : Nat) (s s' : St), runSections env k s = some s' →
      ∀ fuel, readSections env (k + fuel) s = readSections env fuel s' := by
  intro k
  induction k with
  | zero =>
    intro s s' h fuel
    simp only [runSections, Option.some.injEq] at h
    subst h
    simp
  | succ k ih =>
    intro s s' h fuel
    have e : k + 1 + fuel = (k + fuel) + 1 := by omega
    rw [e]
    simp only [runSections] at h
    simp only [readSections]
    split at h
    · rename_i u s1 heq
      rw [heq]
      exact ih _ _ h fuel
    · simp at h

/-- At the end of the stream the loop returns nil. -/
theorem readSections_at_end (env : Env) (m : Module) (g : GasMeter) (fuel : Nat) :
    readSections env (fuel + 1) ⟨m, ⟨[], g⟩⟩ = some (.ok (), ⟨m, ⟨[], g⟩⟩) := by
  have h : readSection env ⟨m, ⟨[], g⟩⟩ =
      (.error (.wrapf "read section id: %w" [] .EOF), ⟨m, ⟨[], g⟩⟩) := by
    simp only [readSection, bind_eq]
    rw [bind_error (liftRd_error m (mapErr_error (onReader_error g readByte_nil)))]
  simp [readSections, h, Err.isEOF]

/-! ## Vectors of LEB128 values -/

theorem set_at_length {α : Type} (pre : List α) (x v : α) (tail : List α) :
    (pre ++ x :: tail).set pre.length v = pre ++ v :: tail := by
  induction pre with
  | nil => rfl
  | cons a pre ih => simp [ih]

/-- The loop that fills a slice of `uint32` with LEB128 values: on a stream of
well-formed encodings it stores the values in stream order. -/
theorem fillSlice_lebs (get : Module → List Nat) (set : Module → List Nat → Module)
    (hgs : ∀ m xs, get (set m xs) = xs) (hss : ∀ m xs ys, set (set m xs) ys = set m ys)
    (hsg : ∀ m, set m (get m) = m) (wrap : Err → Err) (rest : Reader) :
    ∀ (encs : List (List Byte)) (vs pre : List Nat) (m : Module) (g : GasMeter),
      areLebs encs vs = true → get m = pre ++ List.replicate vs.length 0 →
      g.covers (4 * vs.length) = true →
      fillSlice get set (fun _ => (onReader DecodeUint32).mapErr wrap) (step 4)
          vs.length pre.length ⟨m, ⟨encs.flatten ++ rest, g⟩⟩ =
        (.ok (), ⟨set m (pre ++ vs), ⟨rest, g.charged (4 * vs.length)⟩⟩) := by
  intro encs
  induction encs with
  | nil =>
    intro vs pre m g hl hget hg
    cases vs with
    | nil =>
      simp only [List.length_nil, List.replicate, List.append_nil] at hget ⊢
      simp only [fillSlice, pure_eq, pure_apply, List.flatten_nil, List.nil_append,
        Nat.mul_zero, charged_zero, ← hget, hsg]
    | cons v vs => simp [areLebs] at hl
  | cons e es ih =>
    intro vs pre m g hl hget hg
    cases vs with
    | nil => simp [areLebs] at hl
    | cons v vs =>
      simp only [areLebs, Bool.and_eq_true] at hl
      obtain ⟨he, hes⟩ := hl
      simp only [List.length_cons] at hget hg ⊢
      have hd := decode_of_isLeb he (es.flatten ++ rest)
      have h4 : step 4 ⟨es.flatten ++ rest, g⟩ =
          (.ok (), ⟨es.flatten ++ rest, g.charged 4⟩) := by
        simpa using step_of_covers 4 (es.flatten ++ rest) hg (by omega)
      have hg' : (g.charged 4).covers (4 * vs.length) = true := by
        have := covers_charged 4 hg (by omega)
        exact covers_mono this (by omega)
      have hset : (get m).set pre.length v = (pre ++ [v]) ++ List.replicate vs.length 0 := by
        rw [hget, List.replicate_succ, set_at_length]
        simp
      have := ih vs (pre ++ [v]) (set m ((get m).set pre.length v)) (g.charged 4) hes
        (by rw [hgs, hset]) hg'
      simp only [List.length_append, List.length_singleton] at this
      simp only [fillSlice, bind_eq, List.flatten_cons, List.append_assoc]
      rw [bind_ok (liftRd_ok m (mapErr_ok (onReader_ok g hd))),
        bind_ok (modifyModule_apply _ m _), bind_ok (liftRd_ok _ h4), this, hss,
        charged_charged]
      simp only [List.append_assoc, List.singleton_append]
      congr 4
      omega

/-! ## Code segments -/

theorem readLocals_suffix :
    ∀ (k acc : Nat) (r : Reader), (readLocals k acc r).2 <:+ r := by
  intro k
  induction k with
  | zero => intro acc r; exact List.suffix_refl r
  | succ k ih =>
    intro acc r
    have hD' := DecodeUint32_suffix r
    rcases hd : DecodeUint32 r with ⟨a, r1⟩
    rw [hd] at hD'
    have hB := readByte_suffix r1
    rcases hb : readByte r1 with ⟨b, r2⟩
    rw [hb] at hB
    simp only [readLocals, bind_eq, bind_apply, mapErr_apply, hd, hb]
    cases a with
    | ok n =>
      cases b with
      | ok t => exact (ih _ r2).trans (hB.trans hD')
      | error e => exact hB.trans hD'
      | panic p => exact hB.trans hD'
    | error e => exact hD'
    | panic p => exact hD'

theorem readLocalDecls_suffix (r : Reader) : (readLocalDecls r).2 <:+ r := by
  have hD' := DecodeUint32_suffix r
  rcases hd : DecodeUint32 r with ⟨a, r1⟩
  rw [hd] at hD'
  simp only [readLocalDecls, bind_eq, bind_apply, mapErr_apply, hd]
  cases a with
  | ok n => exact (readLocals_suffix n 0 r1).trans hD'
  | error e => exact hD'
  | panic p => exact hD'

/-- The accumulator of the locals loop is the sum of the declared counts, reduced
modulo `2^32`. -/
theorem readLocals_counts :
    ∀ (k acc : Nat) (r rem : Reader) (numLocals : Nat), acc < 2 ^ 32 →
      readLocals k acc r = (.ok numLocals, rem) →
      ∃ ns, declaredLocalCounts k r = (.ok ns, rem) ∧ ns.length = k ∧
        numLocals = (acc + ns.sum) % 2 ^ 32 := by
  intro k
  induction k with
  | zero =>
    intro acc r rem nl hacc h
    simp only [readLocals, pure_eq, pure_apply, Prod.mk.injEq, Res.ok.injEq] at h
    refine ⟨[], ?_, rfl, ?_⟩
    · simp [declaredLocalCounts, h.2]
    · simp only [List.sum_nil, Nat.add_zero]
      rw [Nat.mod_eq_of_lt hacc]
      exact h.1.symm
  | succ k ih =>
    intro acc r rem nl hacc h
    rcases hd : DecodeUint32 r with ⟨a, r1⟩
    rcases hb : readByte r1 with ⟨b, r2⟩
    simp only [readLocals, bind_eq, bind_apply, mapErr_apply, hd, hb] at h
    cases a with
    | ok n =>
      cases b with
      | ok t =>
        simp only [] at h
        obtain ⟨ns, h1, h2, h3⟩ := ih ((acc + n) % 2 ^ 32) r2 rem nl
          (Nat.mod_lt _ (by norm_num)) h
        refine ⟨n :: ns, ?_, by simp [h2], ?_⟩
        · simp only [declaredLocalCounts, bind_eq, bind_apply, hd, hb, h1, pure_eq, pure_apply]
        · rw [h3, List.sum_cons]
          omega
      | error e => simp at h
      | panic p => simp at h
    | error e => simp at h
    | panic p => simp at h

/-- The locals loop succeeds on every stream that declares `k` groups, with the sum
of their counts added to the accumulator modulo `2^32`, and leaves what follows the
groups. -/
theorem readLocals_of_counts :
    ∀ (k acc : Nat) (r rem : Reader) (ns : List Nat), acc < 2 ^ 32 →
      declaredLocalCounts k r = (.ok ns, rem) →
      readLocals k acc r = (.ok ((acc + ns.sum) % 2 ^ 32), rem) := by
  intro k
  induction k with
  | zero =>
    intro acc r rem ns hacc h
    simp only [declaredLocalCounts, pure_eq, pure_apply, Prod.mk.injEq, Res.ok.injEq] at h
    obtain ⟨h1, h2⟩ := h
    subst h1 h2
    simp only [readLocals, pure_eq, pure_apply, List.sum_nil, Nat.add_zero]
    rw [Nat.mod_eq_of_lt hacc]
  | succ k ih =>
    intro acc r rem ns hacc h
    rcases hd : DecodeUint32 r with ⟨a, r1⟩
    rcases hb : readByte r1 with ⟨b, r2⟩
    rcases hc : declaredLocalCounts k r2 with ⟨c, r3⟩
    simp only [declaredLocalCounts, bind_eq, bind_apply, hd, hb, hc] at h
    cases a with
    | ok n =>
      cases b with
      | ok t =>
        cases c with
        | ok ns' =>
          simp only [pure_eq, pure_apply, Prod.mk.injEq, Res.ok.injEq] at h
          obtain ⟨h1, h2⟩ := h
          subst h1 h2
          have := ih ((acc + n) % 2 ^ 32) r2 r3 ns' (Nat.mod_lt _ (by norm_num)) hc
          simp only [readLocals, bind_eq, bind_apply, mapErr_apply, hd, hb, this,
            List.sum_cons]
          congr 2
          omega
        | error e => simp at h
        | panic p => simp at h
      | error e => simp at h
      | panic p => simp at h
    | error e => simp at h
    | panic p => simp at h

/-- The locals of a segment that declares `k` groups are decoded, and what follows
the groups is left. -/
theorem readLocalDecls_of_counts {r r2 rem : Reader} {k : Nat} {ns : List Nat}
    (hk : DecodeUint32 r = (.ok k, r2))
    (hc : declaredLocalCounts k r2 = (.ok ns, rem)) :
    readLocalDecls r = (.ok (ns.sum % 2 ^ 32), rem) := by
  have := readLocals_of_counts k 0 r2 rem ns (by norm_num) hc
  simp only [readLocalDecls, bind_eq, bind_apply, mapErr_apply, hk, this, Nat.zero_add]

/-- The groups that the locals loop has read are the declared ones. -/
theorem readLocalDecls_counts {r rem : Reader} {numLocals : Nat}
    (hl : readLocalDecls r = (.ok numLocals, rem)) :
    ∃ k r2 ns, DecodeUint32 r = (.ok k, r2) ∧
      declaredLocalCounts k r2 = (.ok ns, rem) ∧ ns.length = k := by
  rcases hk : DecodeUint32 r with ⟨a, r2⟩
  simp only [readLocalDecls, bind_eq, bind_apply, mapErr_apply, hk] at hl
  cases a with
  | ok k =>
    simp only [] at hl
    obtain ⟨ns, h1, h2, _⟩ := readLocals_counts k 0 r2 rem numLocals (by norm_num) hl
    exact ⟨k, r2, ns, rfl, h1, h2⟩
  | error e => simp at hl
  | panic p => simp at hl

/-- The outcome of `readCodeSegment` once the size and the locals are decoded. -/
theorem readCodeSegment_eval {r r1 rem : Reader} {g : GasMeter} {ss numLocals : Nat}
    (hd : DecodeUint32 r = (.ok ss, r1))
    (hl : readLocalDecls (r1.take ss) = (.ok numLocals, rem)) :
    readCodeSegment ⟨r, g⟩ =
      match (g.Step 4).1 with
      | .ok _ =>
        (match rem.getLast? with
        | none => (.panic .indexOutOfRange, ⟨r1.drop ss, (g.Step 4).2⟩)
        | some last =>
          if last ≠ OptCodeEnd then
            (.error (.errorf "expr not end with OptCodeEnd" []), ⟨r1.drop ss, (g.Step 4).2⟩)
          else
            (match ((g.Step 4).2.Step ss).1 with
            | .ok _ => .ok { NumLocals := numLocals, Body := rem.dropLast }
            | .error e => .error e
            | .panic p => .panic p, ⟨r1.drop ss, ((g.Step 4).2.Step ss).2⟩))
      | .error e => (.error e, ⟨r1, (g.Step 4).2⟩)
      | .panic p => (.panic p, ⟨r1, (g.Step 4).2⟩) := by
  rcases hS4 : g.Step 4 with ⟨b4, g4⟩
  rcases hSs : g4.Step ss with ⟨bs, gs⟩
  simp only [readCodeSegment, bind_eq, bind_apply, mapErr_apply, onReader_apply, step_apply,
    withLimit_apply, readCodeBody, hd, hS4, hl, ReadAll]
  cases b4 with
  | ok u =>
    simp only []
    cases hlast : rem.getLast? with
    | none => simp [hlast]
    | some last =>
      simp only [hlast]
      by_cases hne : last = OptCodeEnd
      · simp only [hne, ne_eq, not_true_eq_false, if_false, bind_apply, step_apply, hSs]
        cases bs <;> rfl
      · simp [hne]
  | error e => rfl
  | panic p => rfl

/-- The outcome of `readCodeSegment` is a success only if the size and the locals
were decoded. -/
theorem readCodeSegment_ok {r : Reader} {g : GasMeter} {seg : CodeSegment} {s' : Rd}
    (h : readCodeSegment ⟨r, g⟩ = (.ok seg, s')) :
    ∃ ss r1 numLocals rem, DecodeUint32 r = (.ok ss, r1) ∧
      readLocalDecls (r1.take ss) = (.ok numLocals, rem) := by
  rcases hd : DecodeUint32 r with ⟨a, r1⟩
  cases a with
  | ok ss =>
    rcases hl : readLocalDecls (r1.take ss) with ⟨c, rem⟩
    cases c with
    | ok nl => exact ⟨ss, r1, nl, rem, rfl, hl⟩
    | error e =>
      exfalso
      rcases hS4 : g.Step 4 with ⟨b4, g4⟩
      simp only [readCodeSegment, bind_eq, bind_apply, mapErr_apply, onReader_apply,
        step_apply, withLimit_apply, readCodeBody, hd, hS4, hl] at h
      cases b4 <;> simp at h
    | panic p =>
      exfalso
      rcases hS4 : g.Step 4 with ⟨b4, g4⟩
      simp only [readCodeSegment, bind_eq, bind_apply, mapErr_apply, onReader_apply,
        step_apply, withLimit_apply, readCodeBody, hd, hS4, hl] at h
      cases b4 <;> simp at h
  | error e =>
    exfalso
    simp [readCodeSegment, bind_apply, mapErr_apply, onReader_apply, hd] at h
  | panic p =>
    exfalso
    simp [readCodeSegment, bind_apply, mapErr_apply, onReader_apply, hd] at h

/-! ## The claims -/

/-- C1: for a metered gas with balance `r` and a charge `n`, `Step(n)` replaces the
balance by `r - n` in `int64` arithmetic, also when it traps; it traps with
`ErrOutOfGas` exactly when the new balance is `<= 0` and returns normally otherwise;
a charge that brings the balance to exactly 0 traps. The new balance `wrapInt64 (r - n)`
is the value in the `int64` range that differs from `r - n` by a multiple of `2^64`. -/
theorem gas_step_contract (r n : Int) :
    ((GasMeter.gas r).Step n).2 = .gas (wrapInt64 (r - n)) ∧
    (((GasMeter.gas r).Step n).1 = .panic (.err .ErrOutOfGas) ↔ wrapInt64 (r - n) ≤ 0) ∧
    (((GasMeter.gas r).Step n).1 = .ok () ↔ 0 < wrapInt64 (r - n)) ∧
    (GasMeter.gas n).Step n = (.panic (.err .ErrOutOfGas), .gas 0) ∧
    ((wrapInt64 (r - n) - (r - n)) % 2 ^ 64 = 0 ∧ -2 ^ 63 ≤ wrapInt64 (r - n) ∧
      wrapInt64 (r - n) < 2 ^ 63) := by
  refine ⟨?_, ?_, ?_, ?_, ?_⟩
  · simp only [GasMeter.Step]; split <;> rfl
  · simp only [GasMeter.Step]; split <;> simp_all
  · simp only [GasMeter.Step]; split <;> simp_all
  · simp [GasMeter.Step, wrapInt64]
  · unfold wrapInt64
    omega

/-- C2 (amended): a custom section (id 0) that `readSection` decodes successfully has
consumed exactly as many payload bytes as its size field declares; for the ids 1 to
11 the declared size is read and charged but not used, so two sections that differ
only in the declared size are decoded alike. -/
theorem readSection_declared_size (env : Env) (m : Module) (g : GasMeter) (id : Byte)
    (enc enc' : List Byte) (ss ss' : Nat) (rest : Reader)
    (henc : isLeb enc ss = true) (henc' : isLeb enc' ss' = true) :
    (id.val = 0 → ∀ s', readSection env ⟨m, ⟨id :: (enc ++ rest), g⟩⟩ = (.ok (), s') →
      ss ≤ rest.length ∧ s'.rd.r = rest.drop ss) ∧
    (1 ≤ id.val → g.covers 5 = true →
      readSection env ⟨m, ⟨id :: (enc ++ rest), g⟩⟩ =
        readSection env ⟨m, ⟨id :: (enc' ++ rest), g⟩⟩) := by
  constructor
  · intro hid s' hok
    have h0 : id = 0 := Fin.ext hid
    subst h0
    exact readSection_custom_consumed env m g rest s' henc hok
  · intro hid hg
    rw [readSection_header env m id rest henc hg, readSection_header env m id rest henc' hg,
      readSectionSwitch_size env id.val ss ss' hid]

/-- C2 (witness): a custom section of declared size 2, and a function section declared
with size 2 and with size 5. -/
theorem readSection_declared_size_witness :
    (isLeb [2] 2 = true ∧ isLeb [5] 5 = true ∧ (NewGas 8).covers 5 = true ∧
      readSection specEnv ⟨{}, ⟨[0, 2, 7, 8, 9], NewGas 8⟩⟩ =
        (.ok (), ⟨{}, ⟨[9], .gas 1⟩⟩)) ∧
    (2 ≤ [7, 8, (9 : Byte)].length ∧ ([9] : List Byte) = List.drop 2 [7, 8, 9]) ∧
    readSection specEnv ⟨{}, ⟨[3, 2, 0, 9], NewGas 8⟩⟩ =
      readSection specEnv ⟨{}, ⟨[3, 5, 0, 9], NewGas 8⟩⟩ :=
  ⟨⟨by decide, by decide, by decide, rfl⟩,
   (readSection_declared_size specEnv {} (NewGas 8) 0 [2] [5] 2 5 [7, 8, 9]
      (by decide) (by decide)).1 rfl ⟨{}, ⟨[9], .gas 1⟩⟩ rfl,
   (readSection_declared_size specEnv {} (NewGas 8) 3 [2] [5] 2 5 [0, 9]
      (by decide) (by decide)).2 (by decide) (by decide)⟩

/-- C2 (counterexample): a function section that declares 5 payload bytes and holds
an empty vector is decoded successfully after 1 payload byte. -/
theorem readSection_size_not_enforced :
    readSection specEnv ⟨{}, ⟨[3, 5, 0, 1, 2, 3, 4, 9], .unmetered⟩⟩ =
      (.ok (), ⟨{}, ⟨[1, 2, 3, 4, 9], .unmetered⟩⟩) ∧
    isLeb [5] 5 = true ∧
    ([1, 2, 3, 4, 9] : List Byte) ≠ List.drop 5 [0, 1, 2, 3, 4, 9] := by
  refine ⟨rfl, rfl, by decide⟩

/-- C3 (amended): for a section id above 11 followed by a well-formed size, and a gas
meter that covers the two header charges (unmetered, or a balance above 5),
`readSection` returns the error "invalid section id" wrapped with the section id;
the module is left unchanged, whatever the meter; and `readSections` returns that
error whenever all the sections before this one are decoded successfully. -/
theorem readSection_invalid_id (env : Env) (m : Module) (g : GasMeter) (id : Byte)
    (enc : List Byte) (ss : Nat) (rest : Reader) (k fuel : Nat) (s0 : St)
    (hid : 11 < id.val) (henc : isLeb enc ss = true) (hg : g.covers 5 = true)
    (hrun : runSections env k s0 = some ⟨m, ⟨id :: (enc ++ rest), g⟩⟩)
    (hfuel : k < fuel) :
    readSection env ⟨m, ⟨id :: (enc ++ rest), g⟩⟩ =
      (.error (.wrapf "read section for %d: %w" [id.val] (.new "invalid section id")),
        ⟨m, ⟨rest, g.charged 5⟩⟩) ∧
    (∀ g', (readSection env ⟨m, ⟨id :: (enc ++ rest), g'⟩⟩).2.m = m) ∧
    readSections env fuel s0 =
      some (.error (.wrapf "read section for %d: %w" [id.val] (.new "invalid section id")),
        ⟨m, ⟨rest, g.charged 5⟩⟩) := by
  have h1 : readSection env ⟨m, ⟨id :: (enc ++ rest), g⟩⟩ =
      (.error (.wrapf "read section for %d: %w" [id.val] (.new "invalid section id")),
        ⟨m, ⟨rest, g.charged 5⟩⟩) := by
    rw [readSection_header env m id rest henc hg, readSectionSwitch_invalid env _ _ hid]
    rfl
  refine ⟨h1, fun g' => readSection_invalid_module env m g' id rest henc hid, ?_⟩
  obtain ⟨f, rfl⟩ : ∃ f, fuel = k + (f + 1) := ⟨fuel - k - 1, by omega⟩
  rw [readSections_of_run env k s0 _ hrun]
  simp [readSections, h1, Err.isEOF]

/-- C3 (witness): the section id 12 after an empty function section, read with a
balance of 20. -/
theorem readSection_invalid_id_witness :
    (11 < (12 : Byte).val ∧ isLeb [0] 0 = true ∧ (GasMeter.gas 11).covers 5 = true ∧
      runSections specEnv 1 ⟨{}, ⟨[3, 1, 0, 12, 0], NewGas 20⟩⟩ =
        some ⟨{}, ⟨[12, 0], .gas 11⟩⟩ ∧ 1 < 2) ∧
    readSection specEnv ⟨{}, ⟨[12, 0], .gas 11⟩⟩ =
      (.error (.wrapf "read section for %d: %w" [12] (.new "invalid section id")),
        ⟨{}, ⟨[], .gas 6⟩⟩) ∧
    (∀ g', (readSection specEnv ⟨{}, ⟨[12, 0], g'⟩⟩).2.m = {}) ∧
    readSections specEnv 2 ⟨{}, ⟨[3, 1, 0, 12, 0], NewGas 20⟩⟩ =
      some (.error (.wrapf "read section for %d: %w" [12] (.new "invalid section id")),
        ⟨{}, ⟨[], .gas 6⟩⟩) :=
  ⟨⟨by decide, by decide, by decide, rfl, by decide⟩,
   readSection_invalid_id specEnv {} (.gas 11) 12 [0] 0 [] 1 2
     ⟨{}, ⟨[3, 1, 0, 12, 0], NewGas 20⟩⟩ (by decide) (by decide) (by decide) rfl (by decide)⟩

/-- C3 (counterexample): with a balance of 5 the call traps instead of returning the
error; and a stream whose data section fails first makes `readSections` return that
section's error, although a section with id 12 follows. -/
theorem readSection_invalid_id_counterexample :
    readSection specEnv ⟨{}, ⟨[12, 0], NewGas 5⟩⟩ =
      (.panic (.err .ErrOutOfGas), ⟨{}, ⟨[], .gas 0⟩⟩) ∧
    readSections specEnv 2 ⟨{}, ⟨[11, 2, 1, 5, 12, 0], .unmetered⟩⟩ =
      some (.error (.wrapf "read section for %d: %w" [11]
          (.wrapf "read data segment: %w" [] (.errorf "invalid memory index: %d" [5]))),
        ⟨{ SecData := [none] }, ⟨[12, 0], .unmetered⟩⟩) := by
  exact ⟨rfl, rfl⟩

/-- C4: a custom section with declared size `ss`, at least `ss` bytes left in the
stream and a gas meter that covers the charges `1 + 4 + ss` is decoded successfully;
exactly the `ss` payload bytes are consumed and the module is unchanged. -/
theorem readSection_custom (env : Env) (m : Module) (g : GasMeter) (enc : List Byte)
    (ss : Nat) (payload rest : Reader) (henc : isLeb enc ss = true)
    (hlen : payload.length = ss) (hg : g.covers (5 + ss) = true) :
    readSection env ⟨m, ⟨0 :: (enc ++ (payload ++ rest)), g⟩⟩ =
      (.ok (), ⟨m, ⟨rest, g.charged (5 + ss)⟩⟩) := by
  subst hlen
  rw [readSection_header env m 0 (payload ++ rest) henc (covers_mono hg (by omega))]
  have hsw : readSectionSwitch env (0 : Byte).val payload.length =
      readSectionCustom payload.length := rfl
  have hs := step_of_covers payload.length rest (covers_charged 5 hg (by omega)) (by omega)
  rw [charged_charged] at hs
  simp only [hsw, readSectionCustom, bind_eq, bind_apply, liftRd_apply, mapErr_apply,
    onReader_apply, attempt_apply, ReadFull_append, hs]
  rfl

/-- C4 (witness): a custom section with three payload bytes, read with a balance
of 9 into a module that holds a start index. -/
theorem readSection_custom_witness :
    (isLeb [3] 3 = true ∧ [7, 8, (9 : Byte)].length = 3 ∧
      (NewGas 9).covers (5 + 3) = true) ∧
    readSection specEnv ⟨{ SecStart := [4] }, ⟨[0, 3, 7, 8, 9, 1, 0], NewGas 9⟩⟩ =
      (.ok (), ⟨{ SecStart := [4] }, ⟨[1, 0], (NewGas 9).charged (5 + 3)⟩⟩) :=
  ⟨⟨by decide, by decide, by decide⟩,
   readSection_custom specEnv { SecStart := [4] } (NewGas 9) [3] 3 [7, 8, 9] [1, 0]
     (by decide) (by decide) (by decide)⟩

/-- C5 (amended): `readSections` checks neither that a section id occurs once nor
that the ids ascend: whenever the stream splits into `k` sections that `readSection`
decodes successfully one after the other, whatever their ids, and ends there,
`readSections` returns nil. -/
theorem readSections_any_order (env : Env) (k fuel : Nat) (s s' : St)
    (hrun : runSections env k s = some s') (hend : s'.rd.r = []) (hfuel : k < fuel) :
    readSections env fuel s = some (.ok (), s') := by
  obtain ⟨f, rfl⟩ : ∃ f, fuel = k + (f + 1) := ⟨fuel - k - 1, by omega⟩
  rw [readSections_of_run env k s s' hrun]
  obtain ⟨m, ⟨r, g⟩⟩ := s'
  simp only at hend
  subst hend
  exact readSections_at_end env m g f

/-- C5 (witness): a memory section followed by a function section. -/
theorem readSections_any_order_witness :
    (runSections specEnv 2 ⟨{}, ⟨[5, 1, 0, 3, 2, 1, 7], NewGas 100⟩⟩ =
        some ⟨{ SecFunctions := [7] }, ⟨[], .gas 78⟩⟩ ∧
      ([] : Reader) = [] ∧ 2 < 3) ∧
    readSections specEnv 3 ⟨{}, ⟨[5, 1, 0, 3, 2, 1, 7], NewGas 100⟩⟩ =
      some (.ok (), ⟨{ SecFunctions := [7] }, ⟨[], .gas 78⟩⟩) :=
  ⟨⟨rfl, rfl, by decide⟩,
   readSections_any_order specEnv 2 3 ⟨{}, ⟨[5, 1, 0, 3, 2, 1, 7], NewGas 100⟩⟩
     ⟨{ SecFunctions := [7] }, ⟨[], .gas 78⟩⟩ rfl rfl (by decide)⟩

/-- C5 (counterexample): a stream with two function sections, and a stream whose
function section (id 3) follows the memory section (id 5), are both accepted. -/
theorem readSections_order_counterexample :
    readSections specEnv 3 ⟨{}, ⟨[3, 2, 1, 7, 3, 2, 1, 9], .unmetered⟩⟩ =
      some (.ok (), ⟨{ SecFunctions := [9] }, ⟨[], .unmetered⟩⟩) ∧
    readSections specEnv 3 ⟨{}, ⟨[5, 1, 0, 3, 2, 1, 7], .unmetered⟩⟩ =
      some (.ok (), ⟨{ SecFunctions := [7] }, ⟨[], .unmetered⟩⟩) := by
  exact ⟨rfl, rfl⟩

/-- C6 (the code at the failing input): on the two bytes `0x00 0x05`, a custom
section header announcing 5 payload bytes of which none is present, the error
`io.EOF` of the payload read is taken for the end of the stream and `readSections`
returns nil; with one payload byte present the error is `io.ErrUnexpectedEOF` and
is returned. -/
theorem readSections_truncated_custom (env : Env) (m : Module) (fuel : Nat) :
    readSection env ⟨m, ⟨[0x00, 0x05], .unmetered⟩⟩ =
      (.error (.wrapf "read section for %d: %w" [0] .EOF), ⟨m, ⟨[], .unmetered⟩⟩) ∧
    readSections env (fuel + 1) ⟨m, ⟨[0x00, 0x05], .unmetered⟩⟩ =
      some (.ok (), ⟨m, ⟨[], .unmetered⟩⟩) ∧
    readSections env (fuel + 1) ⟨m, ⟨[0x00, 0x05, 0x01], .unmetered⟩⟩ =
      some (.error (.wrapf "read section for %d: %w" [0] .ErrUnexpectedEOF),
        ⟨m, ⟨[], .unmetered⟩⟩) := by
  have h1 : readSection env ⟨m, ⟨[0x00, 0x05], .unmetered⟩⟩ =
      (.error (.wrapf "read section for %d: %w" [0] .EOF), ⟨m, ⟨[], .unmetered⟩⟩) := rfl
  have h2 : readSection env ⟨m, ⟨[0x00, 0x05, 0x01], .unmetered⟩⟩ =
      (.error (.wrapf "read section for %d: %w" [0] .ErrUnexpectedEOF),
        ⟨m, ⟨[], .unmetered⟩⟩) := rfl
  refine ⟨h1, ?_, ?_⟩
  · simp [readSections, h1, Err.isEOF]
  · simp [readSections, h2, Err.isEOF]

/-- C7 (amended): for a payload made of a LEB128 count `n` followed by `n` well-formed
LEB128 values `vs`, and a gas meter that covers the charges `4 * (n + 1)` (unmetered,
or a balance above that), `readSectionFunctions` succeeds and sets `SecFunctions` to
`vs`, in stream order and of length `n`, whatever it held before; `readSectionStart`
does the same for `SecStart`. -/
theorem readSectionFunctions_values (m : Module) (g : GasMeter) (encN : List Byte)
    (n : Nat) (encs : List (List Byte)) (vs : List Nat) (rest : Reader)
    (hn : isLeb encN n = true) (hvs : areLebs encs vs = true) (hlen : vs.length = n)
    (hg : g.covers (4 * (n + 1)) = true) :
    readSectionFunctions ⟨m, ⟨encN ++ (encs.flatten ++ rest), g⟩⟩ =
      (.ok (), ⟨{ m with SecFunctions := vs }, ⟨rest, g.charged (4 * (n + 1))⟩⟩) ∧
    readSectionStart ⟨m, ⟨encN ++ (encs.flatten ++ rest), g⟩⟩ =
      (.ok (), ⟨{ m with SecStart := vs }, ⟨rest, g.charged (4 * (n + 1))⟩⟩) := by
  subst hlen
  have hd := decode_of_isLeb hn (encs.flatten ++ rest)
  have h4 : step 4 ⟨encs.flatten ++ rest, g⟩ =
      (.ok (), ⟨encs.flatten ++ rest, g.charged 4⟩) := by
    simpa using step_of_covers 4 (encs.flatten ++ rest) hg (by omega)
  have hg' : (g.charged 4).covers (4 * vs.length) = true :=
    covers_mono (covers_charged 4 hg (by omega)) (by omega)
  have e4 : 4 + 4 * vs.length = 4 * (vs.length + 1) := by omega
  constructor
  · have hfill := fillSlice_lebs (fun m => m.SecFunctions)
      (fun m xs => { m with SecFunctions := xs }) (fun _ _ => rfl) (fun _ _ _ => rfl)
      (fun _ => rfl) (.wrapf "get typeidx: %w" []) rest encs vs []
      { m with SecFunctions := List.replicate vs.length 0 } (g.charged 4) hvs rfl hg'
    simp only [readSectionFunctions, bind_eq]
    rw [bind_ok (liftRd_ok m (mapErr_ok (onReader_ok g hd))), bind_ok (liftRd_ok m h4),
      bind_ok (modifyModule_apply _ m _)]
    simp only [List.length_nil, List.nil_append] at hfill
    rw [hfill, charged_charged, e4]
  · have hfill := fillSlice_lebs (fun m => m.SecStart)
      (fun m xs => { m with SecStart := xs }) (fun _ _ => rfl) (fun _ _ _ => rfl)
      (fun _ => rfl) (.wrapf "read function index: %w" []) rest encs vs []
      { m with SecStart := List.replicate vs.length 0 } (g.charged 4) hvs rfl hg'
    simp only [readSectionStart, bind_eq]
    rw [bind_ok (liftRd_ok m (mapErr_ok (onReader_ok g hd))), bind_ok (liftRd_ok m h4),
      bind_ok (modifyModule_apply _ m _)]
    simp only [List.length_nil, List.nil_append] at hfill
    rw [hfill, charged_charged, e4]

/-- C7 (witness): the count 2 and the values 5 and 128, read with a balance of 13
into a module whose `SecFunctions` held three entries. -/
theorem readSectionFunctions_values_witness :
    (isLeb [2] 2 = true ∧ areLebs [[5], [0x80, 0x01]] [5, 128] = true ∧
      [5, 128].length = 2 ∧ (NewGas 13).covers (4 * (2 + 1)) = true) ∧
    readSectionFunctions
        ⟨{ SecFunctions := [1, 2, 3] }, ⟨[2] ++ ([[5], [0x80, 0x01]].flatten ++ [9]),
          NewGas 13⟩⟩ =
      (.ok (), ⟨{ SecFunctions := [5, 128] }, ⟨[9], (NewGas 13).charged (4 * (2 + 1))⟩⟩) ∧
    readSectionStart
        ⟨{ SecFunctions := [1, 2, 3] }, ⟨[2] ++ ([[5], [0x80, 0x01]].flatten ++ [9]),
          NewGas 13⟩⟩ =
      (.ok (), ⟨{ SecFunctions := [1, 2, 3], SecStart := [5, 128] },
        ⟨[9], (NewGas 13).charged (4 * (2 + 1))⟩⟩) :=
  ⟨⟨by decide, by decide, by decide, by decide⟩,
   readSectionFunctions_values { SecFunctions := [1, 2, 3] } (NewGas 13) [2] 2
     [[5], [0x80, 0x01]] [5, 128] [9] (by decide) (by decide) (by decide) (by decide)⟩

/-- C7 (counterexample): the payload "count 2, values 5 and 128" with a balance of
12: the last charge brings the balance to 0 and the call traps instead of
succeeding. -/
theorem readSectionFunctions_counterexample :
    isLeb [2] 2 = true ∧ areLebs [[5], [0x80, 0x01]] [5, 128] = true ∧
    readSectionFunctions ⟨{}, ⟨[2, 5, 0x80, 0x01], NewGas 12⟩⟩ =
      (.panic (.err .ErrOutOfGas), ⟨{ SecFunctions := [5, 128] }, ⟨[], .gas 0⟩⟩) := by
  decide

/-- C8: when `readCodeSegment` succeeds, the returned `Body` followed by the byte
`0x0B` is exactly what follows, in the size-limited segment, the number `k` of local
groups and the `k` groups declared (each a count and a type byte); and whenever what
follows them does not end with `0x0B` the call fails (with the error "expr not end
with OptCodeEnd" when a last byte exists and the charge for the size did not
trap). -/
theorem readCodeSegment_body (r : Reader) (g : GasMeter) :
    (∀ seg s', readCodeSegment ⟨r, g⟩ = (.ok seg, s') →
      ∃ ss r1 k r2 ns rem, DecodeUint32 r = (.ok ss, r1) ∧
        DecodeUint32 (r1.take ss) = (.ok k, r2) ∧
        declaredLocalCounts k r2 = (.ok ns, rem) ∧ ns.length = k ∧
        rem <:+ r1.take ss ∧ seg.Body ++ [OptCodeEnd] = rem) ∧
    (∀ ss r1 k r2 ns rem, DecodeUint32 r = (.ok ss, r1) →
      DecodeUint32 (r1.take ss) = (.ok k, r2) →
      declaredLocalCounts k r2 = (.ok ns, rem) →
      rem.getLast? ≠ some OptCodeEnd →
      (∀ seg s', readCodeSegment ⟨r, g⟩ ≠ (.ok seg, s')) ∧
      (rem ≠ [] → (g.Step 4).1 = .ok () →
        readCodeSegment ⟨r, g⟩ =
          (.error (.errorf "expr not end with OptCodeEnd" []),
            ⟨r1.drop ss, (g.Step 4).2⟩))) := by
  constructor
  · intro seg s' h
    obtain ⟨ss, r1, nl, rem, hd, hl⟩ := readCodeSegment_ok h
    obtain ⟨k, r2, ns, hk, hc, hlen⟩ := readLocalDecls_counts hl
    refine ⟨ss, r1, k, r2, ns, rem, hd, hk, hc, hlen, ?_, ?_⟩
    · have := readLocalDecls_suffix (r1.take ss)
      rwa [hl] at this
    · rw [readCodeSegment_eval hd hl] at h
      rcases hS4 : (g.Step 4).1 with u | e | p <;> rw [hS4] at h <;> simp only [] at h
      · cases hlast : rem.getLast? with
        | none => rw [hlast] at h; simp at h
        | some last =>
          rw [hlast] at h
          by_cases hne : last = OptCodeEnd
          · simp only [hne, ne_eq, not_true_eq_false, if_false, Prod.mk.injEq] at h
            rcases hSs : ((g.Step 4).2.Step ss).1 with u | e | p <;> rw [hSs] at h <;>
              simp only [Res.ok.injEq, reduceCtorEq, false_and] at h
            rw [← h.1]
            subst hne
            exact List.dropLast_append_getLast? _ hlast
          · simp [hne] at h
      · simp at h
      · simp at h
  · intro ss r1 k r2 ns rem hd hk hc hlast
    have hl := readLocalDecls_of_counts hk hc
    rw [readCodeSegment_eval hd hl]
    constructor
    · intro seg s' h
      rcases hS4 : (g.Step 4).1 with u | e | p <;> rw [hS4] at h <;> simp only [] at h
      · cases hl' : rem.getLast? with
        | none => rw [hl'] at h; simp at h
        | some last =>
          rw [hl'] at h hlast
          have hne : last ≠ OptCodeEnd := fun hc => hlast (by rw [hc])
          simp [hne] at h
      · simp at h
      · simp at h
    · intro hrem h4
      rw [h4]
      cases hl' : rem.getLast? with
      | none => exact absurd (List.getLast?_eq_none_iff.mp hl') hrem
      | some last =>
        rw [hl'] at hlast
        have hne : last ≠ OptCodeEnd := fun hc => hlast (by rw [hc])
        simp [hne]

/-- C8 (witness): a segment of size 8 with two groups of locals and the body
`0x20 0x01 0x0B`; the same bytes with size 7, which cuts the `0x0B` off. -/
theorem readCodeSegment_body_witness :
    (readCodeSegment ⟨[8, 2, 1, 0x7f, 2, 0x7e, 0x20, 0x01, 0x0B, 9], NewGas 20⟩ =
        (.ok { NumLocals := 3, Body := [0x20, 0x01] }, ⟨[9], .gas 8⟩) ∧
      DecodeUint32 [7, 2, 1, 0x7f, 2, 0x7e, 0x20, 0x01, 0x0B] =
        (.ok 7, [2, 1, 0x7f, 2, 0x7e, 0x20, 0x01, 0x0B]) ∧
      DecodeUint32 (List.take 7 [2, 1, 0x7f, 2, 0x7e, 0x20, 0x01, 0x0B]) =
        (.ok 2, [1, 0x7f, 2, 0x7e, 0x20, 0x01]) ∧
      declaredLocalCounts 2 [1, 0x7f, 2, 0x7e, 0x20, 0x01] = (.ok [1, 2], [0x20, 0x01]) ∧
      ([0x20, 0x01] : List Byte).getLast? ≠ some OptCodeEnd) ∧
    (∃ ss r1 k r2 ns rem,
      DecodeUint32 [8, 2, 1, 0x7f, 2, 0x7e, 0x20, 0x01, 0x0B, 9] = (.ok ss, r1) ∧
      DecodeUint32 (r1.take ss) = (.ok k, r2) ∧
      declaredLocalCounts k r2 = (.ok ns, rem) ∧ ns.length = k ∧ rem <:+ r1.take ss ∧
      ({ NumLocals := 3, Body := [0x20, 0x01] } : CodeSegment).Body ++ [OptCodeEnd] = rem) ∧
    ∀ seg s', readCodeSegment ⟨[7, 2, 1, 0x7f, 2, 0x7e, 0x20, 0x01, 0x0B], NewGas 20⟩ ≠
      (.ok seg, s') :=
  ⟨⟨by decide, by decide, by decide, by decide, by decide⟩,
   (readCodeSegment_body [8, 2, 1, 0x7f, 2, 0x7e, 0x20, 0x01, 0x0B, 9] (NewGas 20)).1
     { NumLocals := 3, Body := [0x20, 0x01] } ⟨[9], .gas 8⟩ (by decide),
   ((readCodeSegment_body [7, 2, 1, 0x7f, 2, 0x7e, 0x20, 0x01, 0x0B] (NewGas 20)).2 7
      [2, 1, 0x7f, 2, 0x7e, 0x20, 0x01, 0x0B] 2 [1, 0x7f, 2, 0x7e, 0x20, 0x01] [1, 2]
      [0x20, 0x01] (by decide) (by decide) (by decide) (by decide)).1⟩

/-- C9 (amended): when `readCodeSegment` succeeds, `NumLocals` is the sum of the
counts of all the local groups declared in the segment, reduced modulo `2^32` (the
accumulator is a `uint32`); it is the sum itself whenever the sum is below `2^32`. -/
theorem readCodeSegment_numLocals (r : Reader) (g : GasMeter) (seg : CodeSegment)
    (s' : Rd) (h : readCodeSegment ⟨r, g⟩ = (.ok seg, s')) :
    ∃ ss r1 k r2 ns rem, DecodeUint32 r = (.ok ss, r1) ∧
      DecodeUint32 (r1.take ss) = (.ok k, r2) ∧
      declaredLocalCounts k r2 = (.ok ns, rem) ∧ ns.length = k ∧
      seg.NumLocals = ns.sum % 2 ^ 32 ∧ (ns.sum < 2 ^ 32 → seg.NumLocals = ns.sum) := by
  obtain ⟨ss, r1, nl, rem, hd, hl⟩ := readCodeSegment_ok h
  rcases hk : DecodeUint32 (r1.take ss) with ⟨a, r2⟩
  simp only [readLocalDecls, bind_eq, bind_apply, mapErr_apply, hk] at hl
  cases a with
  | ok k =>
    simp only [] at hl
    obtain ⟨ns, h1, h2, h3⟩ := readLocals_counts k 0 r2 rem nl (by norm_num) hl
    have hl' : readLocalDecls (r1.take ss) = (.ok nl, rem) := by
      simp only [readLocalDecls, bind_eq, bind_apply, mapErr_apply, hk]
      exact hl
    have hseg : seg.NumLocals = nl := by
      rw [readCodeSegment_eval hd hl'] at h
      rcases hS4 : (g.Step 4).1 with u | e | p <;> rw [hS4] at h <;> simp only [] at h
      · cases hlast : rem.getLast? with
        | none => rw [hlast] at h; simp at h
        | some last =>
          rw [hlast] at h
          by_cases hne : last = OptCodeEnd
          · simp only [hne, ne_eq, not_true_eq_false, if_false, Prod.mk.injEq] at h
            rcases hSs : ((g.Step 4).2.Step ss).1 with u | e | p <;> rw [hSs] at h <;>
              simp only [Res.ok.injEq, reduceCtorEq, false_and] at h
            rw [← h.1]
          · simp [hne] at h
      · simp at h
      · simp at h
    have hsum : seg.NumLocals = ns.sum % 2 ^ 32 := by
      rw [hseg, h3, Nat.zero_add]
    exact ⟨ss, r1, k, r2, ns, rem, hd, hk, h1, h2, hsum,
      fun hlt => by rw [hsum, Nat.mod_eq_of_lt hlt]⟩
  | error e => simp at hl
  | panic p => simp at hl

/-- C9 (witness): a segment with two groups, of 3 and of 4 locals. -/
theorem readCodeSegment_numLocals_witness :
    readCodeSegment ⟨[8, 2, 3, 0x7f, 4, 0x7e, 0x20, 0x00, 0x0B, 9], NewGas 20⟩ =
        (.ok { NumLocals := 7, Body := [0x20, 0x00] }, ⟨[9], .gas 8⟩) ∧
    ∃ ss r1 k r2 ns rem,
      DecodeUint32 [8, 2, 3, 0x7f, 4, 0x7e, 0x20, 0x00, 0x0B, 9] = (.ok ss, r1) ∧
      DecodeUint32 (r1.take ss) = (.ok k, r2) ∧
      declaredLocalCounts k r2 = (.ok ns, rem) ∧ ns.length = k ∧
      ({ NumLocals := 7, Body := [0x20, 0x00] } : CodeSegment).NumLocals = ns.sum % 2 ^ 32 ∧
      (ns.sum < 2 ^ 32 →
        ({ NumLocals := 7, Body := [0x20, 0x00] } : CodeSegment).NumLocals = ns.sum) :=
  ⟨by decide,
   readCodeSegment_numLocals [8, 2, 3, 0x7f, 4, 0x7e, 0x20, 0x00, 0x0B, 9] (NewGas 20)
     { NumLocals := 7, Body := [0x20, 0x00] } ⟨[9], .gas 8⟩ (by decide)⟩

/-- C9 (counterexample): a segment that declares two groups of `2^31` locals each is
decoded successfully with `NumLocals = 0`, while the counts add up to `2^32`. -/
theorem readCodeSegment_numLocals_counterexample :
    readCodeSegment
        ⟨[14, 2, 0x80, 0x80, 0x80, 0x80, 0x08, 0x7f, 0x80, 0x80, 0x80, 0x80, 0x08, 0x7f,
          0x0B], .unmetered⟩ =
      (.ok { NumLocals := 0, Body := [] }, ⟨[], .unmetered⟩) ∧
    declaredLocalCounts 2
        [0x80, 0x80, 0x80, 0x80, 0x08, 0x7f, 0x80, 0x80, 0x80, 0x80, 0x08, 0x7f, 0x0B] =
      (.ok [2 ^ 31, 2 ^ 31], [0x0B]) ∧
    (0 : Nat) ≠ [2 ^ 31, 2 ^ 31].sum := by
  refine ⟨by decide, by decide, by decide⟩

/-- C10 (amended): `readDataSegment` never succeeds when the decoded memory index is
not 0, and it then returns the error "invalid memory index" unless the gas meter
traps at the charge for the index, which comes before the test; when the offset
expression is decoded and its opcode is not `i32.const` it returns an error; on
success the result carries the decoded offset expression, whose opcode is
`i32.const`, and `Init` is exactly the next `c` bytes of the stream, `c` being the
decoded byte count. -/
theorem readDataSegment_contract (env : Env) (r : Reader) (g : GasMeter) :
    (∀ d r1, DecodeUint32 r = (.ok d, r1) → d ≠ 0 →
      (∀ seg s', readDataSegment env ⟨r, g⟩ ≠ (.ok seg, s')) ∧
      ((g.Step 4).1 = .ok () →
        readDataSegment env ⟨r, g⟩ =
          (.error (.errorf "invalid memory index: %d" [d]), ⟨r1, (g.Step 4).2⟩))) ∧
    (∀ r1 expr s2, DecodeUint32 r = (.ok 0, r1) → (g.Step 4).1 = .ok () →
      env.readConstantExpression ⟨r1, (g.Step 4).2⟩ = (.ok expr, s2) →
      expr.optCode ≠ OptCodeI32Const →
      readDataSegment env ⟨r, g⟩ =
        (.error (.errorf "offset expression must have i32.const optcode but go %#x"
          [expr.optCode.val]), s2)) ∧
    (∀ seg s', readDataSegment env ⟨r, g⟩ = (.ok seg, s') →
      ∃ r1 expr r2 g2 c r3, DecodeUint32 r = (.ok 0, r1) ∧
        env.readConstantExpression ⟨r1, (g.Step 4).2⟩ = (.ok expr, ⟨r2, g2⟩) ∧
        expr.optCode = OptCodeI32Const ∧ DecodeUint32 r2 = (.ok c, r3) ∧
        seg = { MemoryIndex := 0, OffsetExpression := expr, Init := r3.take c } ∧
        seg.Init.length = c ∧ s'.r = r3.drop c) := by
  refine ⟨?_, ?_, ?_⟩
  · intro d r1 hd hne
    rcases hS4 : g.Step 4 with ⟨b4, g4⟩
    constructor
    · intro seg s' h
      simp only [readDataSegment, bind_eq, bind_apply, mapErr_apply, onReader_apply,
        step_apply, hd, hS4] at h
      cases b4 <;> simp [hne] at h
    · intro h4
      simp only at h4
      subst h4
      simp only [readDataSegment, bind_eq, bind_apply, mapErr_apply, onReader_apply,
        step_apply, hd, hS4]
      simp [hne]
  · intro r1 expr s2 hd h4 hexpr hne
    rcases hS4 : g.Step 4 with ⟨b4, g4⟩
    rw [hS4] at h4 hexpr
    simp only at h4 hexpr
    subst h4
    simp only [readDataSegment, bind_eq, bind_apply, mapErr_apply, onReader_apply,
      step_apply, hd, hS4, hexpr]
    simp only [ne_eq, not_true_eq_false, if_false]
    rw [bind_ok (mapErr_ok hexpr), if_pos hne]
    rfl
  · intro seg s' h
    rcases hd : DecodeUint32 r with ⟨a, r1⟩
    rcases hS4 : g.Step 4 with ⟨b4, g4⟩
    rcases hexpr : env.readConstantExpression ⟨r1, g4⟩ with ⟨c, ⟨r2, g2⟩⟩
    rcases hvs : DecodeUint32 r2 with ⟨v, r3⟩
    rcases hS4' : g2.Step 4 with ⟨b4', g4'⟩
    simp only [readDataSegment, bind_eq, bind_apply, mapErr_apply, onReader_apply,
      step_apply, hd, hS4] at h
    cases a with
    | ok d =>
      cases b4 with
      | ok u =>
        simp only [] at h
        by_cases hd0 : d = 0
        · subst hd0
          simp only [ne_eq, not_true_eq_false, if_false, bind_apply, mapErr_apply, hexpr] at h
          cases c with
          | ok expr =>
            simp only [] at h
            by_cases hop : expr.optCode = OptCodeI32Const
            · simp only [hop, ne_eq, not_true_eq_false, if_false, bind_apply, mapErr_apply,
                onReader_apply, step_apply, hvs, hS4'] at h
              cases v with
              | ok n =>
                cases b4' with
                | ok u' =>
                  simp only [] at h
                  rcases ReadFull_cases n r3 with ⟨hle, hrf⟩ | ⟨_, e, r', hrf⟩
                  · rcases hSn : g4'.Step n with ⟨bn, gn⟩
                    simp only [hrf, hSn] at h
                    cases bn with
                    | ok un =>
                      simp only [pure_eq, pure_apply, Prod.mk.injEq, Res.ok.injEq] at h
                      refine ⟨r1, expr, r2, g2, n, r3, rfl, hexpr, hop, hvs, h.1.symm, ?_, ?_⟩
                      · rw [← h.1]
                        simp [hle]
                      · rw [← h.2]
                    | error e => simp at h
                    | panic p => simp at h
                  · simp [hrf] at h
                | error e => simp at h
                | panic p => simp at h
              | error e => simp at h
              | panic p => simp at h
            · simp [hop] at h
          | error e => simp at h
          | panic p => simp at h
        · simp [hd0] at h
      | error e => simp at h
      | panic p => simp at h
    | error e => simp at h
    | panic p => simp at h

/-- C10 (witness): a data segment with memory index 5, one whose offset expression
is an `i64.const`, and a well-formed one with two bytes of data. -/
theorem readDataSegment_contract_witness :
    (DecodeUint32 [5, 0x41, 0, 0x0B, 0] = (.ok 5, [0x41, 0, 0x0B, 0]) ∧ (5 : Nat) ≠ 0 ∧
      ((NewGas 10).Step 4).1 = .ok () ∧
      DecodeUint32 [0, 0x42, 0, 0x0B, 0] = (.ok 0, [0x42, 0, 0x0B, 0]) ∧
      specEnv.readConstantExpression ⟨[0x42, 0, 0x0B, 0], ((NewGas 10).Step 4).2⟩ =
        (.ok { optCode := 0x42, data := [0] }, ⟨[0], .gas 3⟩) ∧
      (0x42 : OptCode) ≠ OptCodeI32Const ∧
      readDataSegment specEnv ⟨[0, 0x41, 0, 0x0B, 2, 0xAA, 0xBB, 9], NewGas 100⟩ =
        (.ok { MemoryIndex := 0, OffsetExpression := { optCode := 0x41, data := [0] },
               Init := [0xAA, 0xBB] }, ⟨[9], .gas 87⟩)) ∧
    ((∀ seg s', readDataSegment specEnv ⟨[5, 0x41, 0, 0x0B, 0], NewGas 10⟩ ≠ (.ok seg, s')) ∧
      (((NewGas 10).Step 4).1 = .ok () →
        readDataSegment specEnv ⟨[5, 0x41, 0, 0x0B, 0], NewGas 10⟩ =
          (.error (.errorf "invalid memory index: %d" [5]),
            ⟨[0x41, 0, 0x0B, 0], ((NewGas 10).Step 4).2⟩))) ∧
    readDataSegment specEnv ⟨[0, 0x42, 0, 0x0B, 0], NewGas 10⟩ =
      (.error (.errorf "offset expression must have i32.const optcode but go %#x"
        [(0x42 : OptCode).val]), ⟨[0], .gas 3⟩) ∧
    ∃ r1 expr r2 g2 c r3,
      DecodeUint32 [0, 0x41, 0, 0x0B, 2, 0xAA, 0xBB, 9] = (.ok 0, r1) ∧
      specEnv.readConstantExpression ⟨r1, ((NewGas 100).Step 4).2⟩ =
        (.ok expr, ⟨r2, g2⟩) ∧
      expr.optCode = OptCodeI32Const ∧ DecodeUint32 r2 = (.ok c, r3) ∧
      ({ MemoryIndex := 0, OffsetExpression := { optCode := 0x41, data := [0] },
         Init := [0xAA, 0xBB] } : DataSegment) =
        { MemoryIndex := 0, OffsetExpression := expr, Init := r3.take c } ∧
      ([0xAA, 0xBB] : List Byte).length = c ∧ ([9] : Reader) = r3.drop c :=
  ⟨⟨by decide, by decide, by decide, by decide, by decide, by decide, by decide⟩,
   (readDataSegment_contract specEnv [5, 0x41, 0, 0x0B, 0] (NewGas 10)).1 5
     [0x41, 0, 0x0B, 0] (by decide) (by decide),
   (readDataSegment_contract specEnv [0, 0x42, 0, 0x0B, 0] (NewGas 10)).2.1
     [0x42, 0, 0x0B, 0] { optCode := 0x42, data := [0] } ⟨[0], .gas 3⟩
     (by decide) (by decide) (by decide) (by decide),
   (readDataSegment_contract specEnv [0, 0x41, 0, 0x0B, 2, 0xAA, 0xBB, 9] (NewGas 100)).2.2
     { MemoryIndex := 0, OffsetExpression := { optCode := 0x41, data := [0] },
       Init := [0xAA, 0xBB] } ⟨[9], .gas 87⟩ (by decide)⟩

/-- C10 (counterexample): a data segment whose memory index decodes to 5, read with a
balance of 4: the charge for the index traps and no error is returned. -/
theorem readDataSegment_counterexample :
    DecodeUint32 [5, 0x41, 0, 0x0B, 0] = (.ok 5, [0x41, 0, 0x0B, 0]) ∧ (5 : Nat) ≠ 0 ∧
    readDataSegment specEnv ⟨[5, 0x41, 0, 0x0B, 0], NewGas 4⟩ =
      (.panic (.err .ErrOutOfGas), ⟨[0x41, 0, 0x0B, 0], .gas 0⟩) := by
  decide

/-! ## Element segments -/

/-- The loop of `readElementSegment` returns the next `k` decoded values. -/
theorem readFuncIndices_values :
    ∀ (k : Nat) (r r' : Reader) (g g' : GasMeter) (init : List Nat),
      readFuncIndices k ⟨r, g⟩ = (.ok init, ⟨r', g'⟩) →
      decodeMany k r = (.ok init, r') ∧ init.length = k := by
  intro k
  induction k with
  | zero =>
    intro r r' g g' init h
    simp only [readFuncIndices, pure_eq, pure_apply, Prod.mk.injEq, Res.ok.injEq,
      Rd.mk.injEq] at h
    obtain ⟨h1, h2, _⟩ := h
    subst h1 h2
    exact ⟨rfl, rfl⟩
  | succ k ih =>
    intro r r' g g' init h
    rcases hd : DecodeUint32 r with ⟨a, r1⟩
    rcases hS : g.Step 4 with ⟨b, g1⟩
    rcases hrec : readFuncIndices k ⟨r1, g1⟩ with ⟨c, ⟨r2, g2⟩⟩
    simp only [readFuncIndices, bind_eq, bind_apply, mapErr_apply, onReader_apply,
      step_apply, hd, hS] at h
    cases a with
    | ok v =>
      cases b with
      | ok u =>
        simp only [hrec] at h
        cases c with
        | ok rest =>
          simp only [pure_eq, pure_apply, Prod.mk.injEq, Res.ok.injEq, Rd.mk.injEq] at h
          obtain ⟨h1, h2, _⟩ := h
          subst h1 h2
          obtain ⟨i1, i2⟩ := ih r1 r2 g1 g2 rest hrec
          refine ⟨?_, by simp [i2]⟩
          simp only [decodeMany, bind_eq, bind_apply, hd, i1, pure_eq, pure_apply]
        | error e => simp at h
        | panic p => simp at h
      | error e => simp at h
      | panic p => simp at h
    | error e => simp at h
    | panic p => simp at h

/-- C11: when `readElementSegment` succeeds, `TableIndex` is the first decoded
`uint32`, `OffsetExpr` is the decoded constant expression and its opcode is
`i32.const`, and `Init` holds the decoded function indices in stream order, as many as
the decoded count says; when the decoded offset expression has another opcode the call
fails (with the error "offset expression must be i32.const" when the charge for the
table index did not trap). -/
theorem readElementSegment_contract (env : Env) (r : Reader) (g : GasMeter) :
    (∀ seg s', readElementSegment env ⟨r, g⟩ = (.ok seg, s') →
      ∃ ti r1 expr r2 g2 vs r3, DecodeUint32 r = (.ok ti, r1) ∧
        env.readConstantExpression ⟨r1, (g.Step 4).2⟩ = (.ok expr, ⟨r2, g2⟩) ∧
        expr.optCode = OptCodeI32Const ∧ DecodeUint32 r2 = (.ok vs, r3) ∧
        decodeMany vs r3 = (.ok seg.Init, s'.r) ∧
        seg.TableIndex = ti ∧ seg.OffsetExpr = expr ∧ seg.Init.length = vs) ∧
    (∀ ti r1 expr s2, DecodeUint32 r = (.ok ti, r1) →
      env.readConstantExpression ⟨r1, (g.Step 4).2⟩ = (.ok expr, s2) →
      expr.optCode ≠ OptCodeI32Const →
      (∀ seg s', readElementSegment env ⟨r, g⟩ ≠ (.ok seg, s')) ∧
      ((g.Step 4).1 = .ok () →
        readElementSegment env ⟨r, g⟩ =
          (.error (.errorf "offset expression must be i32.const but go %#x"
            [expr.optCode.val]), s2))) := by
  constructor
  · intro seg s' h
    obtain ⟨sr, sg⟩ := s'
    rcases hd : DecodeUint32 r with ⟨a, r1⟩
    rcases hS4 : g.Step 4 with ⟨b4, g4⟩
    rcases hexpr : env.readConstantExpression ⟨r1, g4⟩ with ⟨c, ⟨r2, g2⟩⟩
    rcases hvs : DecodeUint32 r2 with ⟨v, r3⟩
    rcases hS4' : g2.Step 4 with ⟨b4', g4'⟩
    simp only [readElementSegment, bind_eq, bind_apply, mapErr_apply, onReader_apply,
      step_apply, hd, hS4, hexpr] at h
    cases a with
    | ok ti =>
      cases b4 with
      | ok u =>
        simp only [] at h
        cases c with
        | ok expr =>
          simp only [] at h
          by_cases hop : expr.optCode = OptCodeI32Const
          · simp only [hop, ne_eq, not_true_eq_false, if_false, bind_apply, mapErr_apply,
              onReader_apply, step_apply, hvs, hS4'] at h
            cases v with
            | ok n =>
              cases b4' with
              | ok u' =>
                simp only [] at h
                rcases hfi : readFuncIndices n ⟨r3, g4'⟩ with ⟨d, ⟨r4, g5⟩⟩
                simp only [hfi] at h
                cases d with
                | ok init =>
                  simp only [pure_eq, pure_apply, Prod.mk.injEq, Res.ok.injEq,
                    Rd.mk.injEq] at h
                  obtain ⟨hseg, hr, _⟩ := h
                  subst hseg hr
                  obtain ⟨i1, i2⟩ := readFuncIndices_values n r3 r4 g4' g5 init hfi
                  exact ⟨ti, r1, expr, r2, g2, n, r3, rfl, hexpr, hop, hvs, i1, rfl, rfl, i2⟩
                | error e => simp at h
                | panic p => simp at h
              | error e => simp at h
              | panic p => simp at h
            | error e => simp at h
            | panic p => simp at h
          · simp [hop] at h
        | error e => simp at h
        | panic p => simp at h
      | error e => simp at h
      | panic p => simp at h
    | error e => simp at h
    | panic p => simp at h
  · intro ti r1 expr s2 hd hexpr hne
    rcases hS4 : g.Step 4 with ⟨b4, g4⟩
    rw [hS4] at hexpr
    simp only at hexpr
    constructor
    · intro seg s' h
      simp only [readElementSegment, bind_eq, bind_apply, mapErr_apply, onReader_apply,
        step_apply, hd, hS4, hexpr] at h
      cases b4 <;> simp [hne] at h
    · intro h4
      simp only at h4
      subst h4
      simp only [readElementSegment, bind_eq, bind_apply, mapErr_apply, onReader_apply,
        step_apply, hd, hS4, hexpr]
      simp [hne]

/-- C11 (witness): an element segment with table index 0, offset `i32.const 0` and the
two function indices 1 and 2; and one whose offset expression is an `i64.const`. -/
theorem readElementSegment_contract_witness :
    (readElementSegment specEnv ⟨[0, 0x41, 0, 0x0B, 2, 1, 2, 9], NewGas 100⟩ =
        (.ok { TableIndex := 0, OffsetExpr := { optCode := 0x41, data := [0] },
               Init := [1, 2] }, ⟨[9], .gas 81⟩) ∧
      DecodeUint32 [0, 0x42, 0, 0x0B, 0] = (.ok 0, [0x42, 0, 0x0B, 0]) ∧
      specEnv.readConstantExpression ⟨[0x42, 0, 0x0B, 0], ((NewGas 10).Step 4).2⟩ =
        (.ok { optCode := 0x42, data := [0] }, ⟨[0], .gas 3⟩) ∧
      (0x42 : OptCode) ≠ OptCodeI32Const ∧ ((NewGas 10).Step 4).1 = .ok ()) ∧
    (∃ ti r1 expr r2 g2 vs r3,
      DecodeUint32 [0, 0x41, 0, 0x0B, 2, 1, 2, 9] = (.ok ti, r1) ∧
      specEnv.readConstantExpression ⟨r1, ((NewGas 100).Step 4).2⟩ = (.ok expr, ⟨r2, g2⟩) ∧
      expr.optCode = OptCodeI32Const ∧ DecodeUint32 r2 = (.ok vs, r3) ∧
      decodeMany vs r3 = (.ok [1, 2], [9]) ∧
      (0 : Nat) = ti ∧ ({ optCode := 0x41, data := [0] } : ConstantExpression) = expr ∧
      ([1, 2] : List Nat).length = vs) ∧
    readElementSegment specEnv ⟨[0, 0x42, 0, 0x0B, 0], NewGas 10⟩ =
      (.error (.errorf "offset expression must be i32.const but go %#x"
        [(0x42 : OptCode).val]), ⟨[0], .gas 3⟩) :=
  ⟨⟨by decide, by decide, by decide, by decide, by decide⟩,
   (readElementSegment_contract specEnv [0, 0x41, 0, 0x0B, 2, 1, 2, 9] (NewGas 100)).1
     { TableIndex := 0, OffsetExpr := { optCode := 0x41, data := [0] }, Init := [1, 2] }
     ⟨[9], .gas 81⟩ (by decide),
   ((readElementSegment_contract specEnv [0, 0x42, 0, 0x0B, 0] (NewGas 10)).2 0
     [0x42, 0, 0x0B, 0] { optCode := 0x42, data := [0] } ⟨[0], .gas 3⟩
     (by decide) (by decide) (by decide)).2 (by decide)⟩

/-! ## Limits and import descriptions -/

/-- C12 (amended): `readLimitsType` reads a flag byte, then LEB128 `uint32`s. With the
flag `0x00` it yields `Min` = the first decoded value and no `Max`; with the flag
`0x01` it yields `Min` = the first and `Max` = the second decoded value; every other
flag byte makes it fail without reading any further byte. These outcomes are the ones
stated when the gas meter covers the charges (1 for the flag, 4 per value): the flag
is charged before it is examined, so a meter that runs out there traps instead of
returning the `ErrInvalidByte` error. `readMemoryType` is `readLimitsType`. -/
theorem readLimitsType_contract (b : Byte) (r : Reader) (g : GasMeter) :
    (b.val = 0 → ∀ min r1, DecodeUint32 r = (.ok min, r1) → g.covers 5 = true →
      readLimitsType ⟨b :: r, g⟩ = (.ok { Min := min, Max := none }, ⟨r1, g.charged 5⟩)) ∧
    (b.val = 1 → ∀ min r1 max r2, DecodeUint32 r = (.ok min, r1) →
      DecodeUint32 r1 = (.ok max, r2) → g.covers 9 = true →
      readLimitsType ⟨b :: r, g⟩ =
        (.ok { Min := min, Max := some max }, ⟨r2, g.charged 9⟩)) ∧
    (1 < b.val →
      (∀ lt s', readLimitsType ⟨b :: r, g⟩ ≠ (.ok lt, s')) ∧
      (readLimitsType ⟨b :: r, g⟩).2.r = r ∧
      (g.covers 1 = true →
        readLimitsType ⟨b :: r, g⟩ =
          (.error (.wrapf "%w for limits: %#x != 0x00 or 0x01" [b.val] .ErrInvalidByte),
            ⟨r, g.charged 1⟩) ∧
        (Err.wrapf "%w for limits: %#x != 0x00 or 0x01" [b.val]
          .ErrInvalidByte).isInvalidByte = true)) ∧
    readMemoryType = readLimitsType := by
  refine ⟨?_, ?_, ?_, rfl⟩
  · intro hb min r1 hd hg
    have h1 : step 1 ⟨r, g⟩ = (.ok (), ⟨r, g.charged 1⟩) := by
      simpa using step_of_covers 1 r hg (by omega)
    have h4 : step 4 ⟨r1, g.charged 1⟩ = (.ok (), ⟨r1, g.charged 5⟩) := by
      simpa [charged_charged] using
        step_of_covers 4 r1 (covers_charged 1 hg (by omega)) (by omega)
    simp only [readLimitsType, bind_eq]
    rw [bind_ok (mapErr_ok (onReader_ok g (readByte_cons b r))), bind_ok h1]
    simp only [hb]
    rw [bind_ok (mapErr_ok (onReader_ok _ hd)), bind_ok h4]
    rfl
  · intro hb min r1 max r2 hd hd2 hg
    have h1 : step 1 ⟨r, g⟩ = (.ok (), ⟨r, g.charged 1⟩) := by
      simpa using step_of_covers 1 r hg (by omega)
    have h8 : step 8 ⟨r2, g.charged 1⟩ = (.ok (), ⟨r2, g.charged 9⟩) := by
      simpa [charged_charged] using
        step_of_covers 8 r2 (covers_charged 1 hg (by omega)) (by omega)
    simp only [readLimitsType, bind_eq]
    rw [bind_ok (mapErr_ok (onReader_ok g (readByte_cons b r))), bind_ok h1]
    simp only [hb]
    rw [bind_ok (mapErr_ok (onReader_ok _ hd)), bind_ok (mapErr_ok (onReader_ok _ hd2)),
      bind_ok h8]
    rfl
  · intro hb
    obtain ⟨k, hk⟩ : ∃ k, b.val = k + 2 := ⟨b.val - 2, by omega⟩
    have hsw : ∀ s : Rd,
        (match b.val with
          | 0x00 => do
            let min ← (onReader DecodeUint32).mapErr (.wrapf "read min of limit: %w" [])
            step 4
            pure { Min := min, Max := none }
          | 0x01 => do
            let min ← (onReader DecodeUint32).mapErr (.wrapf "read min of limit: %w" [])
            let m ← (onReader DecodeUint32).mapErr (.wrapf "read min of limit: %w" [])
            step 8
            pure { Min := min, Max := some m }
          | _ => M.fail (.wrapf "%w for limits: %#x != 0x00 or 0x01" [b.val] .ErrInvalidByte) :
            M Rd LimitsType) s =
        (.error (.wrapf "%w for limits: %#x != 0x00 or 0x01" [b.val] .ErrInvalidByte), s) := by
      intro s
      rw [hk]
      rfl
    rcases hS : g.Step 1 with ⟨b1, g1⟩
    have e : readLimitsType ⟨b :: r, g⟩ =
        match b1 with
        | .ok _ => (.error (.wrapf "%w for limits: %#x != 0x00 or 0x01" [b.val]
            .ErrInvalidByte), ⟨r, g1⟩)
        | .error e => (.error e, ⟨r, g1⟩)
        | .panic p => (.panic p, ⟨r, g1⟩) := by
      simp only [readLimitsType, bind_eq, bind_apply, mapErr_apply, onReader_apply,
        step_apply, readByte_cons, hS]
      cases b1 with
      | ok u => exact hsw _
      | error e => rfl
      | panic p => rfl
    refine ⟨?_, ?_, ?_⟩
    · intro lt s' h
      rw [e] at h
      cases b1 <;> simp at h
    · rw [e]
      cases b1 <;> rfl
    · intro hg
      have h1 : step 1 ⟨r, g⟩ = (.ok (), ⟨r, g.charged 1⟩) := by
        simpa using step_of_covers 1 r hg (by omega)
      rw [step_apply, hS] at h1
      simp only [Prod.mk.injEq, Rd.mk.injEq, true_and] at h1
      obtain ⟨hb1, hg1⟩ := h1
      subst hb1 hg1
      exact ⟨e, rfl⟩

/-- C12 (witness): the limits `00 03`, `01 03 C8 01` and the flag byte `02`, read with
a balance of 10. -/
theorem readLimitsType_contract_witness :
    ((0 : Byte).val = 0 ∧ DecodeUint32 [3, 9] = (.ok 3, [9]) ∧
      (NewGas 10).covers 5 = true ∧ (1 : Byte).val = 1 ∧
      DecodeUint32 [3, 200, 1, 9] = (.ok 3, [200, 1, 9]) ∧
      DecodeUint32 [200, 1, 9] = (.ok 200, [9]) ∧ (NewGas 10).covers 9 = true ∧
      1 < (2 : Byte).val ∧ (NewGas 10).covers 1 = true) ∧
    readLimitsType ⟨[0, 3, 9], NewGas 10⟩ =
      (.ok { Min := 3, Max := none }, ⟨[9], .gas 5⟩) ∧
    readLimitsType ⟨[1, 3, 200, 1, 9], NewGas 10⟩ =
      (.ok { Min := 3, Max := some 200 }, ⟨[9], .gas 1⟩) ∧
    (readLimitsType ⟨[2, 7], NewGas 10⟩).2.r = [7] ∧
    readLimitsType ⟨[2, 7], NewGas 10⟩ =
      (.error (.wrapf "%w for limits: %#x != 0x00 or 0x01" [(2 : Byte).val] .ErrInvalidByte),
        ⟨[7], .gas 9⟩) :=
  ⟨⟨by decide, by decide, by decide, by decide, by decide, by decide, by decide,
      by decide, by decide⟩,
   (readLimitsType_contract 0 [3, 9] (NewGas 10)).1 (by decide) 3 [9] (by decide)
     (by decide),
   (readLimitsType_contract 1 [3, 200, 1, 9] (NewGas 10)).2.1 (by decide) 3 [200, 1, 9]
     200 [9] (by decide) (by decide) (by decide),
   ((readLimitsType_contract 2 [7] (NewGas 10)).2.2.1 (by decide)).2.1,
   (((readLimitsType_contract 2 [7] (NewGas 10)).2.2.1 (by decide)).2.2 (by decide)).1⟩

/-- C12 (counterexample): the flag byte `02` read with a balance of 1: the charge for
the flag traps and no `ErrInvalidByte` error is returned. -/
theorem readLimitsType_counterexample :
    1 < (2 : Byte).val ∧
    readLimitsType ⟨[2, 7], NewGas 1⟩ = (.panic (.err .ErrOutOfGas), ⟨[7], .gas 0⟩) := by
  decide

/-- C13 (amended): when `readImportDesc` succeeds, `Kind` is the byte read, it is one
of 0, 1, 2, 3, and exactly the pointer selected by `Kind` is set (0 type index, 1
table type, 2 memory type, 3 global type); a kind byte of 4 or more makes the call
fail, with an `ErrInvalidByte` error when the gas meter covers the charge for the kind
byte, which is made before the byte is examined (a meter that runs out there
traps). -/
theorem readImportDesc_contract (env : Env) (r : Reader) (g : GasMeter) :
    (∀ d s', readImportDesc env ⟨r, g⟩ = (.ok d, s') →
      d.Kind.val < 4 ∧ r.head? = some d.Kind ∧
      d.TypeIndexPtr.isSome = decide (d.Kind.val = 0) ∧
      d.TableTypePtr.isSome = decide (d.Kind.val = 1) ∧
      d.MemTypePtr.isSome = decide (d.Kind.val = 2) ∧
      d.GlobalTypePtr.isSome = decide (d.Kind.val = 3)) ∧
    (∀ b rest, r = b :: rest → 4 ≤ b.val →
      (∀ d s', readImportDesc env ⟨r, g⟩ ≠ (.ok d, s')) ∧
      (g.covers 1 = true →
        readImportDesc env ⟨r, g⟩ =
          (.error (.wrapf "%w: invalid byte for importdesc: %#x" [b.val] .ErrInvalidByte),
            ⟨rest, g.charged 1⟩) ∧
        (Err.wrapf "%w: invalid byte for importdesc: %#x" [b.val]
          .ErrInvalidByte).isInvalidByte = true)) := by
  constructor
  · intro d s' h
    cases r with
    | nil =>
      simp [readImportDesc, bind_apply, mapErr_apply, onReader_apply, readByte] at h
    | cons b rest =>
      rcases hS : g.Step 1 with ⟨b1, g1⟩
      rcases hD : DecodeUint32 rest with ⟨a, r1⟩
      rcases hS4 : g1.Step 4 with ⟨b4, g4⟩
      rcases hT : readTableType ⟨rest, g1⟩ with ⟨t, s1⟩
      rcases hM : readMemoryType ⟨rest, g1⟩ with ⟨mt, s2⟩
      rcases hG : readGlobalType env ⟨rest, g1⟩ with ⟨gt, s3⟩
      simp only [readImportDesc, bind_eq, bind_apply, mapErr_apply, onReader_apply,
        step_apply, readByte_cons, hS] at h
      cases b1 with
      | ok u =>
        simp only [] at h
        have hcase : b.val = 0 ∨ b.val = 1 ∨ b.val = 2 ∨ b.val = 3 ∨ ∃ k, b.val = k + 4 := by
          have : b.val = 0 ∨ b.val = 1 ∨ b.val = 2 ∨ b.val = 3 ∨ 4 ≤ b.val := by omega
          rcases this with h0 | h0 | h0 | h0 | h0
          · exact Or.inl h0
          · exact Or.inr (Or.inl h0)
          · exact Or.inr (Or.inr (Or.inl h0))
          · exact Or.inr (Or.inr (Or.inr (Or.inl h0)))
          · exact Or.inr (Or.inr (Or.inr (Or.inr ⟨b.val - 4, by omega⟩)))
        rcases hcase with hb | hb | hb | hb | ⟨k, hb⟩
        · have hb' : b = 0 := Fin.ext hb
          simp only [hb, bind_apply, mapErr_apply, onReader_apply, step_apply, hD, hS4] at h
          cases a <;> simp only [] at h <;> try (simp at h; done)
          cases b4 <;> simp only [pure_eq, pure_apply, Prod.mk.injEq, Res.ok.injEq,
            reduceCtorEq, false_and] at h
          rw [← h.1, hb']
          exact ⟨by show ((0 : Byte) : Nat) < 4; decide, rfl, rfl, rfl, rfl, rfl⟩
        · have hb' : b = 1 := Fin.ext hb
          simp only [hb, bind_apply, mapErr_apply, hT] at h
          cases t <;> simp only [pure_eq, pure_apply, Prod.mk.injEq, Res.ok.injEq,
            reduceCtorEq, false_and] at h
          rw [← h.1, hb']
          exact ⟨by show ((1 : Byte) : Nat) < 4; decide, rfl, rfl, rfl, rfl, rfl⟩
        · have hb' : b = 2 := Fin.ext hb
          simp only [hb, bind_apply, mapErr_apply, hM] at h
          cases mt <;> simp only [pure_eq, pure_apply, Prod.mk.injEq, Res.ok.injEq,
            reduceCtorEq, false_and] at h
          rw [← h.1, hb']
          exact ⟨by show ((2 : Byte) : Nat) < 4; decide, rfl, rfl, rfl, rfl, rfl⟩
        · have hb' : b = 3 := Fin.ext hb
          simp only [hb, bind_apply, mapErr_apply, hG] at h
          cases gt <;> simp only [pure_eq, pure_apply, Prod.mk.injEq, Res.ok.injEq,
            reduceCtorEq, false_and] at h
          rw [← h.1, hb']
          exact ⟨by show ((3 : Byte) : Nat) < 4; decide, rfl, rfl, rfl, rfl, rfl⟩
        · simp only [hb] at h
          simp at h
      | error e => simp at h
      | panic p => simp at h
  · intro b rest hr hb
    subst hr
    obtain ⟨k, hk⟩ : ∃ k, b.val = k + 4 := ⟨b.val - 4, by omega⟩
    rcases hS : g.Step 1 with ⟨b1, g1⟩
    have e : readImportDesc env ⟨b :: rest, g⟩ =
        match b1 with
        | .ok _ => (.error (.wrapf "%w: invalid byte for importdesc: %#x" [b.val]
            .ErrInvalidByte), ⟨rest, g1⟩)
        | .error e => (.error e, ⟨rest, g1⟩)
        | .panic p => (.panic p, ⟨rest, g1⟩) := by
      simp only [readImportDesc, bind_eq, bind_apply, mapErr_apply, onReader_apply,
        step_apply, readByte_cons, hS]
      cases b1 with
      | ok u =>
        simp only []
        rw [hk]
        rfl
      | error e => rfl
      | panic p => rfl
    refine ⟨?_, ?_⟩
    · intro d s' h
      rw [e] at h
      cases b1 <;> simp at h
    · intro hg
      have h1 : step 1 ⟨rest, g⟩ = (.ok (), ⟨rest, g.charged 1⟩) := by
        simpa using step_of_covers 1 rest hg (by omega)
      rw [step_apply, hS] at h1
      simp only [Prod.mk.injEq, Rd.mk.injEq, true_and] at h1
      obtain ⟨hb1, hg1⟩ := h1
      subst hb1 hg1
      exact ⟨e, rfl⟩

/-- C13 (witness): an import description of a type index, one of a memory type, and
the kind byte `04`, read with a balance of 10. -/
theorem readImportDesc_contract_witness :
    (readImportDesc specEnv ⟨[0, 5, 9], NewGas 10⟩ =
        (.ok { Kind := 0, TypeIndexPtr := some 5 }, ⟨[9], .gas 5⟩) ∧
      readImportDesc specEnv ⟨[2, 0, 1, 9], NewGas 10⟩ =
        (.ok { Kind := 2, MemTypePtr := some { Min := 1, Max := none } }, ⟨[9], .gas 4⟩) ∧
      4 ≤ (4 : Byte).val ∧ (NewGas 10).covers 1 = true) ∧
    ((0 : Byte).val < 4 ∧ ([0, 5, 9] : Reader).head? = some 0 ∧
      (some 5 : Option Nat).isSome = decide ((0 : Byte).val = 0) ∧
      (none : Option TableType).isSome = decide ((0 : Byte).val = 1) ∧
      (none : Option MemoryType).isSome = decide ((0 : Byte).val = 2) ∧
      (none : Option GlobalType).isSome = decide ((0 : Byte).val = 3)) ∧
    ((2 : Byte).val < 4 ∧ ([2, 0, 1, 9] : Reader).head? = some 2 ∧
      (none : Option Nat).isSome = decide ((2 : Byte).val = 0) ∧
      (none : Option TableType).isSome = decide ((2 : Byte).val = 1) ∧
      (some { Min := 1, Max := none } : Option MemoryType).isSome =
        decide ((2 : Byte).val = 2) ∧
      (none : Option GlobalType).isSome = decide ((2 : Byte).val = 3)) ∧
    readImportDesc specEnv ⟨[4, 9], NewGas 10⟩ =
      (.error (.wrapf "%w: invalid byte for importdesc: %#x" [(4 : Byte).val]
        .ErrInvalidByte), ⟨[9], .gas 9⟩) :=
  ⟨⟨by decide, by decide, by decide, by decide⟩,
   (readImportDesc_contract specEnv [0, 5, 9] (NewGas 10)).1
     { Kind := 0, TypeIndexPtr := some 5 } ⟨[9], .gas 5⟩ (by decide),
   (readImportDesc_contract specEnv [2, 0, 1, 9] (NewGas 10)).1
     { Kind := 2, MemTypePtr := some { Min := 1, Max := none } } ⟨[9], .gas 4⟩ (by decide),
   (((readImportDesc_contract specEnv [4, 9] (NewGas 10)).2 4 [9] rfl (by decide)).2
     (by decide)).1⟩

/-- C13 (counterexample): the kind byte `04` read with a balance of 1: the charge for
the kind byte traps and no `ErrInvalidByte` error is returned. -/
theorem readImportDesc_counterexample :
    4 ≤ (4 : Byte).val ∧
    readImportDesc specEnv ⟨[4, 9], NewGas 1⟩ =
      (.panic (.err .ErrOutOfGas), ⟨[9], .gas 0⟩) := by
  decide

/-! ## The export section -/

theorem ExportMap.get?_set (m : ExportMap) (k k' : GoString) (v : ExportSegment) :
    (m.set k v).get? k' = if k' = k then some v else m.get? k' := by
  unfold ExportMap.set ExportMap.get?
  by_cases h : k' = k
  · subst h
    simp
  · have hk : ¬ k = k' := fun hc => h hc.symm
    simp only [List.find?_cons, hk, decide_False, h, if_false]
    congr 1
    induction m with
    | nil => rfl
    | cons a m ih =>
      by_cases ha : a.1 = k
      · have hak : ¬ a.1 = k' := fun hc => h (hc.symm.trans ha)
        rw [List.filter_cons_of_neg (by simpa using ha),
          List.find?_cons_of_neg _ (by simpa using hak), ih]
      · rw [List.filter_cons_of_pos (by simpa using ha)]
        by_cases ha' : a.1 = k'
        · rw [List.find?_cons_of_pos _ (by simpa using ha'),
            List.find?_cons_of_pos _ (by simpa using ha')]
        · rw [List.find?_cons_of_neg _ (by simpa using ha'),
            List.find?_cons_of_neg _ (by simpa using ha'), ih]

theorem ExportMap.length_set_le (m : ExportMap) (k : GoString) (v : ExportSegment) :
    (m.set k v).length ≤ m.length + 1 := by
  unfold ExportMap.set
  simp only [List.length_cons, Nat.add_le_add_iff_right]
  exact List.length_filter_le _ _

theorem ExportMap.nodup_set (m : ExportMap) (k : GoString) (v : ExportSegment)
    (h : (m.map Prod.fst).Nodup) : ((m.set k v).map Prod.fst).Nodup := by
  unfold ExportMap.set
  simp only [List.map_cons, List.nodup_cons, List.mem_map, List.mem_filter, not_exists,
    not_and]
  constructor
  · intro x hx hk
    simp [hk] at hx
  · exact (List.Nodup.sublist (List.Sublist.map _ (List.filter_sublist _)) h)

theorem get?_exportsOf (k : GoString) :
    ∀ (es : List ExportSegment) (init : ExportMap),
      (exportsOf init es).get? k =
        match es.reverse.find? (fun e => e.Name = k) with
        | some e => some e
        | none => init.get? k := by
  intro es
  induction es with
  | nil => intro init; rfl
  | cons e es ih =>
    intro init
    simp only [exportsOf, List.foldl_cons] at ih ⊢
    rw [ih, List.reverse_cons, List.find?_append]
    cases hf : es.reverse.find? (fun e => e.Name = k) with
    | some e' => simp
    | none =>
      simp only [Option.none_or, List.find?_cons, List.find?_nil, ExportMap.get?_set]
      by_cases hk : e.Name = k
      · simp [hk]
      · have hk' : ¬ k = e.Name := fun hc => hk hc.symm
        simp [hk, hk']

theorem length_exportsOf_le :
    ∀ (es : List ExportSegment) (init : ExportMap),
      (exportsOf init es).length ≤ init.length + es.length := by
  intro es
  induction es with
  | nil => intro init; simp [exportsOf]
  | cons e es ih =>
    intro init
    simp only [exportsOf, List.foldl_cons, List.length_cons] at ih ⊢
    have h1 := ih (init.set e.Name e)
    have h2 := ExportMap.length_set_le init e.Name e
    omega

theorem nodup_exportsOf :
    ∀ (es : List ExportSegment) (init : ExportMap), (init.map Prod.fst).Nodup →
      ((exportsOf init es).map Prod.fst).Nodup := by
  intro es
  induction es with
  | nil => intro init h; exact h
  | cons e es ih =>
    intro init h
    simp only [exportsOf, List.foldl_cons] at ih ⊢
    exact ih _ (ExportMap.nodup_set init e.Name e h)

theorem readExportDesc_kind {s s' : Rd} {d : ExportDesc}
    (h : readExportDesc s = (.ok d, s')) : d.Kind.val < 4 := by
  obtain ⟨r, g⟩ := s
  rcases hb : readByte r with ⟨a, r1⟩
  rcases hS : g.Step 1 with ⟨b1, g1⟩
  rcases hD : DecodeUint32 r1 with ⟨c, r2⟩
  rcases hS4 : g1.Step 4 with ⟨b4, g4⟩
  simp only [readExportDesc, bind_eq, bind_apply, mapErr_apply, onReader_apply, step_apply,
    hb, hS] at h
  cases a with
  | ok kind =>
    cases b1 with
    | ok u =>
      simp only [] at h
      by_cases hk : kind.val ≥ 4
      · simp [hk] at h
      · simp only [hk, if_false, bind_apply, mapErr_apply, onReader_apply, step_apply, hD,
          hS4] at h
        cases c <;> simp only [] at h <;> try (simp at h; done)
        cases b4 <;> simp only [pure_eq, pure_apply, Prod.mk.injEq, Res.ok.injEq,
          reduceCtorEq, false_and] at h
        rw [← h.1]
        simpa using hk
    | error e => simp at h
    | panic p => simp at h
  | error e => simp at h
  | panic p => simp at h

theorem readExportSegment_kind (env : Env) {s s' : Rd} {e : ExportSegment}
    (h : readExportSegment env s = (.ok e, s')) : e.Desc.Kind.val < 4 := by
  rcases hn : env.readNameValue s with ⟨a, s1⟩
  rcases hd : readExportDesc s1 with ⟨b, s2⟩
  simp only [readExportSegment, bind_eq, bind_apply, mapErr_apply, hn] at h
  cases a with
  | ok name =>
    simp only [hd] at h
    cases b with
    | ok d =>
      simp only [pure_eq, pure_apply, Prod.mk.injEq, Res.ok.injEq] at h
      rw [← h.1]
      exact readExportDesc_kind hd
    | error e => simp at h
    | panic p => simp at h
  | error e => simp at h
  | panic p => simp at h

theorem readExportSegments_kinds (env : Env) :
    ∀ (k : Nat) (s s' : Rd) (es : List ExportSegment),
      readExportSegments env k s = (.ok es, s') →
      es.length = k ∧ ∀ e ∈ es, e.Desc.Kind.val < 4 := by
  intro k
  induction k with
  | zero =>
    intro s s' es h
    simp only [readExportSegments, pure_eq, pure_apply, Prod.mk.injEq, Res.ok.injEq] at h
    rw [← h.1]
    simp
  | succ k ih =>
    intro s s' es h
    rcases he : readExportSegment env s with ⟨a, s1⟩
    rcases hr : readExportSegments env k s1 with ⟨b, s2⟩
    simp only [readExportSegments, bind_eq, bind_apply, he] at h
    cases a with
    | ok e =>
      simp only [hr] at h
      cases b with
      | ok rest =>
        simp only [pure_eq, pure_apply, Prod.mk.injEq, Res.ok.injEq] at h
        obtain ⟨i1, i2⟩ := ih s1 s2 rest hr
        rw [← h.1]
        refine ⟨by simp [i1], ?_⟩
        intro x hx
        rcases List.mem_cons.mp hx with hx | hx
        · rw [hx]; exact readExportSegment_kind env he
        · exact i2 x hx
      | error e => simp at h
      | panic p => simp at h
    | error e => simp at h
    | panic p => simp at h

/-- After `i` exports are decoded, the loop goes on with the map they built. -/
theorem readExportsLoop_prefix (env : Env) (j : Nat) :
    ∀ (i : Nat) (m : Module) (rd rd2 : Rd) (es : List ExportSegment),
      readExportSegments env i rd = (.ok es, rd2) →
      readExportsLoop env (i + j) ⟨m, rd⟩ =
        readExportsLoop env j ⟨{ m with SecExports := exportsOf m.SecExports es }, rd2⟩ := by
  intro i
  induction i with
  | zero =>
    intro m rd rd2 es h
    simp only [readExportSegments, pure_eq, pure_apply, Prod.mk.injEq, Res.ok.injEq] at h
    rw [← h.1, ← h.2]
    simp [exportsOf]
  | succ i ih =>
    intro m rd rd2 es h
    rcases he : readExportSegment env rd with ⟨a, s1⟩
    rcases hr : readExportSegments env i s1 with ⟨b, s2⟩
    simp only [readExportSegments, bind_eq, bind_apply, he] at h
    cases a with
    | ok e =>
      simp only [hr] at h
      cases b with
      | ok rest =>
        simp only [pure_eq, pure_apply, Prod.mk.injEq, Res.ok.injEq] at h
        rw [← h.1, ← h.2]
        have e1 : i + 1 + j = (i + j) + 1 := by omega
        rw [e1]
        simp only [readExportsLoop, bind_eq]
        rw [bind_ok (liftRd_ok m (mapErr_ok he)), bind_ok (modifyModule_apply _ m _),
          ih _ s1 s2 rest hr]
        rfl
      | error e => simp at h
      | panic p => simp at h
    | error e => simp at h
    | panic p => simp at h

/-- A successful run of the loop has decoded `k` exports and assigned them in order. -/
theorem readExportsLoop_ok (env : Env) :
    ∀ (k : Nat) (m : Module) (rd : Rd) (s' : St),
      readExportsLoop env k ⟨m, rd⟩ = (.ok (), s') →
      ∃ es, readExportSegments env k rd = (.ok es, s'.rd) ∧
        s'.m = { m with SecExports := exportsOf m.SecExports es } := by
  intro k
  induction k with
  | zero =>
    intro m rd s' h
    simp only [readExportsLoop, pure_eq, pure_apply, Prod.mk.injEq, true_and] at h
    subst h
    exact ⟨[], rfl, rfl⟩
  | succ k ih =>
    intro m rd s' h
    rcases he : readExportSegment env rd with ⟨a, s1⟩
    simp only [readExportsLoop, bind_eq, bind_apply, liftRd_apply, mapErr_apply, he] at h
    cases a with
    | ok e =>
      simp only [modifyModule_apply] at h
      obtain ⟨es, h1, h2⟩ := ih _ s1 s' h
      refine ⟨e :: es, ?_, ?_⟩
      · simp only [readExportSegments, bind_eq, bind_apply, he, h1, pure_eq, pure_apply]
      · rw [h2]
        rfl
    | error e => simp at h
    | panic p => simp at h

/-- The outcome of `readExportDesc` on a kind byte of 4 or more. -/
theorem readExportDesc_invalid (b : Byte) (rest : Reader) (g : GasMeter) (hb : 4 ≤ b.val) :
    readExportDesc ⟨b :: rest, g⟩ =
      (match (g.Step 1).1 with
        | .ok _ => .error (.wrapf "%w: invalid byte for exportdesc: %#x" [b.val]
            .ErrInvalidByte)
        | .error e => .error e
        | .panic p => .panic p, ⟨rest, (g.Step 1).2⟩) := by
  rcases hS : g.Step 1 with ⟨b1, g1⟩
  simp only [readExportDesc, bind_eq, bind_apply, mapErr_apply, onReader_apply, step_apply,
    readByte_cons, hS]
  cases b1 with
  | ok u => simp [hb]
  | error e => rfl
  | panic p => rfl

/-- C14 (amended): after a successful `readSectionExports` on a payload of count `n`
and exports `es`, `SecExports` holds exactly the names that occur among `es` (the
previous contents are discarded, there are at most `n` entries and no key twice), each
key maps to a segment of `es` with that name and a kind below 4, namely the last export
with that name; no other field of the module changes. An export whose kind byte is 4
or more makes the section fail, with an error that wraps `ErrInvalidByte` when the gas
meter covers the charge for the kind byte (a meter that runs out there traps). -/
theorem readSectionExports_contract (env : Env) (m : Module) (r : Reader) (g : GasMeter) :
    (∀ s', readSectionExports env ⟨m, ⟨r, g⟩⟩ = (.ok (), s') →
      ∃ n r1 es, DecodeUint32 r = (.ok n, r1) ∧
        readExportSegments env n ⟨r1, (g.Step 4).2⟩ = (.ok es, s'.rd) ∧ es.length = n ∧
        s'.m = { m with SecExports := s'.m.SecExports } ∧
        (∀ k, s'.m.SecExports.get? k = es.reverse.find? (fun e => e.Name = k)) ∧
        (∀ k e, s'.m.SecExports.get? k = some e →
          e ∈ es ∧ e.Name = k ∧ e.Desc.Kind.val < 4) ∧
        (∀ e ∈ es, (s'.m.SecExports.get? e.Name).isSome = true) ∧
        s'.m.SecExports.length ≤ n ∧ (s'.m.SecExports.map Prod.fst).Nodup) ∧
    (∀ n r1 i es s2 name b rest g3, DecodeUint32 r = (.ok n, r1) →
      (g.Step 4).1 = .ok () → i < n →
      readExportSegments env i ⟨r1, (g.Step 4).2⟩ = (.ok es, s2) →
      env.readNameValue s2 = (.ok name, ⟨b :: rest, g3⟩) → 4 ≤ b.val →
      (∀ s', readSectionExports env ⟨m, ⟨r, g⟩⟩ ≠ (.ok (), s')) ∧
      ((g3.Step 1).1 = .ok () →
        (∃ s', readSectionExports env ⟨m, ⟨r, g⟩⟩ =
          (.error (.wrapf "read export: %w" [] (.wrapf "read export description: %w" []
            (.wrapf "%w: invalid byte for exportdesc: %#x" [b.val] .ErrInvalidByte))), s')) ∧
        (Err.wrapf "read export: %w" [] (.wrapf "read export description: %w" []
          (.wrapf "%w: invalid byte for exportdesc: %#x" [b.val]
            .ErrInvalidByte))).isInvalidByte = true)) := by
  constructor
  · intro s' h
    rcases hd : DecodeUint32 r with ⟨a, r1⟩
    rcases hS : g.Step 4 with ⟨b4, g4⟩
    simp only [readSectionExports, bind_eq, bind_apply, liftRd_apply, mapErr_apply,
      onReader_apply, step_apply, hd, hS] at h
    cases a with
    | ok n =>
      cases b4 with
      | ok u =>
        simp only [modifyModule_apply] at h
        obtain ⟨es, h1, h2⟩ := readExportsLoop_ok env n _ _ s' h
        obtain ⟨k1, k2⟩ := readExportSegments_kinds env n _ _ es h1
        have hmap : s'.m.SecExports = exportsOf [] es := by rw [h2]
        have hget : ∀ k, s'.m.SecExports.get? k =
            es.reverse.find? (fun e => e.Name = k) := by
          intro k
          rw [hmap, get?_exportsOf]
          cases es.reverse.find? (fun e => e.Name = k) <;> rfl
        refine ⟨n, r1, es, rfl, h1, k1, ?_, hget, ?_, ?_, ?_, ?_⟩
        · rw [h2]
        · intro k e hk
          rw [hget] at hk
          have hmem : e ∈ es := List.mem_reverse.mp (List.mem_of_find?_eq_some hk)
          have hname := List.find?_some hk
          exact ⟨hmem, by simpa using hname, k2 e hmem⟩
        · intro e he
          rw [hget, List.find?_isSome]
          exact ⟨e, List.mem_reverse.mpr he, by simp⟩
        · have := length_exportsOf_le es []
          rw [hmap]
          simpa [k1] using this
        · rw [hmap]
          exact nodup_exportsOf es [] List.nodup_nil
      | error e => simp at h
      | panic p => simp at h
    | error e => simp at h
    | panic p => simp at h
  · intro n r1 i es s2 name b rest g3 hd h4 hin hes hname hb
    rcases hS : g.Step 4 with ⟨b4, g4⟩
    rw [hS] at h4 hes
    simp only at h4 hes
    subst h4
    obtain ⟨j, rfl⟩ : ∃ j, n = i + (j + 1) := ⟨n - i - 1, by omega⟩
    have hdesc := readExportDesc_invalid b rest g3 hb
    rcases hS1 : g3.Step 1 with ⟨b1, g1⟩
    rw [hS1] at hdesc
    have e : readSectionExports env ⟨m, ⟨r, g⟩⟩ =
        (match b1 with
          | .ok _ => .error (.wrapf "read export: %w" [] (.wrapf "read export description: %w"
              [] (.wrapf "%w: invalid byte for exportdesc: %#x" [b.val] .ErrInvalidByte)))
          | .error e => .error (.wrapf "read export: %w" []
              (.wrapf "read export description: %w" [] e))
          | .panic p => .panic p,
          ⟨{ m with SecExports := exportsOf [] es }, ⟨rest, g1⟩⟩) := by
      simp only [readSectionExports, bind_eq]
      rw [bind_ok (liftRd_ok m (mapErr_ok (onReader_ok g hd))),
        bind_ok (liftRd_ok m (by rw [step_apply, hS])), bind_ok (modifyModule_apply _ m _),
        readExportsLoop_prefix env (j + 1) i _ _ s2 es hes]
      simp only [readExportsLoop, bind_eq, bind_apply, liftRd_apply, mapErr_apply,
        readExportSegment, hname, hdesc]
      cases b1 <;> rfl
    refine ⟨?_, ?_⟩
    · intro s' h
      rw [e] at h
      cases b1 <;> simp at h
    · intro h1
      simp only at h1
      subst h1
      exact ⟨⟨_, e⟩, rfl⟩

/-- C14 (witness): an export section with two exports of the name `a`, a function and
then a memory, read into a module that holds an export `b`; and a section whose only
export has the kind byte `04`. -/
theorem readSectionExports_contract_witness :
    (readSectionExports specEnv
        ⟨{ SecExports := [([98], { Name := [98], Desc := { Kind := 0, Index := 7 } })] },
          ⟨[2, 1, 97, 0, 3, 1, 97, 2, 0, 9], NewGas 100⟩⟩ =
        (.ok (), ⟨{ SecExports := [([97], { Name := [97], Desc := { Kind := 2, Index := 0 } })] },
          ⟨[9], .gas 76⟩⟩) ∧
      DecodeUint32 [1, 1, 97, 4, 0] = (.ok 1, [1, 97, 4, 0]) ∧
      ((NewGas 100).Step 4).1 = .ok () ∧ 0 < 1 ∧
      readExportSegments specEnv 0 ⟨[1, 97, 4, 0], ((NewGas 100).Step 4).2⟩ =
        (.ok [], ⟨[1, 97, 4, 0], .gas 96⟩) ∧
      specEnv.readNameValue ⟨[1, 97, 4, 0], .gas 96⟩ = (.ok [97], ⟨[4, 0], .gas 91⟩) ∧
      4 ≤ (4 : Byte).val ∧ ((GasMeter.gas 91).Step 1).1 = .ok ()) ∧
    (∃ n r1 es, DecodeUint32 [2, 1, 97, 0, 3, 1, 97, 2, 0, 9] = (.ok n, r1) ∧
      readExportSegments specEnv n ⟨r1, ((NewGas 100).Step 4).2⟩ = (.ok es, ⟨[9], .gas 76⟩) ∧
      es.length = n ∧
      (∀ k, ExportMap.get? [([97], { Name := [97], Desc := { Kind := 2, Index := 0 } })] k =
        es.reverse.find? (fun e => e.Name = k)) ∧
      ([([97], { Name := [97], Desc := { Kind := 2, Index := 0 } })] : ExportMap).length ≤ n) ∧
    (∃ s', readSectionExports specEnv ⟨{}, ⟨[1, 1, 97, 4, 0], NewGas 100⟩⟩ =
      (.error (.wrapf "read export: %w" [] (.wrapf "read export description: %w" []
        (.wrapf "%w: invalid byte for exportdesc: %#x" [(4 : Byte).val] .ErrInvalidByte))),
        s')) :=
  ⟨⟨by decide, by decide, by decide, by decide, by decide, by decide, by decide, by decide⟩,
   (match (readSectionExports_contract specEnv
        { SecExports := [([98], { Name := [98], Desc := { Kind := 0, Index := 7 } })] }
        [2, 1, 97, 0, 3, 1, 97, 2, 0, 9] (NewGas 100)).1
        ⟨{ SecExports := [([97], { Name := [97], Desc := { Kind := 2, Index := 0 } })] },
          ⟨[9], .gas 76⟩⟩ (by decide) with
    | ⟨n, r1, es, h1, h2, h3, _, h5, _, _, h8, _⟩ => ⟨n, r1, es, h1, h2, h3, h5, h8⟩),
   (((readSectionExports_contract specEnv {} [1, 1, 97, 4, 0] (NewGas 100)).2 1
      [1, 97, 4, 0] 0 [] ⟨[1, 97, 4, 0], .gas 96⟩ [97] 4 [0] (.gas 91)
      (by decide) (by decide) (by decide) (by decide) (by decide) (by decide)).2
      (by decide)).1⟩

/-- C14 (counterexample): an export section whose only export has the kind byte `04`,
read with a balance of 10, which the charges for the count and the name bring down
to 1: the charge for the kind byte traps and no `ErrInvalidByte` error is returned. -/
theorem readSectionExports_counterexample :
    4 ≤ (4 : Byte).val ∧
    specEnv.readNameValue ⟨[1, 97, 4, 0], ((NewGas 10).Step 4).2⟩ =
      (.ok [97], ⟨[4, 0], .gas 1⟩) ∧
    readSectionExports specEnv ⟨{}, ⟨[1, 1, 97, 4, 0], NewGas 10⟩⟩ =
      (.panic (.err .ErrOutOfGas), ⟨{}, ⟨[0], .gas 0⟩⟩) := by
  decide

/-! ## Host functions -/

theorem getTypeOf_eq (k : Kind) :
    getTypeOf k =
      match wasmTypeOf k with
      | some t => .ok t
      | none => .error (.errorf "invalid type: %s" [k.toCtorIdx]) := by
  cases k <;> rfl

theorem wasmTypeOf_isSome (k : Kind) :
    (wasmTypeOf k).isSome = true ↔
      k = .Int32 ∨ k = .Uint32 ∨ k = .Int64 ∨ k = .Uint64 ∨ k = .Float32 ∨ k = .Float64 := by
  cases k <;> simp [wasmTypeOf]

theorem getTypesOf_ok (ks : List Kind) (ts : List ValueType) :
    getTypesOf ks = .ok ts ↔ ks.map wasmTypeOf = ts.map some := by
  induction ks generalizing ts with
  | nil =>
    cases ts with
    | nil => simp [getTypesOf]
    | cons t ts => simp [getTypesOf]
  | cons k ks ih =>
    simp only [getTypesOf, getTypeOf_eq]
    cases hk : wasmTypeOf k with
    | none =>
      cases ts with
      | nil => simp
      | cons t ts => simp [hk]
    | some t =>
      simp only []
      cases hks : getTypesOf ks with
      | error e =>
        cases ts with
        | nil => simp
        | cons t' ts' =>
          have := (ih ts').not.mp (by rw [hks]; simp)
          simp only [List.map_cons, List.cons.injEq, hk, reduceCtorEq, false_iff, not_and]
          intro _
          exact this
      | ok ts0 =>
        have h0 := (ih ts0).mp hks
        cases ts with
        | nil => simp
        | cons t' ts' =>
          simp only [Except.ok.injEq, List.cons.injEq, List.map_cons, hk, Option.some.injEq]
          constructor
          · rintro ⟨h1, h2⟩
            subst h1 h2
            exact ⟨rfl, h0⟩
          · rintro ⟨h1, h2⟩
            refine ⟨h1, ?_⟩
            have : getTypesOf ks = .ok ts' := (ih ts').mpr h2
            rw [hks] at this
            exact Except.ok.inj this

theorem getTypesOf_isOk (ks : List Kind) :
    (∃ ts, getTypesOf ks = .ok ts) ↔ ∀ k ∈ ks, (wasmTypeOf k).isSome = true := by
  induction ks with
  | nil => simp [getTypesOf]
  | cons k ks ih =>
    simp only [getTypesOf, getTypeOf_eq, List.mem_cons, forall_eq_or_imp]
    cases hk : wasmTypeOf k with
    | none => simp
    | some t =>
      simp only [Option.isSome_some, true_and]
      rw [← ih]
      cases hks : getTypesOf ks with
      | error e => simp
      | ok ts => simp

/-- The signature exists exactly for scalar kinds, and is the kind-wise mapping. -/
theorem getSignature_ok (p : FuncType) (sig : FunctionType) :
    getSignature p = .ok sig ↔
      p.In.map wasmTypeOf = sig.InputTypes.map some ∧
      p.Out.map wasmTypeOf = sig.ReturnTypes.map some := by
  obtain ⟨ins, outs⟩ := sig
  simp only [getSignature]
  cases h1 : getTypesOf p.In with
  | error e =>
    have := (getTypesOf_ok p.In ins).not.mp (by rw [h1]; simp)
    simp [this]
  | ok ts1 =>
    have e1 := (getTypesOf_ok p.In ts1).mp h1
    cases h2 : getTypesOf p.Out with
    | error e =>
      have := (getTypesOf_ok p.Out outs).not.mp (by rw [h2]; simp)
      simp [this]
    | ok ts2 =>
      have e2 := (getTypesOf_ok p.Out ts2).mp h2
      simp only [Except.ok.injEq, FunctionType.mk.injEq]
      constructor
      · rintro ⟨rfl, rfl⟩
        exact ⟨e1, e2⟩
      · rintro ⟨i1, i2⟩
        rw [e1] at i1
        rw [e2] at i2
        exact ⟨List.map_injective_iff.mpr (Option.some_injective _) i1,
          List.map_injective_iff.mpr (Option.some_injective _) i2⟩

/-- C15: `getSignature` succeeds if and only if every parameter kind and every result
kind of the native function type is one of `Int32`, `Uint32`, `Int64`, `Uint64`,
`Float32`, `Float64`; on success `InputTypes` and `ReturnTypes` have the lengths and
the order of the parameters and of the results, each kind being mapped to its value
type: `Int32` and `Uint32` to `i32`, `Int64` and `Uint64` to `i64`, `Float32` to `f32`
and `Float64` to `f64`. -/
theorem getSignature_contract (p : FuncType) :
    ((∃ sig, getSignature p = .ok sig) ↔
      ∀ k ∈ p.In ++ p.Out, k = .Int32 ∨ k = .Uint32 ∨ k = .Int64 ∨ k = .Uint64 ∨
        k = .Float32 ∨ k = .Float64) ∧
    (∀ sig, getSignature p = .ok sig →
      sig.InputTypes.length = p.In.length ∧ sig.ReturnTypes.length = p.Out.length ∧
      p.In.map wasmTypeOf = sig.InputTypes.map some ∧
      p.Out.map wasmTypeOf = sig.ReturnTypes.map some) ∧
    (wasmTypeOf .Int32 = some ValueTypeI32 ∧ wasmTypeOf .Uint32 = some ValueTypeI32 ∧
      wasmTypeOf .Int64 = some ValueTypeI64 ∧ wasmTypeOf .Uint64 = some ValueTypeI64 ∧
      wasmTypeOf .Float32 = some ValueTypeF32 ∧ wasmTypeOf .Float64 = some ValueTypeF64) := by
  refine ⟨?_, ?_, ⟨rfl, rfl, rfl, rfl, rfl, rfl⟩⟩
  · constructor
    · rintro ⟨sig, h⟩ k hk
      rw [← wasmTypeOf_isSome]
      simp only [getSignature] at h
      cases h1 : getTypesOf p.In with
      | error e => simp [h1] at h
      | ok ts1 =>
        cases h2 : getTypesOf p.Out with
        | error e => simp [h1, h2] at h
        | ok ts2 =>
          rcases List.mem_append.mp hk with hk | hk
          · exact (getTypesOf_isOk p.In).mp ⟨ts1, h1⟩ k hk
          · exact (getTypesOf_isOk p.Out).mp ⟨ts2, h2⟩ k hk
    · intro h
      have hin : ∀ k ∈ p.In, (wasmTypeOf k).isSome = true := fun k hk =>
        (wasmTypeOf_isSome k).mpr (h k (List.mem_append.mpr (Or.inl hk)))
      have hout : ∀ k ∈ p.Out, (wasmTypeOf k).isSome = true := fun k hk =>
        (wasmTypeOf_isSome k).mpr (h k (List.mem_append.mpr (Or.inr hk)))
      obtain ⟨ts1, h1⟩ := (getTypesOf_isOk p.In).mpr hin
      obtain ⟨ts2, h2⟩ := (getTypesOf_isOk p.Out).mpr hout
      exact ⟨⟨ts1, ts2⟩, by simp [getSignature, h1, h2]⟩
  · intro sig h
    obtain ⟨h1, h2⟩ := (getSignature_ok p sig).mp h
    refine ⟨?_, ?_, h1, h2⟩
    · have := congrArg List.length h1
      simpa using this.symm
    · have := congrArg List.length h2
      simpa using this.symm

/-- C15 (witness): the signature of `func(int32, float64) uint64`, and the type
`func(string)`, which has none. -/
theorem getSignature_contract_witness :
    getSignature { In := [.Int32, .Float64], Out := [.Uint64] } =
      .ok { InputTypes := [ValueTypeI32, ValueTypeF64], ReturnTypes := [ValueTypeI64] } ∧
    (([ValueTypeI32, ValueTypeF64] : List ValueType).length =
        ([.Int32, .Float64] : List Kind).length ∧
      ([ValueTypeI64] : List ValueType).length = ([.Uint64] : List Kind).length ∧
      ([.Int32, .Float64] : List Kind).map wasmTypeOf =
        ([ValueTypeI32, ValueTypeF64] : List ValueType).map some ∧
      ([.Uint64] : List Kind).map wasmTypeOf = ([ValueTypeI64] : List ValueType).map some) ∧
    ¬ ∃ sig, getSignature { In := [.String], Out := [] } = .ok sig :=
  ⟨rfl,
   (getSignature_contract { In := [.Int32, .Float64], Out := [.Uint64] }).2.1
     { InputTypes := [ValueTypeI32, ValueTypeF64], ReturnTypes := [ValueTypeI64] } rfl,
   fun h => by
     have := (getSignature_contract { In := [.String], Out := [] }).1.mp h .String
       (by simp)
     simp at this⟩

theorem ModuleBuilder.lookup_store (b : ModuleBuilder) (modName : GoString)
    (mod : HostModule) : (b.store modName mod).lookup modName = some mod := by
  simp [ModuleBuilder.lookup, ModuleBuilder.store]

/-- A successful `setFunctionIn` has computed the signature and appended the host
function made from it. -/
theorem setFunctionIn_ok {modName funcName : GoString} {fn : ClosureGenerator}
    {mod : HostModule} {b b' : ModuleBuilder}
    (h : setFunctionIn modName funcName fn mod b = (.ok (), b')) :
    ∃ sig indexSpace exports, getSignature (fn ⟨[]⟩).Typ = .ok sig ∧
      mod.IndexSpace = some indexSpace ∧ mod.SecExports = some exports ∧
      b' = b.store modName
        { IndexSpace := some ⟨indexSpace.Function ++ [hostFunctionFor fn sig]⟩,
          SecExports := some (exports.set funcName
            (functionExport funcName indexSpace.Function.length)) } := by
  unfold setFunctionIn at h
  cases hi : mod.IndexSpace with
  | none => simp [hi] at h
  | some indexSpace =>
    cases he : mod.SecExports with
    | none => simp [hi, he] at h
    | some exports =>
      cases hs : getSignature (fn ⟨[]⟩).Typ with
      | error e => simp [hi, he, hs] at h
      | ok sig =>
        simp only [hi, he, hs, Prod.mk.injEq, true_and] at h
        exact ⟨sig, indexSpace, exports, rfl, rfl, rfl, h.symm⟩

/-- The host function that a successful `SetFunction` has appended. -/
theorem SetFunction_ok {modName funcName : GoString} {fn : ClosureGenerator}
    {b b' : ModuleBuilder} (h : SetFunction modName funcName fn b = (.ok (), b')) :
    ∃ sig mod indexSpace, getSignature (fn ⟨[]⟩).Typ = .ok sig ∧
      b'.lookup modName = some mod ∧ mod.IndexSpace = some indexSpace ∧
      indexSpace.Function.getLast? = some (hostFunctionFor fn sig) := by
  unfold SetFunction at h
  cases hl : b.lookup modName with
  | some mod0 =>
    simp only [hl] at h
    obtain ⟨sig, indexSpace, exports, h1, _, _, h4⟩ := setFunctionIn_ok h
    subst h4
    exact ⟨sig, _, _, h1, ModuleBuilder.lookup_store _ _ _, rfl, by simp⟩
  | none =>
    simp only [hl] at h
    obtain ⟨sig, indexSpace, exports, h1, _, _, h4⟩ := setFunctionIn_ok h
    subst h4
    exact ⟨sig, _, _, h1, ModuleBuilder.lookup_store _ _ _, rfl, by simp⟩

/-- C16: when `SetFunction` registers a native function whose parameter kinds map to
the value types `T` and whose result kinds map to `R`, the host function it appends
to the module has, for two results or more, the signature with `InputTypes` = `i32`
followed by `T` and no `ReturnTypes`, and for at most one result the signature with
`InputTypes` = `T` and `ReturnTypes` = `R`. -/
theorem SetFunction_signature (modName funcName : GoString) (fn : ClosureGenerator)
    (b b' : ModuleBuilder) (h : SetFunction modName funcName fn b = (.ok (), b')) :
    ∃ T R mod indexSpace hf,
      (fn ⟨[]⟩).Typ.In.map wasmTypeOf = T.map some ∧
      (fn ⟨[]⟩).Typ.Out.map wasmTypeOf = R.map some ∧
      b'.lookup modName = some mod ∧ mod.IndexSpace = some indexSpace ∧
      indexSpace.Function.getLast? = some hf ∧
      (2 ≤ R.length →
        hf.Signature = { InputTypes := ValueTypeI32 :: T, ReturnTypes := [] }) ∧
      (R.length ≤ 1 → hf.Signature = { InputTypes := T, ReturnTypes := R }) := by
  obtain ⟨sig, mod, indexSpace, h1, h2, h3, h4⟩ := SetFunction_ok h
  obtain ⟨i1, i2⟩ := (getSignature_ok _ sig).mp h1
  refine ⟨sig.InputTypes, sig.ReturnTypes, mod, indexSpace, hostFunctionFor fn sig,
    i1, i2, h2, h3, h4, ?_, ?_⟩
  · intro hm
    have : sig.ReturnTypes.length > 1 := by omega
    simp [hostFunctionFor, this]
  · intro hm
    have : ¬ sig.ReturnTypes.length > 1 := by omega
    simp [hostFunctionFor, this]

/-- C16 (witness): `divmod`, with two results, is registered under the name `d` in the
module `e` of a new builder with the signature `(i32, i32, i32) -> ()`; a function
`func(int64) int64` is registered after it with the signature `(i64) -> (i64)`. -/
theorem SetFunction_signature_witness :
    (SetFunction [101] [100] divmod NewModuleBuilder =
        (.ok (), (SetFunction [101] [100] divmod NewModuleBuilder).2) ∧
      (((SetFunction [101] [100] divmod NewModuleBuilder).2.lookup [101]).bind
          (fun mod => mod.IndexSpace)).map
          (fun indexSpace => indexSpace.Function.map (fun hf => hf.Signature)) =
        some [{ InputTypes := [ValueTypeI32, ValueTypeI32, ValueTypeI32],
                ReturnTypes := [] }] ∧
      (((SetFunction [101] [105]
            (fun _ => { Typ := { In := [.Int64], Out := [.Int64] },
                        Call := fun args vm => (.ok args, vm) })
            (SetFunction [101] [100] divmod NewModuleBuilder).2).2.lookup [101]).bind
          (fun mod => mod.IndexSpace)).map
          (fun indexSpace => indexSpace.Function.map (fun hf => hf.Signature)) =
        some [{ InputTypes := [ValueTypeI32, ValueTypeI32, ValueTypeI32],
                ReturnTypes := [] },
              { InputTypes := [ValueTypeI64], ReturnTypes := [ValueTypeI64] }]) ∧
    ∃ T R mod indexSpace hf,
      (divmod ⟨[]⟩).Typ.In.map wasmTypeOf = T.map some ∧
      (divmod ⟨[]⟩).Typ.Out.map wasmTypeOf = R.map some ∧
      (SetFunction [101] [100] divmod NewModuleBuilder).2.lookup [101] = some mod ∧
      mod.IndexSpace = some indexSpace ∧
      indexSpace.Function.getLast? = some hf ∧
      (2 ≤ R.length →
        hf.Signature = { InputTypes := ValueTypeI32 :: T, ReturnTypes := [] }) ∧
      (R.length ≤ 1 → hf.Signature = { InputTypes := T, ReturnTypes := R }) :=
  ⟨⟨rfl, by decide, by decide⟩,
   SetFunction_signature [101] [100] divmod NewModuleBuilder
     (SetFunction [101] [100] divmod NewModuleBuilder).2 rfl⟩

theorem byteOf_congr {a b : Nat} (h : a % 256 = b % 256) : byteOf a = byteOf b := by
  unfold byteOf
  exact Fin.ext h

theorem PutUint32_int (x : Int) : PutUint32 (uint32OfInt x) = twosComplementLE 4 x := by
  simp only [PutUint32, twosComplementLE, uint32OfInt, List.cons.injEq, and_true]
  refine ⟨byteOf_congr ?_, byteOf_congr ?_, byteOf_congr ?_, byteOf_congr ?_⟩ <;> omega

theorem PutUint64_int (x : Int) : PutUint64 (uint64OfInt x) = twosComplementLE 8 x := by
  simp only [PutUint64, twosComplementLE, uint64OfInt, List.cons.injEq, and_true]
  refine ⟨byteOf_congr ?_, byteOf_congr ?_, byteOf_congr ?_, byteOf_congr ?_,
    byteOf_congr ?_, byteOf_congr ?_, byteOf_congr ?_, byteOf_congr ?_⟩ <;> omega

theorem PutUint32_nat (u : Nat) : PutUint32 (u % 2 ^ 32) = twosComplementLE 4 (u : Int) := by
  simp only [PutUint32, twosComplementLE, List.cons.injEq, and_true]
  refine ⟨byteOf_congr ?_, byteOf_congr ?_, byteOf_congr ?_, byteOf_congr ?_⟩ <;> omega

theorem PutUint64_nat (u : Nat) : PutUint64 u = twosComplementLE 8 (u : Int) := by
  simp only [PutUint64, twosComplementLE, List.cons.injEq, and_true]
  refine ⟨byteOf_congr ?_, byteOf_congr ?_, byteOf_congr ?_, byteOf_congr ?_,
    byteOf_congr ?_, byteOf_congr ?_, byteOf_congr ?_, byteOf_congr ?_⟩ <;> omega

theorem length_twosComplementLE (n : Nat) (x : Int) : (twosComplementLE n x).length = n := by
  induction n generalizing x with
  | zero => rfl
  | succ n ih => simp [twosComplementLE, ih]

theorem putAt_ok (p : Nat) (bytes mem : List Byte) (h : p + bytes.length ≤ mem.length) :
    putAt (p : Int) bytes.length (some bytes) ⟨mem⟩ =
      (.ok (), ⟨mem.take p ++ bytes ++ mem.drop (p + bytes.length)⟩) := by
  have h' : (0 : Int) ≤ (p : Int) ∧ (p : Int) + (bytes.length : Int) ≤ (mem.length : Int) := by
    constructor <;> omega
  simp only [putAt, h', and_self, if_true, Int.toNat_ofNat]

/-- Storing `a` at `p` and then `b` right after it stores `a ++ b` at `p`. -/
theorem store_store (mem a b : List Byte) (p : Nat)
    (h : p + a.length + b.length ≤ mem.length) :
    (mem.take p ++ a ++ mem.drop (p + a.length)).take (p + a.length) ++ b ++
        (mem.take p ++ a ++ mem.drop (p + a.length)).drop (p + a.length + b.length) =
      mem.take p ++ (a ++ b) ++ mem.drop (p + (a ++ b).length) := by
  have hl : (mem.take p ++ a).length = p + a.length := by
    simp [List.length_take]
    omega
  have e1 : (mem.take p ++ a ++ mem.drop (p + a.length)).take (p + a.length) =
      mem.take p ++ a := by
    rw [← hl]
    exact List.take_left' rfl
  have e2 : (mem.take p ++ a ++ mem.drop (p + a.length)).drop (p + a.length + b.length) =
      mem.drop (p + (a ++ b).length) := by
    rw [← hl, List.drop_append, List.drop_drop, hl, List.length_append]
    congr 1
    omega
  rw [e1, e2]
  simp

theorem getElem?_of_haveKinds :
    ∀ (rets : List Value) (outs : List Kind), haveKinds rets outs = true →
      rets.length = outs.length ∧
      ∀ i, i < outs.length → ∃ k v, outs[i]? = some k ∧ rets[i]? = some v ∧
        v.hasKind k = true := by
  intro rets
  induction rets with
  | nil =>
    intro outs h
    cases outs with
    | nil => exact ⟨rfl, fun i hi => absurd hi (Nat.not_lt_zero i)⟩
    | cons k ks => simp [haveKinds] at h
  | cons v vs ih =>
    intro outs h
    cases outs with
    | nil => simp [haveKinds] at h
    | cons k ks =>
      simp only [haveKinds, Bool.and_eq_true] at h
      obtain ⟨i1, i2⟩ := ih ks h.2
      refine ⟨by simp [i1], ?_⟩
      intro i hi
      cases i with
      | zero => exact ⟨k, v, by simp, by simp, h.1⟩
      | succ i =>
        simp only [List.length_cons, Nat.add_lt_add_iff_right] at hi
        simpa using i2 i hi

/-- One iteration of the loop for a result of an integer kind. -/
theorem writeReturns_step (outs : List Kind) (rets : List Value) (i : Nat) (memloc : Int)
    {k : Kind} {v : Value} (h1 : outs[i]? = some k) (h2 : rets[i]? = some v)
    (hk : v.hasKind k = true) :
    writeReturns outs rets (i + 1) memloc =
      M.bind (putAt memloc (twosComplementLE (widthOf k) v.toInt).length
          (some (twosComplementLE (widthOf k) v.toInt)))
        (fun _ => writeReturns outs rets i (memloc + (widthOf k : Int))) := by
  simp only [writeReturns, h1, h2, length_twosComplementLE]
  cases k <;> cases v <;> simp only [Value.hasKind, Bool.false_eq_true] at hk
  · simp only [Value.getInt, Option.map_some', PutUint32_int, widthOf, Value.toInt, bind_eq]
    rfl
  · simp only [Value.getInt, Option.map_some', PutUint64_int, widthOf, Value.toInt, bind_eq]
    rfl
  · simp only [Value.getUint, Option.map_some', PutUint32_nat, widthOf, Value.toInt, bind_eq]
    rfl
  · simp only [Value.getUint, Option.map_some', PutUint64_nat, widthOf, Value.toInt, bind_eq]
    rfl

theorem encodeReturns_take_succ (outs : List Kind) (rets : List Value) (i : Nat)
    {k : Kind} {v : Value} (hlen : rets.length = outs.length) (h1 : outs[i]? = some k)
    (h2 : rets[i]? = some v) :
    encodeReturns (outs.take (i + 1)) (rets.take (i + 1)) =
      twosComplementLE (widthOf k) v.toInt ++ encodeReturns (outs.take i) (rets.take i) := by
  have hi : i < outs.length := by
    rcases List.getElem?_eq_some_iff.mp h1 with ⟨hlt, _⟩
    exact hlt
  have hl : (outs.take i).length = (rets.take i).length := by
    simp [List.length_take, hlen]
  simp only [encodeReturns, List.take_succ, h1, h2, Option.toList_some,
    List.zip_append hl, List.zip_cons_cons, List.zip_nil_right, List.reverse_append,
    List.reverse_cons, List.reverse_nil, List.nil_append, List.singleton_append,
    List.map_cons, List.flatten_cons]

/-- The loop of the adapted function stores the encodings of the results `n - 1`, ...,
`0`, one after the other from `p` on, and nothing else. -/
theorem writeReturns_ok (outs : List Kind) (rets : List Value)
    (hk : haveKinds rets outs = true) :
    ∀ (n p : Nat) (mem : List Byte), n ≤ outs.length →
      p + (encodeReturns (outs.take n) (rets.take n)).length ≤ mem.length →
      writeReturns outs rets n (p : Int) ⟨mem⟩ =
        (.ok (), ⟨mem.take p ++ encodeReturns (outs.take n) (rets.take n) ++
          mem.drop (p + (encodeReturns (outs.take n) (rets.take n)).length)⟩) := by
  obtain ⟨hlen, hget⟩ := getElem?_of_haveKinds rets outs hk
  intro n
  induction n with
  | zero =>
    intro p mem _ _
    simp [writeReturns, encodeReturns]
  | succ i ih =>
    intro p mem hn hfit
    obtain ⟨k, v, h1, h2, h3⟩ := hget i (by omega)
    have henc := encodeReturns_take_succ outs rets i hlen h1 h2
    rw [henc] at hfit ⊢
    rw [List.length_append] at hfit
    have hw := length_twosComplementLE (widthOf k) v.toInt
    rw [writeReturns_step outs rets i p h1 h2 h3,
      bind_ok (putAt_ok p _ mem (by omega))]
    have hcast : (p : Int) + (widthOf k : Int) = ((p + widthOf k : Nat) : Int) := by
      push_cast; rfl
    rw [hcast, ih (p + widthOf k) _ (by omega) (by simp [hw]; omega)]
    have := store_store mem (twosComplementLE (widthOf k) v.toInt)
      (encodeReturns (outs.take i) (rets.take i)) p (by omega)
    simp only [hw] at this ⊢
    rw [this]

theorem length_encodeReturns (outs : List Kind) (rets : List Value)
    (hlen : rets.length = outs.length) :
    (encodeReturns outs rets).length = (outs.map widthOf).sum := by
  have h1 : (outs.zip rets).map Prod.fst = outs := List.map_fst_zip _ _ (by omega)
  simp only [encodeReturns, List.length_flatten, List.map_map, List.map_reverse,
    List.sum_reverse]
  conv_rhs => rw [← h1]
  rw [List.map_map]
  congr 1
  apply List.map_congr_left
  intro kv _
  simp [length_twosComplementLE]

theorem getElem?_stored (mem bytes : List Byte) (p i : Nat)
    (hfit : p + bytes.length ≤ mem.length) (hi : i < p ∨ p + bytes.length ≤ i) :
    (mem.take p ++ bytes ++ mem.drop (p + bytes.length))[i]? = mem[i]? := by
  have hl : (mem.take p).length = p := by simp [List.length_take]; omega
  rcases hi with hi | hi
  · rw [List.append_assoc, List.getElem?_append_left (by omega), List.getElem?_take]
    simp [hi]
  · rw [List.getElem?_append_right (by simp [hl]; omega), List.getElem?_drop]
    congr 1
    simp [hl]
    omega

/-- C17: calling the function that the bridge puts in the place of a native function,
with the memory location `p` as first argument, calls the native function with the
other arguments and then, when its results `rets` are values of integer kinds of 32
or 64 bits and the encodings fit in the memory from `p` on, stores the two's-
complement little-endian encodings of the last result, ..., the first result one
after the other from address `p` on (4 bytes for a 32-bit and 8 bytes for a 64-bit
kind), leaves every other byte as it was when the native function returned, and
returns no results. `SetFunction` registers this function for every native function
with two results or more. -/
theorem adaptMultiReturn_writes (fn : ClosureGenerator) (vm0 vm vm' : VirtualMachine)
    (args rets : List Value) (p : Nat)
    (hcall : (fn vm0).Call args vm = (.ok rets, vm'))
    (hkinds : haveKinds rets (fn vm0).Typ.Out = true)
    (hfit : p + (encodeReturns (fn vm0).Typ.Out rets).length ≤ vm'.Memory.length) :
    (adaptMultiReturn fn vm0).Call (.int p :: args) vm =
      (.ok [], ⟨vm'.Memory.take p ++ encodeReturns (fn vm0).Typ.Out rets ++
        vm'.Memory.drop (p + (encodeReturns (fn vm0).Typ.Out rets).length)⟩) ∧
    (encodeReturns (fn vm0).Typ.Out rets).length = ((fn vm0).Typ.Out.map widthOf).sum ∧
    (∀ i, i < p ∨ p + (encodeReturns (fn vm0).Typ.Out rets).length ≤ i →
      (vm'.Memory.take p ++ encodeReturns (fn vm0).Typ.Out rets ++
        vm'.Memory.drop (p + (encodeReturns (fn vm0).Typ.Out rets).length))[i]? =
        vm'.Memory[i]?) ∧
    (∀ modName funcName b b', 2 ≤ (fn ⟨[]⟩).Typ.Out.length →
      SetFunction modName funcName fn b = (.ok (), b') →
      ∃ mod indexSpace hf, b'.lookup modName = some mod ∧
        mod.IndexSpace = some indexSpace ∧ indexSpace.Function.getLast? = some hf ∧
        hf.ClosureGenerator = adaptMultiReturn fn ∧ hf.Signature.ReturnTypes = []) := by
  obtain ⟨hlen, _⟩ := getElem?_of_haveKinds rets _ hkinds
  refine ⟨?_, length_encodeReturns _ _ hlen, ?_, ?_⟩
  · obtain ⟨mem'⟩ := vm'
    have hw := writeReturns_ok (fn vm0).Typ.Out rets hkinds (fn vm0).Typ.Out.length p mem'
      (Nat.le_refl _)
    have ht1 : (fn vm0).Typ.Out.take (fn vm0).Typ.Out.length = (fn vm0).Typ.Out :=
      List.take_length _
    have ht2 : rets.take (fn vm0).Typ.Out.length = rets := by
      rw [← hlen]; exact List.take_length _
    rw [ht1, ht2] at hw
    have hw' := hw hfit
    simp only [adaptMultiReturn, bind_eq, Value.getInt]
    rw [bind_ok hcall, bind_ok hw']
    rfl
  · intro i hi
    exact getElem?_stored _ _ p i hfit hi
  · intro modName funcName b b' hm h
    obtain ⟨sig, mod, indexSpace, h1, h2, h3, h4⟩ := SetFunction_ok h
    obtain ⟨_, i2⟩ := (getSignature_ok _ sig).mp h1
    have hl : sig.ReturnTypes.length > 1 := by
      have := congrArg List.length i2
      simp only [List.length_map] at this
      omega
    refine ⟨mod, indexSpace, hostFunctionFor fn sig, h2, h3, h4, ?_, ?_⟩ <;>
      simp [hostFunctionFor, hl]

/-- C17 (witness): `divmod(17, 5) = (3, 2)` with `p = 64` in a memory of 72 zero bytes
leaves `2 0 0 0` in the bytes 64..67 and `3 0 0 0` in the bytes 68..71. -/
theorem adaptMultiReturn_writes_witness :
    ((divmod ⟨[]⟩).Call [.int 17, .int 5] ⟨List.replicate 72 0⟩ =
        (.ok [.int 3, .int 2], ⟨List.replicate 72 0⟩) ∧
      haveKinds [.int 3, .int 2] (divmod ⟨[]⟩).Typ.Out = true ∧
      64 + (encodeReturns (divmod ⟨[]⟩).Typ.Out [.int 3, .int 2]).length ≤
        (List.replicate 72 (0 : Byte)).length) ∧
    (adaptMultiReturn divmod ⟨[]⟩).Call [.int 64, .int 17, .int 5] ⟨List.replicate 72 0⟩ =
      (.ok [], ⟨List.replicate 64 0 ++ [2, 0, 0, 0, 3, 0, 0, 0]⟩) :=
  ⟨⟨by decide, by decide, by decide⟩,
   (adaptMultiReturn_writes divmod ⟨[]⟩ ⟨List.replicate 72 0⟩ ⟨List.replicate 72 0⟩
     [.int 17, .int 5] [.int 3, .int 2] 64 (by decide) (by decide) (by decide)).1.trans
     (by decide)⟩

/-! ## Gas charges of the section decoders -/

/-- A charge on a metered balance that does not leave the `int64` range. -/
theorem Step_gas (b n : Int) (h1 : -2 ^ 63 ≤ b - n) (h2 : b - n < 2 ^ 63) :
    (GasMeter.gas b).Step n =
      (if b - n ≤ 0 then .panic (.err .ErrOutOfGas) else .ok (), .gas (b - n)) := by
  simp only [GasMeter.Step, wrapInt64_of_range h1 h2]
  split <;> rfl

theorem decodeUint32Loop_lt (v : Nat) :
    ∀ (n shift acc : Nat) (r r' : Reader),
      decodeUint32Loop n shift acc r = (.ok v, r') → v < 2 ^ 32 := by
  intro n
  induction n with
  | zero => intro shift acc r r' h; simp [decodeUint32Loop, M.fail] at h
  | succ n ih =>
    intro shift acc r r' h
    cases r with
    | nil => simp [decodeUint32Loop] at h
    | cons b t =>
      simp only [decodeUint32Loop] at h
      split at h
      · split at h
        · rename_i hv
          simp only [Prod.mk.injEq, Res.ok.injEq] at h
          rw [← h.1]
          exact hv
        · simp at h
      · exact ih _ _ _ _ h

theorem lt_of_isLeb {enc : List Byte} {v : Nat} (h : isLeb enc v = true) : v < 2 ^ 32 := by
  have h' : DecodeUint32 enc = (.ok v, []) := by simpa [isLeb] using h
  exact decodeUint32Loop_lt v 5 0 0 enc [] h'

/-- C18 (amended): for a custom section with declared size `ss`, `readSection` charges
1 for the id, 4 for the size and `ss` for the payload before it looks at the outcome
of the payload read: when fewer than `ss` payload bytes are left and the meter covers
`5 + ss`, the read error is returned with `5 + ss` charged; with a metered balance `b`
such that `-2^63 < b <= 5 + ss` the call traps with `ErrOutOfGas`, also when the read
fails. At the balance `-2^63`, the least `int64`, the first charge wraps around and
the call does not trap: it ends with the balance `2^63 - 5 - ss`. -/
theorem readSection_custom_charge (env : Env) (m : Module) (g : GasMeter) (b : Int)
    (enc : List Byte) (ss : Nat) (rest : Reader) (henc : isLeb enc ss = true) :
    (g.covers (5 + ss) = true → rest.length < ss →
      ∃ e r', ReadFull ss rest = (.error e, r') ∧
        readSection env ⟨m, ⟨0 :: (enc ++ rest), g⟩⟩ =
          (.error (.wrapf "read section for %d: %w" [0] e),
            ⟨m, ⟨r', g.charged (5 + ss)⟩⟩)) ∧
    (-2 ^ 63 < b → b ≤ 5 + (ss : Int) →
      (readSection env ⟨m, ⟨0 :: (enc ++ rest), .gas b⟩⟩).1 =
        .panic (.err .ErrOutOfGas)) ∧
    (readSection env ⟨m, ⟨0 :: (enc ++ rest), .gas (-2 ^ 63)⟩⟩).1 ≠
        .panic (.err .ErrOutOfGas) ∧
    (readSection env ⟨m, ⟨0 :: (enc ++ rest), .gas (-2 ^ 63)⟩⟩).2.rd.gas =
      .gas (2 ^ 63 - 5 - (ss : Int)) := by
  have hd := decode_of_isLeb henc rest
  have hss : (ss : Int) < 2 ^ 32 := by exact_mod_cast lt_of_isLeb henc
  have hsw : readSectionSwitch env (0 : Byte).val ss = readSectionCustom ss := rfl
  refine ⟨?_, ?_, ?_⟩
  · intro hg hlen
    rcases ReadFull_cases ss rest with ⟨hle, _⟩ | ⟨_, e, r', hrf⟩
    · omega
    · refine ⟨e, r', hrf, ?_⟩
      rw [readSection_header env m 0 rest henc (covers_mono hg (by omega))]
      have hs := step_of_covers ss r' (covers_charged 5 hg (by omega)) (by omega)
      rw [charged_charged] at hs
      simp only [hsw, readSectionCustom, bind_eq, bind_apply, liftRd_apply, mapErr_apply,
        onReader_apply, attempt_apply, hrf, hs]
      rfl
  · intro hlo hhi
    have e1 := Step_gas b 1 (by omega) (by omega)
    simp only [readSection, bind_eq, bind_apply, liftRd_apply, mapErr_apply, onReader_apply,
      step_apply, readByte_cons, e1]
    by_cases h1 : b - 1 ≤ 0
    · simp [h1]
    · have e4 := Step_gas (b - 1) 4 (by omega) (by omega)
      simp only [h1, if_false, hd, e4]
      by_cases h4 : b - 1 - 4 ≤ 0
      · simp [h4]
      · have es := Step_gas (b - 1 - 4) (ss : Int) (by omega) (by omega)
        have hs : b - 1 - 4 - (ss : Int) ≤ 0 := by omega
        simp only [h4, if_false, hsw, readSectionCustom, bind_eq, bind_apply, liftRd_apply,
          attempt_apply, onReader_apply, step_apply, es, hs, if_true]
        rcases ReadFull_cases ss rest with ⟨_, hrf⟩ | ⟨_, e, r', hrf⟩ <;> rw [hrf]
  · have e1 : (GasMeter.gas (-2 ^ 63)).Step 1 = (.ok (), .gas (2 ^ 63 - 1)) := by decide
    have e4 : (GasMeter.gas (2 ^ 63 - 1)).Step 4 = (.ok (), .gas (2 ^ 63 - 5)) := by decide
    have es : (GasMeter.gas (2 ^ 63 - 5)).Step (ss : Int) =
        (.ok (), .gas (2 ^ 63 - 5 - (ss : Int))) := by
      rw [Step_gas _ _ (by omega) (by omega)]
      have : ¬ ((2 : Int) ^ 63 - 5 - (ss : Int) ≤ 0) := by omega
      simp only [this, if_false]
    simp only [readSection, bind_eq, bind_apply, liftRd_apply, mapErr_apply, onReader_apply,
      step_apply, readByte_cons, e1, hd, e4, hsw, readSectionCustom, attempt_apply, es]
    rcases ReadFull_cases ss rest with ⟨_, hrf⟩ | ⟨_, e, r', hrf⟩ <;> rw [hrf] <;>
      exact ⟨by simp [pure_apply, fail_apply], rfl⟩

/-- C18 (witness): the two bytes `00 05`, a custom section of declared size 5 without
payload: with a balance of 11 the read error is returned with 10 charged, with a
balance of 10 the call traps. -/
theorem readSection_custom_charge_witness :
    (isLeb [5] 5 = true ∧ (NewGas 11).covers (5 + 5) = true ∧ ([] : Reader).length < 5 ∧
      -2 ^ 63 < (10 : Int) ∧ (10 : Int) ≤ 5 + ((5 : Nat) : Int)) ∧
    (∃ e r', ReadFull 5 [] = (.error e, r') ∧
      readSection specEnv ⟨{}, ⟨0 :: ([5] ++ []), NewGas 11⟩⟩ =
        (.error (.wrapf "read section for %d: %w" [0] e),
          ⟨{}, ⟨r', (NewGas 11).charged (5 + 5)⟩⟩)) ∧
    (readSection specEnv ⟨{}, ⟨0 :: ([5] ++ []), .gas 10⟩⟩).1 = .panic (.err .ErrOutOfGas) :=
  ⟨⟨by decide, by decide, by decide, by decide, by decide⟩,
   (readSection_custom_charge specEnv {} (NewGas 11) 10 [5] 5 [] (by decide)).1
     (by decide) (by decide),
   (readSection_custom_charge specEnv {} (NewGas 11) 10 [5] 5 [] (by decide)).2.1
     (by decide) (by decide)⟩

/-- C18 (counterexample): with the balance `-2^63`, which is below `5 + 5`, the first
charge wraps around to `2^63 - 1`; the call does not trap and returns the read
error. -/
theorem readSection_custom_charge_counterexample :
    (-2 ^ 63 : Int) ≤ 5 + 5 ∧
    readSection specEnv ⟨{}, ⟨[0, 5], NewGas (-2 ^ 63)⟩⟩ =
      (.error (.wrapf "read section for %d: %w" [0] .EOF), ⟨{}, ⟨[], .gas (2 ^ 63 - 10)⟩⟩) := by
  decide

/-- C19 (the code at the failing input): on a payload that holds the count 0, ten of
the eleven section-body decoders charge 4 gas for the count (a balance of 10 becomes
6); `readSectionTypes` has no charge for the count and leaves every meter as it
was. -/
theorem section_count_charge (env : Env) (m : Module) (rest : Reader) (g : GasMeter) :
    readSectionTypes env ⟨m, ⟨0 :: rest, g⟩⟩ =
      (.ok (), ⟨{ m with SecTypes := [] }, ⟨rest, g⟩⟩) ∧
    readSectionImports env ⟨m, ⟨0 :: rest, NewGas 10⟩⟩ =
      (.ok (), ⟨{ m with SecImports := [] }, ⟨rest, .gas 6⟩⟩) ∧
    readSectionFunctions ⟨m, ⟨0 :: rest, NewGas 10⟩⟩ =
      (.ok (), ⟨{ m with SecFunctions := [] }, ⟨rest, .gas 6⟩⟩) ∧
    readSectionTables ⟨m, ⟨0 :: rest, NewGas 10⟩⟩ =
      (.ok (), ⟨{ m with SecTables := [] }, ⟨rest, .gas 6⟩⟩) ∧
    readSectionMemories ⟨m, ⟨0 :: rest, NewGas 10⟩⟩ =
      (.ok (), ⟨{ m with SecMemory := [] }, ⟨rest, .gas 6⟩⟩) ∧
    readSectionGlobals env ⟨m, ⟨0 :: rest, NewGas 10⟩⟩ =
      (.ok (), ⟨{ m with SecGlobals := [] }, ⟨rest, .gas 6⟩⟩) ∧
    readSectionExports env ⟨m, ⟨0 :: rest, NewGas 10⟩⟩ =
      (.ok (), ⟨{ m with SecExports := [] }, ⟨rest, .gas 6⟩⟩) ∧
    readSectionStart ⟨m, ⟨0 :: rest, NewGas 10⟩⟩ =
      (.ok (), ⟨{ m with SecStart := [] }, ⟨rest, .gas 6⟩⟩) ∧
    readSectionElement env ⟨m, ⟨0 :: rest, NewGas 10⟩⟩ =
      (.ok (), ⟨{ m with SecElements := [] }, ⟨rest, .gas 6⟩⟩) ∧
    readSectionCodes ⟨m, ⟨0 :: rest, NewGas 10⟩⟩ =
      (.ok (), ⟨{ m with SecCodes := [] }, ⟨rest, .gas 6⟩⟩) ∧
    readSectionData env ⟨m, ⟨0 :: rest, NewGas 10⟩⟩ =
      (.ok (), ⟨{ m with SecData := [] }, ⟨rest, .gas 6⟩⟩) := by
  refine ⟨rfl, rfl, rfl, rfl, rfl, rfl, rfl, rfl, rfl, rfl, rfl⟩

/-- C20 (the code at the failing input): when nothing is left of the segment after the
locals declarations, `body[len(body)-1]` is evaluated on an empty body and the call
panics with an index out of range: for a segment of size 1 that declares no locals,
for one whose size is used up by one group of locals, and for a stream that ends
after the locals. -/
theorem readCodeSegment_empty_body (rest : Reader) :
    readCodeSegment ⟨1 :: 0 :: rest, .unmetered⟩ =
      (.panic .indexOutOfRange, ⟨rest, .unmetered⟩) ∧
    readCodeSegment ⟨3 :: 1 :: 2 :: 0x7f :: rest, .unmetered⟩ =
      (.panic .indexOutOfRange, ⟨rest, .unmetered⟩) ∧
    readCodeSegment ⟨[5, 0], .unmetered⟩ = (.panic .indexOutOfRange, ⟨[], .unmetered⟩) := by
  refine ⟨rfl, rfl, rfl⟩

/-! ## The extent of a code segment -/

/-- A charge that the meter covers, as a fact about `Step`. -/
theorem Step_of_covers {g : GasMeter} {c : Nat} (n : Nat) (h : g.covers c = true)
    (hn : n ≤ c) : g.Step (n : Int) = (.ok (), g.charged n) := by
  have hs := step_of_covers n [] h hn
  rw [step_apply] at hs
  have h1 := congrArg Prod.fst hs
  have h2 := congrArg (fun x => x.2.gas) hs
  simp only at h1 h2
  exact Prod.ext h1 h2

/-- The reader that a successful `readCodeSegment` leaves is what follows the first
`ss` bytes after the size field. -/
theorem readCodeSegment_rest {r r1 : Reader} {g : GasMeter} {seg : CodeSegment} {s' : Rd}
    {ss : Nat} (hd : DecodeUint32 r = (.ok ss, r1))
    (h : readCodeSegment ⟨r, g⟩ = (.ok seg, s')) : s'.r = r1.drop ss := by
  obtain ⟨ss', r1', numLocals, rem, hd', hl⟩ := readCodeSegment_ok h
  rw [hd] at hd'
  obtain ⟨rfl, rfl⟩ : ss = ss' ∧ r1 = r1' := by
    simp only [Prod.mk.injEq, Res.ok.injEq] at hd'
    exact hd'
  rw [readCodeSegment_eval hd hl] at h
  rcases hS4 : (g.Step 4).1 with u | e | p
  · rw [hS4] at h
    simp only [] at h
    cases hlast : rem.getLast? with
    | none => simp [hlast] at h
    | some last =>
      simp only [hlast] at h
      by_cases hne : last = OptCodeEnd
      · simp only [hne, ne_eq, not_true_eq_false, if_false, Prod.mk.injEq] at h
        rw [← h.2]
      · simp [hne] at h
  · rw [hS4] at h
    simp at h
  · rw [hS4] at h
    simp at h

/-- C21 (amended): when `readCodeSegment` succeeds with declared size `ss`, the bytes
consumed after the size field are the first `min ss available` of the bytes that
follow it: never more than `ss` (what follows the segment is left in the stream), and
exactly `ss` when that many bytes are available. The end of the stream counts as the
end of the segment: whenever the locals are decoded from the at most `ss` bytes, the
rest ends with `0x0B` and the meter covers `4 + ss`, the call succeeds, whether or
not `ss` bytes were available. -/
theorem readCodeSegment_consumed (r : Reader) (g : GasMeter) :
    (∀ seg s', readCodeSegment ⟨r, g⟩ = (.ok seg, s') →
      ∃ ss r1, DecodeUint32 r = (.ok ss, r1) ∧ r1 = r1.take ss ++ s'.r ∧
        s'.r = r1.drop ss ∧ (r1.take ss).length = min ss r1.length ∧
        (r1.take ss).length ≤ ss ∧ (ss ≤ r1.length → (r1.take ss).length = ss)) ∧
    (∀ ss r1 numLocals rem, DecodeUint32 r = (.ok ss, r1) →
      readLocalDecls (r1.take ss) = (.ok numLocals, rem) →
      rem.getLast? = some OptCodeEnd → g.covers (4 + ss) = true →
      readCodeSegment ⟨r, g⟩ =
        (.ok { NumLocals := numLocals, Body := rem.dropLast },
          ⟨r1.drop ss, g.charged (4 + ss)⟩)) := by
  constructor
  · intro seg s' h
    obtain ⟨ss, r1, numLocals, rem, hd, hl⟩ := readCodeSegment_ok h
    have hr := readCodeSegment_rest hd h
    refine ⟨ss, r1, hd, ?_, hr, List.length_take _ _, ?_, ?_⟩
    · rw [hr, List.take_append_drop]
    · rw [List.length_take]; omega
    · intro hle
      rw [List.length_take]; omega
  · intro ss r1 numLocals rem hd hl hlast hg
    have h4 : g.Step ((4 : Nat) : Int) = (.ok (), g.charged 4) :=
      Step_of_covers 4 hg (by omega)
    have hs : (g.charged 4).Step (ss : Int) = (.ok (), g.charged (4 + ss)) := by
      rw [← charged_charged]
      exact Step_of_covers ss (covers_charged 4 hg (by omega)) (by omega)
    simp only [Nat.cast_ofNat] at h4
    rw [readCodeSegment_eval hd hl, h4]
    simp only [hlast, ne_eq, not_true_eq_false, if_false, hs]

/-- C21 (witness): a segment of declared size 3 followed by the byte `9`, and the
stream `05 00 0B`, which ends two bytes into a segment of declared size 5. -/
theorem readCodeSegment_consumed_witness :
    (readCodeSegment ⟨[3, 0, 0x20, 0x0B, 9], NewGas 20⟩ =
        (.ok { NumLocals := 0, Body := [0x20] }, ⟨[9], .gas 13⟩) ∧
      DecodeUint32 [5, 0, 0x0B] = (.ok 5, [0, 0x0B]) ∧
      readLocalDecls (List.take 5 [0, 0x0B]) = (.ok 0, [0x0B]) ∧
      ([0x0B] : List Byte).getLast? = some OptCodeEnd ∧
      (NewGas 20).covers (4 + 5) = true) ∧
    (∃ ss r1, DecodeUint32 [3, 0, 0x20, 0x0B, 9] = (.ok ss, r1) ∧
      r1 = r1.take ss ++ [9] ∧ ([9] : Reader) = r1.drop ss ∧
      (r1.take ss).length = min ss r1.length ∧ (r1.take ss).length ≤ ss ∧
      (ss ≤ r1.length → (r1.take ss).length = ss)) ∧
    readCodeSegment ⟨[5, 0, 0x0B], NewGas 20⟩ =
      (.ok { NumLocals := 0, Body := [] }, ⟨[], .gas 11⟩) :=
  ⟨⟨by decide, by decide, by decide, by decide, by decide⟩,
   (readCodeSegment_consumed [3, 0, 0x20, 0x0B, 9] (NewGas 20)).1
     { NumLocals := 0, Body := [0x20] } ⟨[9], .gas 13⟩ (by decide),
   (readCodeSegment_consumed [5, 0, 0x0B] (NewGas 20)).2 5 [0, 0x0B] 0 [0x0B]
     (by decide) (by decide) (by decide) (by decide)⟩

/-- C21 (counterexample): the stream `05 00 0B` ends after 2 of the 5 declared bytes
of the segment, and `readCodeSegment` succeeds on it. -/
theorem readCodeSegment_truncated_counterexample :
    DecodeUint32 [5, 0, 0x0B] = (.ok 5, [0, 0x0B]) ∧ ([0, 0x0B] : Reader).length < 5 ∧
    readCodeSegment ⟨[5, 0, 0x0B], .unmetered⟩ =
      (.ok { NumLocals := 0, Body := [] }, ⟨[], .unmetered⟩) := by
  decide

/-! ## The invariant of the registry -/

/-- C22 (the code at the failing input): `SetFunction` on the empty registry with a
native function of type `func(string)` returns the "invalid signature" error after
it has created the module and stored the export: the module is in the registry, its
export `funcName` is of kind function with index 0, its function index space is
empty, and the invariant, which the empty registry has, is lost. The same call with
`divmod` succeeds and keeps the invariant, the export pointing at the one function
registered. -/
theorem SetFunction_invalid_signature (modName funcName : GoString) :
    (SetFunction modName funcName printString NewModuleBuilder).1 =
      .error (.wrapf "invalid signature: %w" []
        (.errorf "invalid type: %s" [Kind.String.toCtorIdx])) ∧
    NewModuleBuilder.lookup modName = none ∧
    ((SetFunction modName funcName printString NewModuleBuilder).2.lookup modName).map
        (fun mod => (mod.SecExports, mod.IndexSpace.map (fun s => s.Function.length))) =
      some (some [(funcName, { Name := funcName,
                               Desc := { Kind := ExportKindFunction, Index := 0 } })],
            some 0) ∧
    registryOk NewModuleBuilder = true ∧
    registryOk (SetFunction modName funcName printString NewModuleBuilder).2 = false ∧
    (SetFunction modName funcName divmod NewModuleBuilder).1 = .ok () ∧
    ((SetFunction modName funcName divmod NewModuleBuilder).2.lookup modName).map
        (fun mod => (mod.SecExports, mod.IndexSpace.map (fun s => s.Function.length))) =
      some (some [(funcName, { Name := funcName,
                               Desc := { Kind := ExportKindFunction, Index := 0 } })],
            some 1) ∧
    registryOk (SetFunction modName funcName divmod NewModuleBuilder).2 = true := by
  have e1 : SetFunction modName funcName printString NewModuleBuilder =
      (.error (.wrapf "invalid signature: %w" []
        (.errorf "invalid type: %s" [Kind.String.toCtorIdx])),
       (NewModuleBuilder.store modName newHostModule).store modName
         { IndexSpace := some ⟨[]⟩,
           SecExports := some (ExportMap.set [] funcName (functionExport funcName 0)) }) :=
    rfl
  have e2 : SetFunction modName funcName divmod NewModuleBuilder =
      (.ok (), (NewModuleBuilder.store modName newHostModule).store modName
         { IndexSpace := some ⟨[hostFunctionFor divmod
             { InputTypes := [ValueTypeI32, ValueTypeI32],
               ReturnTypes := [ValueTypeI32, ValueTypeI32] }]⟩,
           SecExports := some (ExportMap.set [] funcName (functionExport funcName 0)) }) :=
    rfl
  refine ⟨by rw [e1], rfl, ?_, rfl, ?_, by rw [e2], ?_, ?_⟩
  · rw [e1, ModuleBuilder.lookup_store]
    rfl
  · rw [e1]
    simp [registryOk, ModuleBuilder.store, NewModuleBuilder, HostModule.exportsInRange,
      ExportMap.set, functionExport]
  · rw [e2, ModuleBuilder.lookup_store]
    rfl
  · rw [e2]
    simp [registryOk, ModuleBuilder.store, NewModuleBuilder, HostModule.exportsInRange,
      ExportMap.set, functionExport]

end Gasm
